import Mathlib

/-!
# libhaven: page allocator, puddle and pool

A shallow embedding of `src/haven/mem/page-allocator.*`, `src/haven/mem/puddle.hxx`,
`src/haven/mem/pool.hxx` and `src/haven/common/check_conditions.hxx`; the benchmark
buffer `ffs_buffer` follows in a part of its own.

* Addresses and sizes are natural numbers; the null pointer is `0`.
* A slot-status byte is a natural number, `slot_used = 0` and `slot_empty = 0xFF`.
* Each operation receives the answers of the operating system it may ask for
  (`OsReply`), so the operations are functions.
* An operation ends in one of four ways (`Outcome`): it returns, it lets a C++
  exception escape (the object stays behind in some state), a contract check
  calls `std::abort`, or it performs an out-of-bounds write.
-/

set_option autoImplicit false

namespace hvn

/-! ## Build configuration and environment -/

/-- The two Windows backends of the page allocator. -/
inductive Backend where
  | win32
  | mingw
  deriving DecidableEq, Repr

/-- Build-time and platform constants a `puddle<T>` depends on. -/
structure Env where
  /-- Value of `HAVEN_DBG_CHECK_PRE_V`. -/
  check_pre : Bool
  /-- Value of `HAVEN_DBG_CHECK_POST_V`. -/
  check_post : Bool
  /-- Which of `page-allocator.win32.cxx` / `page-allocator.mingw.cxx` is linked. -/
  backend : Backend
  /-- Result of `page_allocator::page_size()`. -/
  page_size : Nat
  /-- Value of `sizeof(T)`. -/
  sizeof_T : Nat
  /-- Value of `xsimd::batch<std::uint_fast8_t>::size`. -/
  simd_size : Nat
  deriving DecidableEq, Repr

/-- Answers of the operating system to the calls one operation may make. -/
structure OsReply where
  /-- Pointer returned by `VirtualAlloc(nullptr, size, MEM_RESERVE, _)` (`0` is `NULL`). -/
  VirtualAlloc_reserve : Nat
  /-- Whether `VirtualAlloc(base, size, MEM_COMMIT, _)` succeeds; it then returns the
  page-aligned `base` it was given, and `NULL` otherwise. -/
  VirtualAlloc_commit : Bool
  /-- Status returned by `OfferVirtualMemory` (`0` is `ERROR_SUCCESS`). -/
  OfferVirtualMemory : Nat
  /-- Status returned by `ReclaimVirtualMemory` (`0` is `ERROR_SUCCESS`). -/
  ReclaimVirtualMemory : Nat
  deriving DecidableEq, Repr

/-- Windows status code `ERROR_SUCCESS`. -/
def ERROR_SUCCESS : Nat := 0

/-- Windows status code `ERROR_BUSY`. -/
def ERROR_BUSY : Nat := 170

/-- The contract checks of the sources, one name per call site. -/
inductive Site where
  | reserve_size_multiple
  | reserve_mem_nonnull
  | commit_allocated_base_nonnull
  | commit_allocated_size_multiple
  | commit_allocated_mem_nonnull
  | commit_allocated_mem_same
  | commit_loaned_addr_nonnull
  | commit_loaned_size_nonzero
  | commit_loaned_mingw
  | decommit_addr_nonnull
  | decommit_size_pos
  | puddle_capacity_pos
  | puddle_not_valid_memory
  | try_allocate_valid_memory
  | try_allocate_use_pos
  | try_allocate_ret_in_page
  | deallocate_pre_valid_memory
  | deallocate_slot_empty
  | deallocate_post_valid_memory
  | inc_use_pos
  | inc_use_le_7
  | dec_use_lt_7
  | dec_use_ge_0
  | retake_buffer_valid_memory
  | give_up_buffer_pre_valid_memory
  | give_up_buffer_post_not_valid_memory
  deriving DecidableEq, Repr

/-- C++ exceptions that can leave the modelled functions. -/
inductive Exn where
  /-- Thrown as `std::bad_alloc` by the page allocator. -/
  | bad_alloc
  /-- Thrown as `std::bad_variant_access` by `std::get`. -/
  | bad_variant_access
  /-- Whatever the constructor of `T` throws. -/
  | constructor_failed
  deriving DecidableEq, Repr

/-- How a page-allocator call ends when it does not return. -/
inductive Fault where
  | abort (site : Site)
  | throw (e : Exn)
  deriving DecidableEq, Repr

/-- How a member function of an object with state `σ` ends. -/
inductive Outcome (σ α : Type) where
  /-- Normal return of `a`, the object is left in state `s`. -/
  | ret (a : α) (s : σ)
  /-- An exception escapes, the object is left in state `s`. -/
  | throw (e : Exn) (s : σ)
  /-- A contract check failed and called `std::abort`. -/
  | abort (site : Site)
  /-- A write outside the bounds of the slot-status vector, or at an index got from
  an undefined pointer difference. -/
  | out_of_bounds

/-! ## check_conditions.hxx -/

/-- The body of `condition_impl::check_condition<do_check, _>`:
`true` when the call returns, `false` when it reaches `std::abort`. -/
def check_condition {α : Type} (do_check : Bool) (fn : α → Bool) (args : α) : Bool :=
  if do_check then
    if fn args then true else false
  else true

/-- The static `condition_impl<Type>::do_pre_checks()`. -/
def do_pre_checks (env : Env) (is_post : Bool) : Bool := !is_post && env.check_pre

/-- The static `condition_impl<Type>::do_post_checks()`. -/
def do_post_checks (env : Env) (is_post : Bool) : Bool := is_post && env.check_post

/-- The call operator of `condition_impl<is_postcondition<is_post>>`:
both `check_condition` calls in source order. -/
def condition_impl {α : Type} (env : Env) (is_post : Bool) (fn : α → Bool) (args : α) : Bool :=
  check_condition (do_pre_checks env is_post) fn args
    && check_condition (do_post_checks env is_post) fn args

/-- The alias `precondition = condition_impl<is_postcondition<false>>`. -/
def precondition {α : Type} (env : Env) (fn : α → Bool) (args : α) : Bool :=
  condition_impl env false fn args

/-- The alias `postcondition = condition_impl<is_postcondition<true>>`. -/
def postcondition {α : Type} (env : Env) (fn : α → Bool) (args : α) : Bool :=
  condition_impl env true fn args

/-! ## page-allocator -/

/-- The two data members shared by `allocated_page`, `committed_page`, `loaned_page`. -/
structure Page where
  base_addr : Nat
  size : Nat
  deriving DecidableEq, Repr

/-- The `std::variant<allocated_page, committed_page, loaned_page>` held by a puddle. -/
inductive PageState where
  | allocated (page : Page)
  | committed (page : Page)
  | loaned (page : Page)
  deriving DecidableEq, Repr

/-- The page inside a handle, whatever its variant (what `std::visit` passes on). -/
def PageState.page : PageState → Page
  | .allocated pg => pg
  | .committed pg => pg
  | .loaned pg => pg

/-- The member `index()` of the variant. -/
def PageState.index : PageState → Nat
  | .allocated _ => 0
  | .committed _ => 1
  | .loaned _ => 2

/-- Sequencing: the continuation runs only after a normal return. -/
def Outcome.bind {σ α β : Type} (o : Outcome σ α) (k : α → σ → Outcome σ β) : Outcome σ β :=
  match o with
  | .ret a s => k a s
  | .throw e s => .throw e s
  | .abort site => .abort site
  | .out_of_bounds => .out_of_bounds

/-- The value a call returns, if it returns. -/
def Outcome.value? {σ α : Type} : Outcome σ α → Option α
  | .ret a _ => some a
  | _ => none

/-- The state an object is left in by a call that returns or throws. -/
def Outcome.state? {σ α : Type} : Outcome σ α → Option σ
  | .ret _ s => some s
  | .throw _ s => some s
  | _ => none

namespace page_allocator

/-- The member `reserve` of `page-allocator.win.cxx`. -/
def reserve (env : Env) (os : OsReply) (size : Nat) : Except Fault Page :=
  if !precondition env (fun a => a.1 % a.2 == 0) (size, env.page_size) then
    .error (.abort .reserve_size_multiple)
  else
    let memory := os.VirtualAlloc_reserve
    if memory == 0 then .error (.throw .bad_alloc)
    else if !postcondition env (fun mem => mem != 0) memory then
      .error (.abort .reserve_mem_nonnull)
    else .ok ⟨memory, size⟩

/-- The overload `commit(allocated_page)` of `page-allocator.win.cxx`. -/
def commit_allocated (env : Env) (os : OsReply) (page : Page) : Except Fault Page :=
  if !precondition env (fun pg => pg.base_addr != 0) page then
    .error (.abort .commit_allocated_base_nonnull)
  else if !precondition env (fun a => a.1 % a.2 == 0) (page.size, env.page_size) then
    .error (.abort .commit_allocated_size_multiple)
  else
    let memory := if os.VirtualAlloc_commit then page.base_addr else 0
    if memory == 0 then .error (.throw .bad_alloc)
    else if !postcondition env (fun mem => mem != 0) memory then
      .error (.abort .commit_allocated_mem_nonnull)
    else if !postcondition env (fun mem => mem == page.base_addr) memory then
      .error (.abort .commit_allocated_mem_same)
    else .ok ⟨memory, page.size⟩

/-- The overload `commit(loaned_page)`: `page-allocator.win32.cxx` reclaims the
memory, `page-allocator.mingw.cxx` has a precondition that is `false`. -/
def commit_loaned (env : Env) (os : OsReply) (page : Page) : Except Fault Page :=
  match env.backend with
  | .win32 =>
    if !precondition env (fun addr => addr != 0) page.base_addr then
      .error (.abort .commit_loaned_addr_nonnull)
    else if !precondition env (fun size => size != 0) page.size then
      .error (.abort .commit_loaned_size_nonzero)
    else
      let status := os.ReclaimVirtualMemory
      if status == ERROR_SUCCESS || status == ERROR_BUSY then .ok ⟨page.base_addr, page.size⟩
      else .error (.throw .bad_alloc)
  | .mingw =>
    if !precondition env (fun (_ : Unit) => false) () then
      .error (.abort .commit_loaned_mingw)
    else .ok ⟨0, 0⟩

/-- The three `commit` overloads as `std::visit` selects them; the result is always
a `committed_page`. -/
def commit (env : Env) (os : OsReply) : PageState → Except Fault Page
  | .allocated pg => commit_allocated env os pg
  | .committed pg => .ok pg
  | .loaned pg => commit_loaned env os pg

/-- The member `decommit`. -/
def decommit (env : Env) (page : Page) : Except Fault Page :=
  if !precondition env (fun addr => addr != 0) page.base_addr then
    .error (.abort .decommit_addr_nonnull)
  else if !precondition env (fun size => decide (size > 0)) page.size then
    .error (.abort .decommit_size_pos)
  else .ok ⟨page.base_addr, page.size⟩

/-- The two `loan` overloads as `std::visit` selects them. No overload takes a
`loaned_page`; that handle is passed through. -/
def loan (env : Env) (os : OsReply) : PageState → PageState
  | .allocated pg =>
    match env.backend with
    | .win32 =>
      if os.OfferVirtualMemory != ERROR_SUCCESS then .allocated pg
      else .loaned ⟨pg.base_addr, pg.size⟩
    | .mingw => .allocated pg
  | .committed pg =>
    match env.backend with
    | .win32 =>
      if os.OfferVirtualMemory != ERROR_SUCCESS then .committed pg
      else .loaned ⟨pg.base_addr, pg.size⟩
    | .mingw => .committed pg
  | .loaned pg => .loaned pg

end page_allocator

/-! ## puddle.hxx -/

/-- The constant `puddle::slot_used`. -/
def slot_used : Nat := 0

/-- The constant `puddle::slot_empty`. -/
def slot_empty : Nat := 0xFF

/-- The data members of `puddle<T>`, with the objects living in its page.
`objs a` is the object of type `T` whose storage starts at address `a`. -/
structure Puddle (V : Type) where
  /-- Member `_use`. -/
  use : Nat
  /-- Member `_ctrl`. -/
  ctrl : List Nat
  /-- Member `_state`. -/
  state : PageState
  /-- Objects constructed in the page and not destroyed since, by address. -/
  objs : Nat → Option V

namespace puddle

variable {V : Type}

/-- The member `capacity`. -/
def capacity (p : Puddle V) : Nat := p.ctrl.length

/-- The member `valid_memory`. -/
def valid_memory (p : Puddle V) : Bool :=
  match p.state with
  | .committed _ => true
  | _ => false

/-- The function object `is_used_slot`. -/
def is_used_slot (elem : Nat) : Bool := elem == slot_used

/-- The constructor `puddle::puddle(allocator_type*)`: `_ctrl` is initialised before
`_state`, then the two postconditions run. -/
def ctor (env : Env) (os : OsReply) : Except Fault (Puddle V) :=
  let ctrl := List.replicate (env.page_size / env.sizeof_T) slot_empty
  match page_allocator.reserve env os env.page_size with
  | .error f => .error f
  | .ok pg =>
    let p : Puddle V := ⟨0, ctrl, .allocated pg, fun _ => none⟩
    if !postcondition env (fun size => decide (size > 0)) (env.page_size / env.sizeof_T) then
      .error (.abort .puddle_capacity_pos)
    else if !postcondition env (fun (_ : Nat) => !valid_memory p) p.state.index then
      .error (.abort .puddle_not_valid_memory)
    else .ok p

/-- The member `retake_buffer`. -/
def retake_buffer (env : Env) (os : OsReply) (p : Puddle V) : Outcome (Puddle V) Unit :=
  match page_allocator.commit env os p.state with
  | .error (.abort site) => .abort site
  | .error (.throw e) => .throw e p
  | .ok pg =>
    let p1 : Puddle V := ⟨p.use, p.ctrl, .committed pg, p.objs⟩
    if !postcondition env (fun (_ : Nat) => valid_memory p1) p1.state.index then
      .abort .retake_buffer_valid_memory
    else .ret () p1

/-- The member `inc_use`. -/
def inc_use (env : Env) (os : OsReply) (p : Puddle V) : Outcome (Puddle V) Unit :=
  (if p.use < 0b111 then
    let p1 : Puddle V := ⟨p.use + 1, p.ctrl, p.state, p.objs⟩
    if p1.use == 0b001 then retake_buffer env os p1 else .ret () p1
  else .ret () p).bind fun _ p2 =>
    if !postcondition env (fun use => decide (use > 0)) p2.use then .abort .inc_use_pos
    else if !postcondition env (fun use => decide (use ≤ 0b111)) p2.use then .abort .inc_use_le_7
    else .ret () p2

/-- The member `give_up_buffer`. -/
def give_up_buffer (env : Env) (os : OsReply) (p : Puddle V) : Outcome (Puddle V) Unit :=
  if !precondition env (fun (_ : Nat) => valid_memory p) p.state.index then
    .abort .give_up_buffer_pre_valid_memory
  else if p.ctrl.any is_used_slot then .ret () p
  else
    let p1 : Puddle V := ⟨p.use, p.ctrl, page_allocator.loan env os p.state, p.objs⟩
    if !postcondition env (fun (_ : Nat) => !valid_memory p1) p1.state.index then
      .abort .give_up_buffer_post_not_valid_memory
    else .ret () p1

/-- The member `dec_use`. -/
def dec_use (env : Env) (os : OsReply) (p : Puddle V) : Outcome (Puddle V) Unit :=
  (if p.use > 0b000 then
    let p1 : Puddle V := ⟨p.use - 1, p.ctrl, p.state, p.objs⟩
    if p1.use == 0b000 then give_up_buffer env os p1 else .ret () p1
  else .ret () p).bind fun _ p2 =>
    if !postcondition env (fun use => decide (use < 0b111)) p2.use then .abort .dec_use_lt_7
    else if !postcondition env (fun use => decide (use ≥ 0)) p2.use then .abort .dec_use_ge_0
    else .ret () p2

/-- The member `unused_in_allocation`. -/
def unused_in_allocation (env : Env) (os : OsReply) (p : Puddle V) : Outcome (Puddle V) Unit :=
  dec_use env os p

/-- The `for` loop of `find_empty`, started at index `i`: the index of the slot it
marks and returns, or `none` when it runs to its end. Each iteration adds
`simd_size` to `i`, so `vectorized_size` iterations (`fuel`) reach the end. -/
def find_empty_loop (simd_size vectorized_size : Nat) (ctrl : List Nat) : Nat → Nat → Option Nat
  | 0, _ => none
  | fuel + 1, i =>
    if i < vectorized_size then
      let batch := (ctrl.drop i).take simd_size
      let has_empty := batch.any (fun b => b == slot_empty)
      if has_empty then
        some (i + batch.indexOf slot_empty)
      else find_empty_loop simd_size vectorized_size ctrl fuel (i + simd_size)
    else none

/-- The member `find_empty`. The result `none` stands for `std::size_t(-1)`, which
is no index of `_ctrl`. -/
def find_empty (env : Env) (p : Puddle V) : Option Nat × Puddle V :=
  let simd_size := env.simd_size
  let ctrl_size := p.ctrl.length
  let vectorized_size := ctrl_size - ctrl_size % simd_size
  match find_empty_loop simd_size vectorized_size p.ctrl vectorized_size 0 with
  | some found => (some found, ⟨p.use, p.ctrl.set found slot_used, p.state, p.objs⟩)
  | none =>
    if vectorized_size != ctrl_size then
      let found := vectorized_size + (p.ctrl.drop vectorized_size).indexOf 0
      if found != ctrl_size then
        (some found, ⟨p.use, p.ctrl.set found slot_used, p.state, p.objs⟩)
      else (none, p)
    else (none, p)

/-- The member `try_allocate`. The constructor arguments are `some v` when the
constructor of `T` completes and leaves an object of value `v`, and `none`
when it throws. The result `0` is `nullptr`. -/
def try_allocate (env : Env) (os : OsReply) (p : Puddle V) (args : Option V) :
    Outcome (Puddle V) Nat :=
  (inc_use env os p).bind fun _ p1 =>
    let idx := (find_empty env p1).1
    let p2 := (find_empty env p1).2
    if !postcondition env (fun (_ : Nat) => valid_memory p2) p2.state.index then
      .abort .try_allocate_valid_memory
    else if !postcondition env (fun use => decide (use > 0)) p2.use then
      .abort .try_allocate_use_pos
    else
      match idx with
      | none => .ret 0 p2
      | some idx =>
        match p2.state with
        | .committed page =>
          match args with
          | none => .throw .constructor_failed p2
          | some v =>
            let ret := page.base_addr + idx * env.sizeof_T
            let p3 : Puddle V := ⟨p2.use, p2.ctrl, p2.state,
              fun a => if a = ret then some v else p2.objs a⟩
            if !postcondition env
                (fun (a : Page × Nat) => a.2 == 0
                  || (decide (a.1.base_addr ≤ a.2) && decide (a.2 < a.1.base_addr + a.1.size)))
                (page, ret) then
              .abort .try_allocate_ret_in_page
            else .ret ret p3
        | _ => .throw .bad_variant_access p2

/-- The member `deallocate`. The slot index is the pointer difference
`std::distance(reinterpret_cast<T*>(page.base_addr()), ptr)` of two `T*`, which is
defined for a pointer at a whole number of elements from the base address. For another
pointer of the page the difference is undefined and the index the code gets is not
that of a slot: the call is taken to end like a write outside the slot-status
vector. -/
def deallocate (env : Env) (p : Puddle V) (ptr : Nat) : Outcome (Puddle V) Bool :=
  if ptr == 0 then .ret true p
  else if !precondition env (fun (_ : Unit) => valid_memory p) () then
    .abort .deallocate_pre_valid_memory
  else
    match p.state with
    | .committed page =>
      if !(decide (page.base_addr ≤ ptr) && decide (ptr < page.base_addr + page.size)) then
        .ret false p
      else if (ptr - page.base_addr) % env.sizeof_T != 0 then .out_of_bounds
      else
        let idx := (ptr - page.base_addr) / env.sizeof_T
        if idx < p.ctrl.length then
          let p1 : Puddle V := ⟨p.use, p.ctrl.set idx slot_empty, p.state,
            fun a => if a = ptr then none else p.objs a⟩
          if !postcondition env (fun slot => slot == slot_empty) (p1.ctrl.getD idx 0) then
            .abort .deallocate_slot_empty
          else if !postcondition env (fun (_ : Unit) => valid_memory p1) () then
            .abort .deallocate_post_valid_memory
          else .ret true p1
        else .out_of_bounds
    | _ => .throw .bad_variant_access p

/-! ## Reachable puddle states -/

/-- A call of one of the three public member functions that change a puddle. -/
inductive Op (V : Type) where
  | try_allocate (os : OsReply) (args : Option V)
  | deallocate (ptr : Nat)
  | unused_in_allocation (os : OsReply)

/-- The state a puddle is left in by a call that returns or lets an exception
escape; `none` when the call aborts the process or writes out of bounds. -/
def step (env : Env) (p : Puddle V) : Op V → Option (Puddle V)
  | .try_allocate os args => (try_allocate env os p args).state?
  | .deallocate ptr => (deallocate env p ptr).state?
  | .unused_in_allocation os => (unused_in_allocation env os p).state?

/-- The states a puddle can be in: the state the constructor leaves, and every
state a public member function leaves when called in such a state. -/
inductive Reachable (env : Env) : Puddle V → Prop where
  | ctor (os : OsReply) (p : Puddle V) : puddle.ctor env os = .ok p → Reachable env p
  | step (p : Puddle V) (op : Op V) (q : Puddle V) :
      Reachable env p → step env p op = some q → Reachable env q

/-- The end of the part of `_ctrl` that the chunked loop of `find_empty` scans. -/
def vectorized_size (env : Env) (p : Puddle V) : Nat :=
  p.ctrl.length - p.ctrl.length % env.simd_size

/-- Facts that hold in every reachable state. -/
structure Inv (env : Env) (p : Puddle V) : Prop where
  /-- The capacity is the one the constructor chose. -/
  len : p.ctrl.length = env.page_size / env.sizeof_T
  /-- The slots past the chunked part are Empty: the scalar search of `find_empty`
  looks for `0` there, so it never claims one of them. -/
  tail : ∀ i, vectorized_size env p ≤ i → i < p.ctrl.length → p.ctrl[i]? = some slot_empty
  /-- The usage counter saturates at 7. -/
  use_le : p.use ≤ 7
  /-- The page handle keeps the size it was reserved with. -/
  size : p.state.page.size = env.page_size
  /-- The page handle keeps a non-null base address. -/
  base : p.state.page.base_addr ≠ 0
  /-- The MinGW backend never hands out a loaned page. -/
  mingw : env.backend = .mingw → ∀ pg, p.state ≠ .loaned pg

/-! ## Clients of one puddle -/

/-- A call a client makes: `try_allocate` or `deallocate`. -/
inductive Call (V : Type) where
  | try_allocate (os : OsReply) (args : Option V)
  | deallocate (ptr : Nat)

/-- A sequence of calls played against a puddle by a client that keeps the list `live`
of the pointers it holds, each with the value its object was constructed with: a
non-null pointer returned by `try_allocate` enters the list, a deallocated pointer
leaves it. The client only deallocates pointers it holds (never one twice, never one
it did not get from this puddle); the result is `none` when it does otherwise, and
when a call aborts the process or writes out of bounds. -/
def run_calls (env : Env) : Puddle V → List (Nat × V) → List (Call V) →
    Option (Puddle V × List (Nat × V))
  | p, live, [] => some (p, live)
  | p, live, .try_allocate os args :: calls =>
    match try_allocate env os p args with
    | .ret ptr q =>
      match args with
      | some v => run_calls env q (if ptr = 0 then live else (ptr, v) :: live) calls
      | none => run_calls env q live calls
    | .throw _ q => run_calls env q live calls
    | _ => none
  | p, live, .deallocate ptr :: calls =>
    if ptr ∈ live.map Prod.fst then
      match deallocate env p ptr with
      | .ret _ q => run_calls env q (live.filter (fun e => e.1 != ptr)) calls
      | .throw _ q => run_calls env q live calls
      | _ => none
    else none

/-- The pointer `e.1` addresses a slot of the chunked part that is Used and holds an
object of value `e.2`, in a committed page. -/
def Holds (env : Env) (p : Puddle V) (e : Nat × V) : Prop :=
  ∃ i, i < vectorized_size env p
    ∧ e.1 = p.state.page.base_addr + i * env.sizeof_T
    ∧ p.ctrl[i]? = some slot_used
    ∧ p.objs e.1 = some e.2
    ∧ valid_memory p = true

/-- Consecutive `try_allocate` calls, one for each value of the list: the pointers
returned, in order, and the state reached; `none` when a call does not return. -/
def try_allocate_each (env : Env) (os : OsReply) : Puddle V → List V →
    Option (List Nat × Puddle V)
  | p, [] => some ([], p)
  | p, v :: vs =>
    match try_allocate env os p (some v) with
    | .ret ptr q =>
      match try_allocate_each env os q vs with
      | some (ptrs, r) => some (ptr :: ptrs, r)
      | none => none
    | _ => none

/-! ## Concrete puddles -/

/-- A build with every check on, for 2048-byte elements on a 4096-byte page and
batches of two slot bytes: capacity 2. -/
def env_two : Env := ⟨true, true, .win32, 4096, 2048, 2⟩

/-- A build with every check on, for 1024-byte elements on a 4096-byte page and
batches of 16 slot bytes: capacity 4. -/
def env_four : Env := ⟨true, true, .win32, 4096, 1024, 16⟩

/-- A build with every check on, for 240-byte elements on a 4096-byte page and
batches of 16 slot bytes: capacity 17. -/
def env_seventeen : Env := ⟨true, true, .win32, 4096, 240, 16⟩

/-- An OS that reserves at address 65536 and grants every request. -/
def os_grants : OsReply := ⟨65536, true, 0, 0⟩

/-- The puddle `ctor env_two os_grants` returns. -/
def puddle_fresh : Puddle Nat :=
  ⟨0, [0xFF, 0xFF], .allocated ⟨65536, 4096⟩, fun _ => none⟩

/-- The puddle after one `try_allocate` that constructs the value 7. -/
def puddle_one : Puddle Nat :=
  ⟨1, [0, 0xFF], .committed ⟨65536, 4096⟩, fun a => if a = 65536 then some 7 else none⟩

/-- The puddle after a second `try_allocate` that constructs the value 8. -/
def puddle_full : Puddle Nat :=
  ⟨2, [0, 0], .committed ⟨65536, 4096⟩,
    fun a => if a = 67584 then some 8 else if a = 65536 then some 7 else none⟩

/-- The puddle after the `deallocate` of the first object. -/
def puddle_second : Puddle Nat :=
  ⟨2, [0xFF, 0], .committed ⟨65536, 4096⟩,
    fun a => if a = 65536 then none
      else if a = 67584 then some 8 else if a = 65536 then some 7 else none⟩

/-! ## Reachable puddle states, commits succeeding -/

/-- The OS grants a commit: `VirtualAlloc` with `MEM_COMMIT` succeeds and
`ReclaimVirtualMemory` reports `ERROR_SUCCESS` or `ERROR_BUSY`. -/
def grants_commit (os : OsReply) : Bool :=
  os.VirtualAlloc_commit
    && (os.ReclaimVirtualMemory == ERROR_SUCCESS || os.ReclaimVirtualMemory == ERROR_BUSY)

/-- The OS denies a commit: `VirtualAlloc` with `MEM_COMMIT` returns `NULL` and
`ReclaimVirtualMemory` reports an error. -/
def denies_commit (os : OsReply) : Bool :=
  !os.VirtualAlloc_commit
    && !(os.ReclaimVirtualMemory == ERROR_SUCCESS || os.ReclaimVirtualMemory == ERROR_BUSY)

/-- The call makes no commit request that the OS denies. -/
def commit_granted : Op V → Bool
  | .try_allocate os _ => grants_commit os
  | .deallocate _ => true
  | .unused_in_allocation _ => true

/-- The states a puddle can be in when the OS has granted every commit so far. -/
inductive ReachableGranted (env : Env) : Puddle V → Prop where
  | ctor (os : OsReply) (p : Puddle V) : puddle.ctor env os = .ok p → ReachableGranted env p
  | step (p : Puddle V) (op : Op V) (q : Puddle V) :
      ReachableGranted env p → commit_granted op = true → step env p op = some q →
      ReachableGranted env q

/-- Facts that hold in every state reachable with commits succeeding. -/
structure InvGranted (env : Env) (p : Puddle V) : Prop where
  /-- The invariant of all reachable states. -/
  inv : Inv env p
  /-- A positive usage counter comes with a committed page. -/
  use_committed : 0 < p.use → valid_memory p = true
  /-- A Used slot comes with a committed page. -/
  used_committed : slot_used ∈ p.ctrl → valid_memory p = true

/-- A build with every check on, for 256-byte elements on a 4096-byte page and batches
of 16 slot bytes: capacity 16. -/
def env_sixteen : Env := ⟨true, true, .win32, 4096, 256, 16⟩

/-- The build of `env_sixteen` with every check off. -/
def env_release : Env := ⟨false, false, .win32, 4096, 256, 16⟩

/-- The build of `env_sixteen` on the MinGW backend. -/
def env_mingw : Env := ⟨true, true, .mingw, 4096, 256, 16⟩

/-- An OS that reserves at address 65536 and denies every commit. -/
def os_denies : OsReply := ⟨65536, false, 0, 1⟩

/-- The puddle `ctor env_sixteen os_grants` returns. -/
def puddle_sixteen : Puddle Nat :=
  ⟨0, List.replicate 16 0xFF, .allocated ⟨65536, 4096⟩, fun _ => none⟩

/-- The puddle `puddle_sixteen` after one `try_allocate` that constructs the value
7. -/
def puddle_sixteen_one : Puddle Nat :=
  ⟨1, 0 :: List.replicate 15 0xFF, .committed ⟨65536, 4096⟩,
    fun a => if a = 65536 then some 7 else none⟩

/-- The puddle `puddle_sixteen` after a `try_allocate` whose commit the OS denied. -/
def puddle_denied : Puddle Nat :=
  ⟨1, List.replicate 16 0xFF, .allocated ⟨65536, 4096⟩, fun _ => none⟩

/-- The puddle `puddle_denied` after one more `try_allocate`, in a build without
checks. -/
def puddle_leaked : Puddle Nat :=
  ⟨2, 0 :: List.replicate 15 0xFF, .allocated ⟨65536, 4096⟩, fun _ => none⟩

/-- The puddle `puddle_sixteen_one` after the `deallocate` of its object. -/
def puddle_idle : Puddle Nat :=
  ⟨1, List.replicate 16 0xFF, .committed ⟨65536, 4096⟩,
    fun a => if a = 65536 then none else if a = 65536 then some 7 else none⟩

end puddle

/-! ## pool.hxx -/

/-- The data members of `pool<T>`. An element of `_puddles` is a `std::unique_ptr`,
which owns a puddle or is null (`none`). -/
structure Pool (V : Type) where
  /-- Member `_ctrl`, one status byte for each puddle. -/
  ctrl : List Nat
  /-- Member `_puddles`. -/
  puddles : List (Option (Puddle V))

/-- How a member function of a pool ends: the ways of `Outcome`, and the call of a
member function through a null `std::unique_ptr`. -/
inductive PoolOutcome (σ α : Type) where
  | ret (a : α) (s : σ)
  | throw (e : Exn) (s : σ)
  | abort (site : Site)
  | out_of_bounds
  | null_dereference

namespace pool

variable {V : Type}

/-- The default member initialisers of `pool`: one status byte `slot_empty` and one
puddle. The class `puddle` of `puddle.hxx` has no default constructor; the puddle is
the one its constructor builds from the page allocator of the pool. -/
def ctor (env : Env) (os : OsReply) : Except Fault (Pool V) :=
  match (puddle.ctor env os : Except Fault (Puddle V)) with
  | .error f => .error f
  | .ok p => .ok ⟨[slot_empty], [some p]⟩

/-- The block of `allocate` under the lock: the index it chooses and the pool it
leaves. Without a free status byte it appends to both vectors; `emplace_back()`
without arguments appends a null `std::unique_ptr`. -/
def select (pool : Pool V) : Nat × Pool V :=
  let empty := pool.ctrl.indexOf slot_empty
  if empty == pool.ctrl.length then
    let puddles := pool.puddles ++ [none]
    let ctrl := pool.ctrl ++ [slot_used]
    (puddles.length - 1, ⟨ctrl.set (ctrl.length - 1) slot_used, puddles⟩)
  else
    (empty, ⟨pool.ctrl.set empty slot_used, pool.puddles⟩)

/-- The `while` loop of `allocate`: each round chooses a puddle with `select` and calls
its `try_allocate`; the loop ends with the pointer and the index of the puddle that
served it. The OS answers `os i` to the requests about the page of puddle `i`. The
number of rounds is bounded by `fuel`; the result is `none` when the loop has not ended
by then. -/
def allocate_loop (env : Env) (os : Nat → OsReply) (args : Option V) :
    Nat → Pool V → Option (PoolOutcome (Pool V) (Nat × Nat))
  | 0, _ => none
  | fuel + 1, pool =>
    let idx := (select pool).1
    let pool1 := (select pool).2
    match pool1.puddles[idx]? with
    | none => some .out_of_bounds
    | some none => some .null_dereference
    | some (some p) =>
      match puddle.try_allocate env (os idx) p args with
      | .ret ptr q =>
        if ptr == 0 then
          allocate_loop env os args fuel ⟨pool1.ctrl, pool1.puddles.set idx (some q)⟩
        else some (.ret (ptr, idx) ⟨pool1.ctrl, pool1.puddles.set idx (some q)⟩)
      | .throw e q => some (.throw e ⟨pool1.ctrl, pool1.puddles.set idx (some q)⟩)
      | .abort site => some (.abort site)
      | .out_of_bounds => some .out_of_bounds

/-- The `for` loop at the end of `allocate` over the puddles from index `i` on: every
puddle but the one at `idx` is told `unused_in_allocation`. -/
def notify_unused (env : Env) (os : Nat → OsReply) (idx : Nat) :
    Nat → List (Option (Puddle V)) → PoolOutcome (List (Option (Puddle V))) Unit
  | _, [] => .ret () []
  | i, e :: rest =>
    if i != idx then
      match e with
      | none => .null_dereference
      | some p =>
        match puddle.unused_in_allocation env (os i) p with
        | .ret _ q =>
          match notify_unused env os idx (i + 1) rest with
          | .ret _ rest1 => .ret () (some q :: rest1)
          | .throw x rest1 => .throw x (some q :: rest1)
          | .abort site => .abort site
          | .out_of_bounds => .out_of_bounds
          | .null_dereference => .null_dereference
        | .throw x q => .throw x (some q :: rest)
        | .abort site => .abort site
        | .out_of_bounds => .out_of_bounds
    else
      match notify_unused env os idx (i + 1) rest with
      | .ret _ rest1 => .ret () (e :: rest1)
      | .throw x rest1 => .throw x (e :: rest1)
      | .abort site => .abort site
      | .out_of_bounds => .out_of_bounds
      | .null_dereference => .null_dereference

/-- The member `allocate`. The constructor arguments are as for `puddle::try_allocate`.
The loop gets `_ctrl.size() + 1` rounds: each round but the last takes a free status
byte, so the loop has ended by then and the result is not `none`. -/
def allocate (env : Env) (os : Nat → OsReply) (pool : Pool V) (args : Option V) :
    Option (PoolOutcome (Pool V) Nat) :=
  match allocate_loop env os args (pool.ctrl.length + 1) pool with
  | none => none
  | some (.ret a pool2) =>
    match notify_unused env os a.2 0 pool2.puddles with
    | .ret _ ps => some (.ret a.1 ⟨pool2.ctrl, ps⟩)
    | .throw x ps => some (.throw x ⟨pool2.ctrl, ps⟩)
    | .abort site => some (.abort site)
    | .out_of_bounds => some .out_of_bounds
    | .null_dereference => some .null_dereference
  | some (.throw x pool2) => some (.throw x pool2)
  | some (.abort site) => some (.abort site)
  | some .out_of_bounds => some .out_of_bounds
  | some .null_dereference => some .null_dereference

/-- The `for` loop of `deallocate` over the puddles: the offset of the first puddle
whose `deallocate` returns `true`, or `none` when every one returns `false`. -/
def probe (env : Env) (mem : Nat) :
    List (Option (Puddle V)) → PoolOutcome (List (Option (Puddle V))) (Option Nat)
  | [] => .ret none []
  | none :: _ => .null_dereference
  | some p :: rest =>
    match puddle.deallocate env p mem with
    | .ret true q => .ret (some 0) (some q :: rest)
    | .ret false q =>
      match probe env mem rest with
      | .ret (some k) rest1 => .ret (some (k + 1)) (some q :: rest1)
      | .ret none rest1 => .ret none (some q :: rest1)
      | .throw x rest1 => .throw x (some q :: rest1)
      | .abort site => .abort site
      | .out_of_bounds => .out_of_bounds
      | .null_dereference => .null_dereference
    | .throw x q => .throw x (some q :: rest)
    | .abort site => .abort site
    | .out_of_bounds => .out_of_bounds

/-- The member `deallocate`. -/
def deallocate (env : Env) (pool : Pool V) (mem : Nat) : PoolOutcome (Pool V) Unit :=
  match probe env mem pool.puddles with
  | .ret (some i) ps =>
    if i < pool.ctrl.length then .ret () ⟨pool.ctrl.set i slot_empty, ps⟩
    else .out_of_bounds
  | .ret none ps => .ret () ⟨pool.ctrl, ps⟩
  | .throw x ps => .throw x ⟨pool.ctrl, ps⟩
  | .abort site => .abort site
  | .out_of_bounds => .out_of_bounds
  | .null_dereference => .null_dereference

/-! ## Clients of one pool -/

/-- A call a client makes: `allocate` with constructor arguments (`none`: the
constructor throws), or `deallocate`. -/
inductive Call (V : Type) where
  | allocate (os : Nat → OsReply) (args : Option V)
  | deallocate (ptr : Nat)

/-- A sequence of calls played against a pool by a client that keeps the list `live`
of the pointers it holds, each with the value its object was constructed with: a
pointer returned by `allocate` enters the list, a deallocated pointer leaves it. The
client deallocates only pointers it holds and the null pointer. The flag tells whether
a call has ended in an exception so far. The result is `none` when the client does
otherwise and when a call ends the process. -/
def run_calls (env : Env) : Pool V → List (Nat × V) → Bool → List (Call V) →
    Option (Pool V × List (Nat × V) × Bool)
  | pool, live, threw, [] => some (pool, live, threw)
  | pool, live, threw, .allocate os args :: calls =>
    match allocate env os pool args with
    | some (.ret ptr pool1) =>
      match args with
      | some v => run_calls env pool1 ((ptr, v) :: live) threw calls
      | none => run_calls env pool1 live threw calls
    | some (.throw _ pool1) => run_calls env pool1 live true calls
    | _ => none
  | pool, live, threw, .deallocate ptr :: calls =>
    if ptr ∈ live.map Prod.fst ∨ ptr = 0 then
      match deallocate env pool ptr with
      | .ret _ pool1 => run_calls env pool1 (live.filter (fun e => e.1 != ptr)) threw calls
      | .throw _ pool1 => run_calls env pool1 live true calls
      | _ => none
    else none

/-- The calls that fill a puddle of a pool slot by slot, for the objects of values
`v`: an `allocate`, and a `deallocate(nullptr)` after each `allocate` but the last. -/
def fill_calls (os : Nat → OsReply) : List V → List (Call V)
  | [] => []
  | [v] => [.allocate os (some v)]
  | v :: vs => .allocate os (some v) :: .deallocate 0 :: fill_calls os vs

/-! ## Concrete pools -/

/-- The pool `ctor env_four os_grants` returns. -/
def pool_four : Pool Nat :=
  ⟨[0xFF], [some ⟨0, [0xFF, 0xFF, 0xFF, 0xFF], .allocated ⟨65536, 4096⟩, fun _ => none⟩]⟩

/-- The pool `ctor env_sixteen os_grants` returns. -/
def pool_sixteen : Pool Nat := ⟨[0xFF], [some puddle.puddle_sixteen]⟩

/-- The pool `pool_sixteen` after one `allocate` that constructs the value 7. -/
def pool_sixteen_one : Pool Nat := ⟨[0], [some puddle.puddle_sixteen_one]⟩

/-- A build with every check on, for 8-byte elements on a 4096-byte page and batches
of 16 slot bytes: capacity 512. -/
def env_512 : Env := ⟨true, true, .win32, 4096, 8, 16⟩

/-- The pool `ctor env_512 os_grants` returns. -/
def pool_512 : Pool Nat :=
  ⟨[0xFF], [some ⟨0, List.replicate 512 0xFF, .allocated ⟨65536, 4096⟩, fun _ => none⟩]⟩

/-- The pool `pool_512` after one `allocate` that constructs the value 1. -/
def pool_512_one : Pool Nat :=
  ⟨[0], [some ⟨1, 0 :: List.replicate 511 0xFF, .committed ⟨65536, 4096⟩,
    fun a => if a = 65536 then some 1 else none⟩]⟩

end pool

/-! ## check_conditions.hxx: what one check does -/

/-- What a contract check does: whether it returns (it calls `std::abort` otherwise),
how often it invokes the predicate, and the text `print_failure` writes in front of the
parameters when the check fails. -/
structure CheckRun where
  returns : Bool
  invocations : Nat
  printed : Option String
  deriving DecidableEq, Repr

/-- The member `check_condition<do_check, _>` with what it prints: the predicate is
invoked inside `if constexpr (do_check)` only. -/
def check_condition_run {α : Type} (do_check : Bool) (cond_msg msg : String)
    (fn : α → Bool) (args : α) : CheckRun :=
  if do_check then
    if fn args then ⟨true, 1, none⟩
    else ⟨false, 1, some (cond_msg ++ msg)⟩
  else ⟨true, 0, none⟩

/-- The call operator of `condition_impl<is_postcondition<is_post>>` that takes a
message: the two `check_condition` calls in source order, the second only when the
first has returned. -/
def condition_impl_run {α : Type} (env : Env) (is_post : Bool) (msg : String)
    (fn : α → Bool) (args : α) : CheckRun :=
  let first := check_condition_run (do_pre_checks env is_post) "precondition failed: " msg fn args
  if first.returns then
    let second :=
      check_condition_run (do_post_checks env is_post) "postcondition failed: " msg fn args
    ⟨second.returns, first.invocations + second.invocations, second.printed⟩
  else first

/-- The call operator of `condition_impl` without a message: it passes
`"unnamed-condition"_msg` to the other call operator. -/
def condition_impl_unnamed {α : Type} (env : Env) (is_post : Bool)
    (fn : α → Bool) (args : α) : CheckRun :=
  condition_impl_run env is_post "unnamed-condition" fn args

/-! ## Page handles a program can hold -/

namespace page_allocator

/-- The page handles a program can hold. The three page classes have private
constructors, so a handle is what `reserve` returned or what `commit`, `decommit` or
`loan` returned for a handle the program held. The member `allocate`, which no other
code of the library calls, is left out. -/
inductive Issued (env : Env) : PageState → Prop where
  | reserve (os : OsReply) (size : Nat) (pg : Page) :
      reserve env os size = .ok pg → Issued env (.allocated pg)
  | commit (os : OsReply) (st : PageState) (pg : Page) :
      Issued env st → commit env os st = .ok pg → Issued env (.committed pg)
  | decommit (pg pg2 : Page) :
      Issued env (.committed pg) → decommit env pg = .ok pg2 → Issued env (.allocated pg2)
  | loan (os : OsReply) (st : PageState) :
      Issued env st → st.index ≠ 2 → Issued env (loan env os st)

end page_allocator

/-- The build of `env_sixteen` on the MinGW backend with every check off. -/
def env_mingw_release : Env := ⟨false, false, .mingw, 4096, 256, 16⟩

/-- An OS that reserves at address 65536, grants every commit and rejects every
offer. -/
def os_rejects_offer : OsReply := ⟨65536, true, 1, 0⟩

namespace pool

/-- A pool of two puddles of capacity 16 with both status bytes free: every slot of the
first puddle is Used and holds an object of value 7, the second puddle is new and has
its page at address 131072. -/
def pool_two : Pool Nat :=
  ⟨[0xFF, 0xFF],
    [some ⟨1, List.replicate 16 0, .committed ⟨65536, 4096⟩,
        fun a =>
          if a ∈ (List.range 16).map (fun i => 65536 + i * 256) then some 7 else none⟩,
      some ⟨0, List.replicate 16 0xFF, .allocated ⟨131072, 4096⟩, fun _ => none⟩]⟩

/-- The pool `pool_two` when the loop of `allocate` has ended: the first puddle was
tried and found full, the second has served the object of value 9. -/
def pool_two_tried : Pool Nat :=
  ⟨[0, 0],
    [some ⟨2, List.replicate 16 0, .committed ⟨65536, 4096⟩,
        fun a =>
          if a ∈ (List.range 16).map (fun i => 65536 + i * 256) then some 7 else none⟩,
      some ⟨1, 0 :: List.replicate 15 0xFF, .committed ⟨131072, 4096⟩,
        fun a => if a = 131072 then some 9 else none⟩]⟩

/-- The pool `pool_two` after that `allocate`. -/
def pool_two_served : Pool Nat :=
  ⟨[0, 0],
    [some ⟨1, List.replicate 16 0, .committed ⟨65536, 4096⟩,
        fun a =>
          if a ∈ (List.range 16).map (fun i => 65536 + i * 256) then some 7 else none⟩,
      some ⟨1, 0 :: List.replicate 15 0xFF, .committed ⟨131072, 4096⟩,
        fun a => if a = 131072 then some 9 else none⟩]⟩

end pool

/-! ## Threads that call try_allocate -/

namespace puddle

variable {V : Type}

/-- The block of `try_allocate` that holds `_puddle_mx`: `inc_use`, `find_empty` and the
two postconditions; it leaves the index `find_empty` returned. -/
def try_allocate_locked (env : Env) (os : OsReply) (p : Puddle V) :
    Outcome (Puddle V) (Option Nat) :=
  (inc_use env os p).bind fun _ p1 =>
    let idx := (find_empty env p1).1
    let p2 := (find_empty env p1).2
    if !postcondition env (fun (_ : Nat) => valid_memory p2) p2.state.index then
      .abort .try_allocate_valid_memory
    else if !postcondition env (fun use => decide (use > 0)) p2.use then
      .abort .try_allocate_use_pos
    else .ret idx p2

/-- The part of `try_allocate` behind that block, which runs without the lock when
`find_empty` has returned the index `idx`: the object is constructed in the slot. -/
def try_allocate_construct (env : Env) (p2 : Puddle V) (idx : Nat) (args : Option V) :
    Outcome (Puddle V) Nat :=
  match p2.state with
  | .committed page =>
    match args with
    | none => .throw .constructor_failed p2
    | some v =>
      let ret := page.base_addr + idx * env.sizeof_T
      let p3 : Puddle V := ⟨p2.use, p2.ctrl, p2.state,
        fun a => if a = ret then some v else p2.objs a⟩
      if !postcondition env
          (fun (a : Page × Nat) => a.2 == 0
            || (decide (a.1.base_addr ≤ a.2) && decide (a.2 < a.1.base_addr + a.1.size)))
          (page, ret) then
        .abort .try_allocate_ret_in_page
      else .ret ret p3
  | _ => .throw .bad_variant_access p2

/-- Where a thread is in its call of `try_allocate`: it has not taken the lock yet, it
has released the lock with the index `idx` and not constructed the object yet, or the
call has ended. -/
inductive Thread (V : Type) where
  | calling (os : OsReply) (args : Option V)
  | unlocked (idx : Nat) (args : Option V)
  | returned (ptr : Nat)
  | threw (e : Exn)

/-- One step of a thread: the block under the lock, which the mutex makes atomic, or
the construction of the object. The result is `none` when the call has ended already
and when the step ends the process. -/
def thread_step (env : Env) (p : Puddle V) : Thread V → Option (Puddle V × Thread V)
  | .calling os args =>
    match try_allocate_locked env os p with
    | .ret none q => some (q, .returned 0)
    | .ret (some idx) q => some (q, .unlocked idx args)
    | .throw e q => some (q, .threw e)
    | _ => none
  | .unlocked idx args =>
    match try_allocate_construct env p idx args with
    | .ret ptr q => some (q, .returned ptr)
    | .throw e q => some (q, .threw e)
    | _ => none
  | _ => none

/-- The threads run interleaved: `schedule` lists, step by step, the thread that moves.
The result is `none` when the schedule names no thread or a thread that cannot
move. -/
def run_threads (env : Env) : Puddle V → List (Thread V) → List Nat →
    Option (Puddle V × List (Thread V))
  | p, threads, [] => some (p, threads)
  | p, threads, t :: schedule =>
    match threads[t]? with
    | none => none
    | some th =>
      match thread_step env p th with
      | none => none
      | some (q, th1) => run_threads env q (threads.set t th1) schedule

/-- The slot index a thread holds, for a page at address `base`: the index it left the
lock with, or the index of the slot its non-null pointer addresses. -/
def Thread.claims (env : Env) (base : Nat) : Thread V → Nat → Prop
  | .unlocked idx _, i => idx = i
  | .returned ptr, i => ptr ≠ 0 ∧ ptr = base + i * env.sizeof_T
  | _, _ => False

/-- The puddle `ctor env_four os_grants` returns: capacity 4, below the batch size. -/
def puddle_four : Puddle Nat :=
  ⟨0, [0xFF, 0xFF, 0xFF, 0xFF], .allocated ⟨65536, 4096⟩, fun _ => none⟩

/-- The puddle `puddle_four` after two `try_allocate` calls that returned `nullptr`. -/
def puddle_four_tried_twice : Puddle Nat :=
  ⟨2, [0xFF, 0xFF, 0xFF, 0xFF], .committed ⟨65536, 4096⟩, fun _ => none⟩

end puddle

/-! ## The plain search that find_empty is compared with -/

namespace puddle

variable {V : Type}

/-- A plain left-to-right linear search for the Empty sentinel, as the specification
describes the scan: the index of the first Empty slot, which it marks Used, or the
no-slot value `none` when no slot is Empty. -/
def linear_search_empty (p : Puddle V) : Option Nat × Puddle V :=
  let found := p.ctrl.indexOf slot_empty
  if found < p.ctrl.length then
    (some found, ⟨p.use, p.ctrl.set found slot_used, p.state, p.objs⟩)
  else (none, p)

/-- The puddle `ctor env_seventeen os_grants` returns after one `try_allocate` that
constructs the value 7: capacity 17 on a page of 4096 bytes, 16 bytes of which lie
behind the last slot. -/
def puddle_seventeen_one : Puddle Nat :=
  ⟨1, 0 :: List.replicate 16 0xFF, .committed ⟨65536, 4096⟩,
    fun a => if a = 65536 then some 7 else none⟩

end puddle

namespace pool

/-- The pool `pool_sixteen` after an `allocate` that constructs the value 7, a
`deallocate(nullptr)` and an `allocate` that constructs the value 8: the only puddle
holds two objects and its status byte is busy. -/
def pool_sixteen_two : Pool Nat :=
  ⟨[0], [some ⟨2, 0 :: 0 :: List.replicate 14 0xFF, .committed ⟨65536, 4096⟩,
    fun a => if a = 65792 then some 8 else if a = 65536 then some 7 else none⟩]⟩

/-- The states a pool can be in: the state its constructor leaves, and every state a
call of `allocate` or `deallocate`, with whatever arguments, leaves when it returns or
lets an exception escape. -/
inductive Reachable {V : Type} (env : Env) : Pool V → Prop where
  | ctor (os : OsReply) (s : Pool V) : pool.ctor env os = .ok s → Reachable env s
  | allocate (s s1 : Pool V) (os : Nat → OsReply) (args : Option V) (ptr : Nat) :
      Reachable env s → pool.allocate env os s args = some (.ret ptr s1) →
      Reachable env s1
  | allocate_throws (s s1 : Pool V) (os : Nat → OsReply) (args : Option V) (e : Exn) :
      Reachable env s → pool.allocate env os s args = some (.throw e s1) →
      Reachable env s1
  | deallocate (s s1 : Pool V) (mem : Nat) :
      Reachable env s → pool.deallocate env s mem = .ret () s1 → Reachable env s1
  | deallocate_throws (s s1 : Pool V) (mem : Nat) (e : Exn) :
      Reachable env s → pool.deallocate env s mem = .throw e s1 → Reachable env s1

end pool

end hvn

/-!
# The benchmark buffer `ffs_buffer`

A shallow embedding of `benchmark/buffer/ffs_buffer.cxx` and
`benchmark/ffs vs ringbuffer/ffs_buffer.hxx`, for a 64-bit `std::size_t`.

* A control word is a natural number below `2 ^ 64`; a set bit is a free slot.
* The member functions are embedded as one thread runs them: a
  `compare_exchange_strong` finds the value it has just loaded.
-/

/-- The compiler that builds `ffs_buffer.cxx`. For MSVC, the value `_BitScanForward64`
leaves in `Index` when no bit of the mask is set, which its documentation leaves
undefined. -/
inductive Compiler where
  | gnu
  | msvc (index_of_zero : Nat)
  deriving DecidableEq, Repr

namespace bit

/-- The scan both intrinsics perform on a non-zero mask: the number of steps from bit 0
upwards to the first set bit. The mask has 64 bits, so 64 steps (`fuel`) suffice. -/
def scan_forward : Nat → Nat → Nat
  | 0, _ => 0
  | fuel + 1, mask => if mask % 2 = 1 then 0 else scan_forward fuel (mask / 2) + 1

/-- The GCC builtin `__builtin_ffsll`: one plus the index of the least significant
1-bit of `x`, or zero if `x` is zero. -/
def builtin_ffsll (x : Nat) : Nat :=
  if x = 0 then 0 else scan_forward 64 x + 1

/-- The MSVC intrinsic `_BitScanForward64(&Index, Mask)`: the returned flag and the
value of `Index` after the call. -/
def BitScanForward64 (index_of_zero mask : Nat) : Nat × Nat :=
  if mask = 0 then (0, index_of_zero) else (1, scan_forward 64 mask)

/-- The function `bit::ffs` of `ffs_buffer.cxx`, in its two versions. The subtraction
is the one of `int` for GNU and the one of `std::size_t` for MSVC; the result is
converted to `std::size_t`. -/
def ffs (c : Compiler) (data : Nat) : Nat :=
  match c with
  | .gnu => (builtin_ffsll data + 2 ^ 64 - 1) % 2 ^ 64
  | .msvc index_of_zero =>
    let found := (BitScanForward64 index_of_zero data).1
    let idx := (BitScanForward64 index_of_zero data).2
    (found * idx + 2 ^ 64 - (if found != 0 then 0 else 1)) % 2 ^ 64

/-- The count both `__builtin_popcountll` and `__popcnt64` return: the number of set
bits among the lowest `fuel` bits. -/
def popcount_loop : Nat → Nat → Nat
  | 0, _ => 0
  | fuel + 1, data => data % 2 + popcount_loop fuel (data / 2)

/-- The function `bit::popcount`. -/
def popcount (data : Nat) : Nat := popcount_loop 64 data

end bit

/-- The template arguments of `ffs_buffer<T, PageSize>` and the build. -/
structure Params where
  /-- Template argument `PageSize`. -/
  page_size : Nat
  /-- Value of `sizeof(T)`, the constant `elem_size`. -/
  elem_size : Nat
  /-- Whether `NDEBUG` is defined, which removes the `assert`s. -/
  ndebug : Bool
  /-- The compiler. -/
  compiler : Compiler
  deriving DecidableEq, Repr

/-- The data members of `ffs_buffer<T, PageSize>`. `data a` is the object of type `T`
whose storage starts at `_data[a]`. -/
structure FfsBuffer (V : Type) where
  /-- Member `_ctrl`. -/
  ctrl : List Nat
  /-- Objects constructed in `_data` and not destroyed since, by byte index. -/
  data : Nat → Option V

namespace ffs_buffer

variable {V : Type}

/-- How a member function of a buffer ends: it returns, an exception of `T` escapes,
an `assert` fails, or it accesses `_ctrl` or `_data` out of bounds. -/
inductive Result (σ α : Type) where
  | ret (a : α) (s : σ)
  | throw (s : σ)
  | assert_failed
  | out_of_bounds

/-- The value `std::size_t(-1)`, also written `-1ULL`. -/
def size_max : Nat := 2 ^ 64 - 1

/-- The constant `max_count`. -/
def max_count (t : Params) : Nat := t.page_size / t.elem_size

/-- The constant `ctrl_size`, the value of `ctrl_impl_type`. -/
def ctrl_size (t : Params) : Nat :=
  if max_count t / 64 == 0 then 1
  else if max_count t % 64 == 0 then max_count t / 64
  else max_count t / 64 + 1

/-- The constructor with the default member initialisers: `_ctrl{{0xFFFF'FFFF'FFFF'FFFFULL}}`
gives the first control word that value and value-initialises the others, to zero. -/
def ctor (t : Params) : FfsBuffer V :=
  ⟨0xFFFFFFFFFFFFFFFF :: List.replicate (ctrl_size t - 1) 0, fun _ => none⟩

/-- The member `capacity`. -/
def capacity (t : Params) : Nat := max_count t

/-- The member `was_full`. -/
def was_full (b : FfsBuffer V) : Bool :=
  b.ctrl.all (fun x => bit.popcount x == 0)

/-- The member `destructure_idx`: the pair `ctrl_idx`, `bit_idx`. -/
def destructure_idx (t : Params) (idx : Nat) : Nat × Nat :=
  (idx / ctrl_size t, idx % ctrl_size t)

/-- The member `typed_idx2buffer_idx`. -/
def typed_idx2buffer_idx (t : Params) (i : Nat) : Nat := i * t.elem_size

/-- The member `dealloc_slot`. The second `assert` compares with
`sizeof(_ctrl[ctrl_idx])`, which is 8. -/
def dealloc_slot (t : Params) (b : FfsBuffer V) (idx : Nat) : Result (FfsBuffer V) Unit :=
  let ctrl_idx := (destructure_idx t idx).1
  let bit_idx := (destructure_idx t idx).2
  if !t.ndebug && !decide (ctrl_idx < b.ctrl.length) then .assert_failed
  else if !t.ndebug && !decide (bit_idx < 8) then .assert_failed
  else if ctrl_idx < b.ctrl.length then
    let mask := (1 <<< bit_idx) % 2 ^ 64
    let val := b.ctrl.getD ctrl_idx 0 ||| mask
    .ret () ⟨b.ctrl.set ctrl_idx val, b.data⟩
  else .out_of_bounds

/-- The `for` loop of `alloc_next_free_slot` from control word `i` on, over the control
words not yet visited: the index it returns and those words after the exchange, or
`none` when it runs to its end. -/
def alloc_next_free_slot_loop (c : Compiler) : Nat → List Nat → Option (Nat × List Nat)
  | _, [] => none
  | i, val :: rest =>
    let idx := bit.ffs c val
    if idx == size_max then
      match alloc_next_free_slot_loop c (i + 1) rest with
      | none => none
      | some (r, rest1) => some (r, val :: rest1)
    else
      let mask := (2 ^ 64 - 1) - (1 <<< idx) % 2 ^ 64
      let set_val := val &&& mask
      some ((i * 8 * 8 + idx) % 2 ^ 64, set_val :: rest)

/-- The member `alloc_next_free_slot`. -/
def alloc_next_free_slot (t : Params) (b : FfsBuffer V) : Nat × FfsBuffer V :=
  match alloc_next_free_slot_loop t.compiler 0 b.ctrl with
  | none => (size_max, b)
  | some (r, ctrl) => (r, ⟨ctrl, b.data⟩)

/-- The member `insert`. The value is `some v` when the constructor of `T` completes and
leaves an object of value `v`, and `none` when it throws. The result is `none` for the
null reference `ref_t()` and `some idx` for a reference with index `idx`. -/
def insert (t : Params) (b : FfsBuffer V) (val : Option V) :
    Result (FfsBuffer V) (Option Nat) :=
  let typed_idx := (alloc_next_free_slot t b).1
  let b1 := (alloc_next_free_slot t b).2
  if typed_idx == size_max then .ret none b1
  else
    let raw_idx := typed_idx2buffer_idx t typed_idx
    if raw_idx + t.elem_size ≤ t.page_size then
      match val with
      | some v => .ret (some typed_idx) ⟨b1.ctrl, fun a => if a = raw_idx then some v else b1.data a⟩
      | none =>
        match dealloc_slot t b1 typed_idx with
        | .ret _ b2 => .throw b2
        | .throw b2 => .throw b2
        | .assert_failed => .assert_failed
        | .out_of_bounds => .out_of_bounds
    else .out_of_bounds

/-- Consecutive `insert` calls, one for each value of the list: the references
returned, in order, and the state reached; `none` when a call does not return. -/
def insert_each (t : Params) : FfsBuffer V → List V → Option (List (Option Nat) × FfsBuffer V)
  | b, [] => some ([], b)
  | b, v :: vs =>
    match insert t b (some v) with
    | .ret r b1 =>
      match insert_each t b1 vs with
      | some (rs, b2) => some (r :: rs, b2)
      | none => none
    | _ => none

/-- The buffer `ffs_buffer<T, 4096>` for a type of 128 bytes, built by GCC with
`NDEBUG`: capacity 32. -/
def params_32 : Params := ⟨4096, 128, true, .gnu⟩

end ffs_buffer

namespace ffs_buffer

variable {V : Type}

/-- The member `remove`: the object at `_data[idx]` is destroyed, then the slot is
released by `dealloc_slot`. -/
def remove (t : Params) (b : FfsBuffer V) (typed_idx : Nat) : Result (FfsBuffer V) Unit :=
  let idx := typed_idx2buffer_idx t typed_idx
  if idx + t.elem_size ≤ t.page_size then
    dealloc_slot t ⟨b.ctrl, fun a => if a = idx then none else b.data a⟩ typed_idx
  else .out_of_bounds

/-- The member `checked_remove`. The exchange expects the control word with the bit of
the slot cleared and stores it with the bit set; when it succeeds `remove` is called. -/
def checked_remove (t : Params) (b : FfsBuffer V) (typed_idx : Nat) :
    Result (FfsBuffer V) Unit :=
  let ctrl_idx := (destructure_idx t typed_idx).1
  let bit_idx := (destructure_idx t typed_idx).2
  if ctrl_idx < b.ctrl.length then
    let on_mask := (1 <<< bit_idx) % 2 ^ 64
    let off_mask := (2 ^ 64 - 1) - on_mask
    let val := b.ctrl.getD ctrl_idx 0
    let with_value := val &&& off_mask
    let without_value := val ||| on_mask
    if val == with_value then
      remove t ⟨b.ctrl.set ctrl_idx without_value, b.data⟩ typed_idx
    else .ret () b
  else .out_of_bounds

/-- The control words a member function leaves when it returns. -/
def returned_ctrl {α : Type} : Result (FfsBuffer V) α → Option (List Nat)
  | .ret _ b => some b.ctrl
  | _ => none

/-- The buffer `ffs_buffer<test_type>` of the tests, for a type of 8 bytes and the
default page size 4096, built by GCC with `NDEBUG`: capacity 512, 8 control words. -/
def params_512 : Params := ⟨4096, 8, true, .gnu⟩

/-- The same buffer built without `NDEBUG`. -/
def params_512_debug : Params := ⟨4096, 8, false, .gnu⟩

end ffs_buffer

namespace hvn

theorem postcondition_eq {α : Type} (env : Env) (fn : α → Bool) (a : α) :
    postcondition env fn a = (!env.check_post || fn a) := by
  unfold postcondition condition_impl check_condition do_pre_checks do_post_checks
  cases env.check_post <;> cases fn a <;> simp

theorem precondition_eq {α : Type} (env : Env) (fn : α → Bool) (a : α) :
    precondition env fn a = (!env.check_pre || fn a) := by
  unfold precondition condition_impl check_condition do_pre_checks do_post_checks
  cases env.check_pre <;> cases fn a <;> simp

/-! ## The slot scan -/

theorem indexOf_spec (a : Nat) : ∀ (l : List Nat),
    (a ∈ l → l.indexOf a < l.length ∧ l[l.indexOf a]? = some a)
    ∧ (∀ k, k < l.indexOf a → l[k]? ≠ some a)
    ∧ (a ∉ l → l.indexOf a = l.length)
  | [] => by simp
  | b :: l => by
    obtain ⟨h1, h2, h3⟩ := indexOf_spec a l
    by_cases hb : b = a
    · subst hb
      simp [List.indexOf_cons]
    · have hb' : (b == a) = false := by simpa using hb
      have hab : ¬ a = b := fun h => hb h.symm
      refine ⟨?_, ?_, ?_⟩
      · intro hm
        have hm' : a ∈ l := by simpa [hab] using hm
        obtain ⟨h1a, h1b⟩ := h1 hm'
        simp [List.indexOf_cons, hb', h1a, h1b]
      · intro k hk
        simp only [List.indexOf_cons, hb', cond_false] at hk
        cases k with
        | zero => simpa using hb
        | succ k =>
          have := h2 k (by omega)
          simpa using this
      · intro hm
        have hm' : a ∉ l := by
          intro h; exact hm (List.mem_cons_of_mem _ h)
        simp [List.indexOf_cons, hb', h3 hm']

namespace puddle

variable {V : Type}

/-- What the chunked loop of `find_empty` computes when started at a chunk boundary:
the least index of an Empty slot from `i` on, below `vs`. -/
theorem find_empty_loop_spec (W vs : Nat) (ctrl : List Nat) (hW : 0 < W) (hvs : W ∣ vs) :
    ∀ fuel i, W ∣ i → vs ≤ i + fuel * W →
      (∀ j, find_empty_loop W vs ctrl fuel i = some j →
        i ≤ j ∧ j < vs ∧ ctrl[j]? = some slot_empty
          ∧ ∀ k, i ≤ k → k < j → ctrl[k]? ≠ some slot_empty)
      ∧ (find_empty_loop W vs ctrl fuel i = none →
        ∀ k, i ≤ k → k < vs → ctrl[k]? ≠ some slot_empty) := by
  intro fuel
  induction fuel with
  | zero =>
    intro i _ hle
    simp only [find_empty_loop]
    refine ⟨by simp, ?_⟩
    intro _ k hk1 hk2
    omega
  | succ fuel ih =>
    intro i hi hle
    obtain ⟨a, rfl⟩ := hvs
    obtain ⟨b, rfl⟩ := hi
    simp only [find_empty_loop]
    by_cases hlt : W * b < W * a
    · have hba : b + 1 ≤ a := by
        have := Nat.lt_of_mul_lt_mul_left hlt
        omega
      have hnext : W * b + W ≤ W * a := by
        calc W * b + W = W * (b + 1) := by ring
          _ ≤ W * a := Nat.mul_le_mul_left _ hba
      obtain ⟨s1, s2, s3⟩ := indexOf_spec slot_empty ((ctrl.drop (W * b)).take W)
      simp only [hlt, if_true]
      by_cases hany : ((ctrl.drop (W * b)).take W).any (fun x => x == slot_empty) = true
      · simp only [hany, if_true]
        have hmem : slot_empty ∈ (ctrl.drop (W * b)).take W := by
          simpa using hany
        obtain ⟨hl, hg⟩ := s1 hmem
        have hlW : List.indexOf slot_empty ((ctrl.drop (W * b)).take W) < W := by
          have : ((ctrl.drop (W * b)).take W).length ≤ W := by simp
          omega
        refine ⟨?_, by simp⟩
        intro j hj
        simp only [Option.some.injEq] at hj
        subst hj
        refine ⟨by omega, by omega, ?_, ?_⟩
        · simpa [List.getElem?_take, hlW] using hg
        · intro k hk1 hk2
          have := s2 (k - W * b) (by omega)
          have hkW : k - W * b < W := by omega
          have hkk : W * b + (k - W * b) = k := by omega
          simpa [List.getElem?_take, hkW, hkk] using this
      · simp only [hany]
        have hnot : slot_empty ∉ (ctrl.drop (W * b)).take W := by
          simpa using hany
        have hchunk : ∀ k, W * b ≤ k → k < W * b + W → ctrl[k]? ≠ some slot_empty := by
          intro k hk1 hk2 hk
          apply hnot
          have hkW : k - W * b < W := by omega
          have hkk : W * b + (k - W * b) = k := by omega
          have : ((ctrl.drop (W * b)).take W)[k - W * b]? = some slot_empty := by
            simpa [List.getElem?_take, hkW, hkk] using hk
          exact List.getElem?_mem this
        obtain ⟨r1, r2⟩ := ih (W * b + W) ⟨b + 1, by ring⟩ (by
          have : (fuel + 1) * W = fuel * W + W := by ring
          omega)
        refine ⟨?_, ?_⟩
        · intro j hj
          obtain ⟨q1, q2, q3, q4⟩ := r1 j (by simpa using hj)
          refine ⟨by omega, q2, q3, ?_⟩
          intro k hk1 hk2
          by_cases hk : k < W * b + W
          · exact hchunk k hk1 hk
          · exact q4 k (by omega) hk2
        · intro hn k hk1 hk2
          by_cases hk : k < W * b + W
          · exact hchunk k hk1 hk
          · exact r2 (by simpa using hn) k (by omega) hk2
    · simp only [hlt, if_false]
      refine ⟨by simp, ?_⟩
      intro _ k hk1 hk2
      omega

/-- With every slot past the chunked part Empty, `find_empty` claims the first
Empty slot of the chunked part, or finds nothing and changes nothing. -/
theorem find_empty_spec (env : Env) (p : Puddle V)
    (htail : ∀ i, vectorized_size env p ≤ i → i < p.ctrl.length →
      p.ctrl[i]? = some slot_empty) :
    (∃ j, j < vectorized_size env p ∧ p.ctrl[j]? = some slot_empty
        ∧ (∀ k, k < j → p.ctrl[k]? ≠ some slot_empty)
        ∧ find_empty env p = (some j, ⟨p.use, p.ctrl.set j slot_used, p.state, p.objs⟩))
    ∨ ((∀ k, k < vectorized_size env p → p.ctrl[k]? ≠ some slot_empty)
        ∧ find_empty env p = (none, p)) := by
  have hvle : vectorized_size env p ≤ p.ctrl.length := by
    unfold vectorized_size; omega
  have hnozero : (0 : Nat) ∉ p.ctrl.drop (vectorized_size env p) := by
    intro hm
    obtain ⟨n, hn⟩ := List.mem_iff_getElem?.mp hm
    rw [List.getElem?_drop] at hn
    have hlt : vectorized_size env p + n < p.ctrl.length := by
      by_contra hge
      rw [List.getElem?_eq_none (by omega)] at hn
      exact absurd hn (by simp)
    rw [htail _ (by omega) hlt] at hn
    simp [slot_empty] at hn
  have hidx : List.indexOf 0 (p.ctrl.drop (vectorized_size env p))
      = p.ctrl.length - vectorized_size env p := by
    rw [(indexOf_spec 0 _).2.2 hnozero]; simp
  have hscalar : (if (vectorized_size env p != p.ctrl.length) = true then
        (if (vectorized_size env p
            + List.indexOf 0 (p.ctrl.drop (vectorized_size env p)) != p.ctrl.length) = true then
          ((some (vectorized_size env p
              + List.indexOf 0 (p.ctrl.drop (vectorized_size env p))),
            (⟨p.use, p.ctrl.set (vectorized_size env p
              + List.indexOf 0 (p.ctrl.drop (vectorized_size env p))) slot_used,
              p.state, p.objs⟩ : Puddle V)) : Option Nat × Puddle V)
        else (none, p))
      else (none, p)) = (none, p) := by
    have : vectorized_size env p + List.indexOf 0 (p.ctrl.drop (vectorized_size env p))
        = p.ctrl.length := by rw [hidx]; omega
    simp [this]
  rcases Nat.eq_zero_or_pos env.simd_size with hW | hW
  · right
    have hv0 : vectorized_size env p = 0 := by
      unfold vectorized_size; rw [hW]; simp
    refine ⟨by intro k hk; omega, ?_⟩
    have hloop : find_empty_loop env.simd_size (vectorized_size env p) p.ctrl
        (vectorized_size env p) 0 = none := by
      rw [hv0]; rfl
    unfold find_empty
    simp only []
    rw [show p.ctrl.length - p.ctrl.length % env.simd_size = vectorized_size env p from rfl]
    rw [hloop]
    exact hscalar
  · have hdvd : env.simd_size ∣ vectorized_size env p := by
      unfold vectorized_size
      exact Nat.dvd_sub_mod _
    obtain ⟨r1, r2⟩ := find_empty_loop_spec env.simd_size (vectorized_size env p) p.ctrl hW hdvd
      (vectorized_size env p) 0 (by simp) (by
        have : vectorized_size env p * 1 ≤ vectorized_size env p * env.simd_size :=
          Nat.mul_le_mul_left _ hW
        omega)
    cases hloop : find_empty_loop env.simd_size (vectorized_size env p) p.ctrl
        (vectorized_size env p) 0 with
    | some j =>
      left
      obtain ⟨_, q2, q3, q4⟩ := r1 j hloop
      refine ⟨j, q2, q3, fun k hk => q4 k (by omega) hk, ?_⟩
      unfold find_empty
      simp only []
      rw [show p.ctrl.length - p.ctrl.length % env.simd_size = vectorized_size env p from rfl]
      rw [hloop]
    | none =>
      right
      refine ⟨fun k hk => r2 hloop k (by omega) hk, ?_⟩
      unfold find_empty
      simp only []
      rw [show p.ctrl.length - p.ctrl.length % env.simd_size = vectorized_size env p from rfl]
      rw [hloop]
      exact hscalar

/-! ## The member functions, case by case -/

/-- With the invariant, `commit` returns the same page or throws `bad_alloc`; the one
check that can fail is the size check of `commit(loaned_page)` on an empty page. -/
theorem commit_cases (env : Env) (os : OsReply) (p : Puddle V) (hI : Inv env p) :
    page_allocator.commit env os p.state = .ok p.state.page
    ∨ (page_allocator.commit env os p.state = .error (.throw .bad_alloc)
        ∧ valid_memory p = false)
    ∨ (page_allocator.commit env os p.state = .error (.abort .commit_loaned_size_nonzero)
        ∧ valid_memory p = false) := by
  obtain ⟨_, _, _, hsize, hbase, hmingw⟩ := hI
  rcases p with ⟨use, ctrl, state, objs⟩
  cases state with
  | allocated pg =>
    obtain ⟨b, sz⟩ := pg
    simp only [PageState.page] at hsize hbase
    subst hsize
    cases hg : os.VirtualAlloc_commit
    · right; left
      simp [page_allocator.commit, page_allocator.commit_allocated, precondition_eq,
        postcondition_eq, hg, hbase, valid_memory]
    · left
      simp [page_allocator.commit, page_allocator.commit_allocated, precondition_eq,
        postcondition_eq, hg, hbase, PageState.page]
  | committed pg =>
    left
    simp [page_allocator.commit, PageState.page]
  | loaned pg =>
    simp only [PageState.page] at hsize hbase
    cases hb : env.backend with
    | mingw => exact absurd rfl (hmingw hb pg)
    | win32 =>
      by_cases hst : (os.ReclaimVirtualMemory == ERROR_SUCCESS
          || os.ReclaimVirtualMemory == ERROR_BUSY) = true
      · by_cases hz : (!env.check_pre || pg.size != 0) = true
        · left
          simp [page_allocator.commit, page_allocator.commit_loaned, precondition_eq, hb, hbase,
            hst, hz, PageState.page]
        · right; right
          simp [page_allocator.commit, page_allocator.commit_loaned, precondition_eq, hb, hbase,
            hz, valid_memory]
      · by_cases hz : (!env.check_pre || pg.size != 0) = true
        · right; left
          simp [page_allocator.commit, page_allocator.commit_loaned, precondition_eq, hb, hbase,
            hst, hz, valid_memory]
        · right; right
          simp [page_allocator.commit, page_allocator.commit_loaned, precondition_eq, hb, hbase,
            hz, valid_memory]

/-- The three ways `inc_use` can end in a state that satisfies the invariant. -/
theorem inc_use_cases (env : Env) (os : OsReply) (p : Puddle V) (hI : Inv env p) :
    (inc_use env os p = .ret ()
        ⟨min (p.use + 1) 7, p.ctrl,
          if p.use = 0 then .committed p.state.page else p.state, p.objs⟩)
    ∨ (inc_use env os p = .throw .bad_alloc ⟨p.use + 1, p.ctrl, p.state, p.objs⟩
        ∧ p.use = 0 ∧ valid_memory p = false)
    ∨ (inc_use env os p = .abort .commit_loaned_size_nonzero
        ∧ p.use = 0 ∧ valid_memory p = false) := by
  have hle := hI.use_le
  rcases Nat.eq_zero_or_pos p.use with h0 | hpos
  · have hI1 : Inv env (⟨p.use + 1, p.ctrl, p.state, p.objs⟩ : Puddle V) :=
      ⟨hI.len, hI.tail, by simp [h0], hI.size, hI.base, hI.mingw⟩
    rcases commit_cases env os _ hI1 with hc | ⟨hc, hv⟩ | ⟨hc, hv⟩
    · left
      simp [inc_use, retake_buffer, hc, h0, Outcome.bind, postcondition_eq, valid_memory]
    · right; left
      refine ⟨?_, h0, ?_⟩
      · simp [inc_use, retake_buffer, hc, h0, Outcome.bind]
      · simpa [valid_memory] using hv
    · right; right
      refine ⟨?_, h0, ?_⟩
      · simp [inc_use, retake_buffer, hc, h0, Outcome.bind]
      · simpa [valid_memory] using hv
  · left
    have hne : p.use ≠ 0 := by omega
    by_cases h7 : p.use < 7
    · have hmin : min (p.use + 1) 7 = p.use + 1 := by omega
      have h1 : ¬ (p.use + 1 = 1) := by omega
      have h2 : p.use + 1 ≤ 7 := by omega
      simp [inc_use, h7, hne, hmin, Outcome.bind, postcondition_eq, h1, h2]
    · have h7' : p.use = 7 := by omega
      rcases p with ⟨use, ctrl, state, objs⟩
      simp only at h7'
      subst h7'
      simp [inc_use, Outcome.bind, postcondition_eq]

/-- A slot index of the chunked part addresses an object that lies in the page. -/
theorem slot_in_page (env : Env) (p : Puddle V) (hI : Inv env p) (j : Nat)
    (hj : j < p.ctrl.length) :
    0 < env.sizeof_T ∧ j * env.sizeof_T + env.sizeof_T ≤ env.page_size := by
  have hlen := hI.len
  have hs : 0 < env.sizeof_T := by
    rcases Nat.eq_zero_or_pos env.sizeof_T with h | h
    · rw [h, Nat.div_zero] at hlen; omega
    · exact h
  refine ⟨hs, ?_⟩
  have h1 : (j + 1) * env.sizeof_T ≤ (env.page_size / env.sizeof_T) * env.sizeof_T :=
    Nat.mul_le_mul_right _ (by omega)
  have h2 : (env.page_size / env.sizeof_T) * env.sizeof_T ≤ env.page_size :=
    Nat.div_mul_le_self _ _
  have h3 : (j + 1) * env.sizeof_T = j * env.sizeof_T + env.sizeof_T := by ring
  omega

/-- Every way `try_allocate` can end in a state that satisfies the invariant. -/
theorem try_allocate_cases (env : Env) (os : OsReply) (p : Puddle V) (args : Option V)
    (hI : Inv env p) :
    (try_allocate env os p args
        = .throw .bad_alloc ⟨p.use + 1, p.ctrl, p.state, p.objs⟩
      ∧ p.use = 0 ∧ valid_memory p = false)
    ∨ (try_allocate env os p args = .abort .commit_loaned_size_nonzero
      ∧ p.use = 0 ∧ valid_memory p = false)
    ∨ (try_allocate env os p args = .abort .try_allocate_valid_memory
      ∧ p.use ≠ 0 ∧ valid_memory p = false ∧ env.check_post = true)
    ∨ ((∀ k, k < vectorized_size env p → p.ctrl[k]? ≠ some slot_empty)
      ∧ try_allocate env os p args = .ret 0
          ⟨min (p.use + 1) 7, p.ctrl,
            if p.use = 0 then .committed p.state.page else p.state, p.objs⟩)
    ∨ (∃ j, j < vectorized_size env p ∧ p.ctrl[j]? = some slot_empty
      ∧ (∀ k, k < j → p.ctrl[k]? ≠ some slot_empty)
      ∧ ((∃ v, args = some v ∧ (p.use = 0 ∨ valid_memory p = true)
          ∧ try_allocate env os p args
            = .ret (p.state.page.base_addr + j * env.sizeof_T)
                ⟨min (p.use + 1) 7, p.ctrl.set j slot_used, .committed p.state.page,
                  fun a => if a = p.state.page.base_addr + j * env.sizeof_T then some v
                    else p.objs a⟩)
        ∨ (args = none ∧ (p.use = 0 ∨ valid_memory p = true)
          ∧ try_allocate env os p args
            = .throw .constructor_failed
                ⟨min (p.use + 1) 7, p.ctrl.set j slot_used, .committed p.state.page, p.objs⟩)
        ∨ (p.use ≠ 0 ∧ valid_memory p = false ∧ env.check_post = false
          ∧ try_allocate env os p args
            = .throw .bad_variant_access
                ⟨min (p.use + 1) 7, p.ctrl.set j slot_used, p.state, p.objs⟩))) := by
  rcases inc_use_cases env os p hI with hinc | ⟨hinc, h0, hv⟩ | ⟨hinc, h0, hv⟩
  · have hfe := find_empty_spec env
      (⟨min (p.use + 1) 7, p.ctrl,
        if p.use = 0 then .committed p.state.page else p.state, p.objs⟩ : Puddle V) hI.tail
    have hupos : 0 < min (p.use + 1) 7 := by omega
    by_cases hcom : p.use = 0 ∨ valid_memory p = true
    · -- the page is committed after `inc_use`
      have hst : (if p.use = 0 then PageState.committed p.state.page else p.state)
          = .committed p.state.page := by
        rcases hcom with h0 | hv
        · simp [h0]
        · by_cases h0 : p.use = 0
          · simp [h0]
          · simp only [h0, if_false]
            rcases p with ⟨use, ctrl, state, objs⟩
            cases state <;> simp_all [valid_memory, PageState.page]
      rw [hst] at hfe hinc
      rcases hfe with ⟨j, hj1, hj2, hj3, hfe⟩ | ⟨hnone, hfe⟩
      · right; right; right; right
        refine ⟨j, hj1, hj2, hj3, ?_⟩
        have hjlen : j < p.ctrl.length := by
          have : vectorized_size env p ≤ p.ctrl.length := by unfold vectorized_size; omega
          have : j < vectorized_size env p := hj1
          omega
        obtain ⟨hs, hin⟩ := slot_in_page env p hI j hjlen
        have hsize := hI.size
        cases args with
        | none =>
          right; left
          refine ⟨rfl, hcom, ?_⟩
          simp [try_allocate, hinc, Outcome.bind, hfe, postcondition_eq, valid_memory, hupos]
        | some v =>
          left
          refine ⟨v, rfl, hcom, ?_⟩
          have hlt : p.state.page.base_addr + j * env.sizeof_T
              < p.state.page.base_addr + p.state.page.size := by omega
          simp [try_allocate, hinc, Outcome.bind, hfe, postcondition_eq, valid_memory, hupos,
            hlt]
      · right; right; right; left
        refine ⟨hnone, ?_⟩
        simp [try_allocate, hinc, Outcome.bind, hfe, postcondition_eq, valid_memory, hupos, hst]
    · have h0 : p.use ≠ 0 := fun h => hcom (Or.inl h)
      have hv : valid_memory p = false := by
        cases h : valid_memory p
        · rfl
        · exact absurd (Or.inr h) hcom
      have hst : (if p.use = 0 then PageState.committed p.state.page else p.state)
          = p.state := by simp [h0]
      rw [hst] at hfe hinc
      cases hcp : env.check_post
      · rcases hfe with ⟨j, hj1, hj2, hj3, hfe⟩ | ⟨hnone, hfe⟩
        · right; right; right; right
          refine ⟨j, hj1, hj2, hj3, ?_⟩
          right; right
          refine ⟨h0, hv, rfl, ?_⟩
          rcases p with ⟨use, ctrl, state, objs⟩
          cases state <;>
            simp_all [try_allocate, Outcome.bind, postcondition_eq, valid_memory]
        · right; right; right; left
          refine ⟨hnone, ?_⟩
          simp [try_allocate, hinc, Outcome.bind, hfe, postcondition_eq, hcp, hst]
      · right; right; left
        refine ⟨?_, h0, hv, rfl⟩
        rcases hfe with ⟨j, hj1, hj2, hj3, hfe⟩ | ⟨hnone, hfe⟩
        · have hv2 : valid_memory (⟨min (p.use + 1) 7, p.ctrl.set j slot_used, p.state,
              p.objs⟩ : Puddle V) = false := by
            simpa [valid_memory] using hv
          simp [try_allocate, hinc, Outcome.bind, hfe, postcondition_eq, hcp, hv2]
        · have hv2 : valid_memory (⟨min (p.use + 1) 7, p.ctrl, p.state,
              p.objs⟩ : Puddle V) = false := by
            simpa [valid_memory] using hv
          simp [try_allocate, hinc, Outcome.bind, hfe, postcondition_eq, hcp, hv2]
  · left
    refine ⟨?_, h0, hv⟩
    simp [try_allocate, hinc, Outcome.bind]
  · right; left
    refine ⟨?_, h0, hv⟩
    simp [try_allocate, hinc, Outcome.bind]

/-- Every way `deallocate` can end. -/
theorem deallocate_cases (env : Env) (p : Puddle V) (ptr : Nat) :
    (ptr = 0 ∧ deallocate env p ptr = .ret true p)
    ∨ (ptr ≠ 0 ∧ valid_memory p = false
      ∧ (deallocate env p ptr = .abort .deallocate_pre_valid_memory
        ∨ deallocate env p ptr = .throw .bad_variant_access p))
    ∨ (ptr ≠ 0 ∧ p.state = .committed p.state.page
      ∧ ¬ (p.state.page.base_addr ≤ ptr ∧ ptr < p.state.page.base_addr + p.state.page.size)
      ∧ deallocate env p ptr = .ret false p)
    ∨ (ptr ≠ 0 ∧ p.state = .committed p.state.page
      ∧ p.state.page.base_addr ≤ ptr ∧ ptr < p.state.page.base_addr + p.state.page.size
      ∧ ((ptr - p.state.page.base_addr) % env.sizeof_T = 0
        ∧ (ptr - p.state.page.base_addr) / env.sizeof_T < p.ctrl.length)
      ∧ deallocate env p ptr = .ret true
          ⟨p.use, p.ctrl.set ((ptr - p.state.page.base_addr) / env.sizeof_T) slot_empty, p.state,
            fun a => if a = ptr then none else p.objs a⟩)
    ∨ (ptr ≠ 0 ∧ p.state = .committed p.state.page
      ∧ p.state.page.base_addr ≤ ptr ∧ ptr < p.state.page.base_addr + p.state.page.size
      ∧ ((ptr - p.state.page.base_addr) % env.sizeof_T ≠ 0
        ∨ p.ctrl.length ≤ (ptr - p.state.page.base_addr) / env.sizeof_T)
      ∧ deallocate env p ptr = .out_of_bounds) := by
  by_cases h0 : ptr = 0
  · left
    exact ⟨h0, by simp [deallocate, h0]⟩
  · right
    rcases p with ⟨use, ctrl, state, objs⟩
    cases state with
    | allocated pg =>
      left
      refine ⟨h0, rfl, ?_⟩
      cases hcp : env.check_pre <;>
        simp [deallocate, h0, precondition_eq, valid_memory, hcp]
    | loaned pg =>
      left
      refine ⟨h0, rfl, ?_⟩
      cases hcp : env.check_pre <;>
        simp [deallocate, h0, precondition_eq, valid_memory, hcp]
    | committed pg =>
      right
      by_cases hin : pg.base_addr ≤ ptr ∧ ptr < pg.base_addr + pg.size
      · right
        by_cases hmod : (ptr - pg.base_addr) % env.sizeof_T = 0
        · by_cases hidx : (ptr - pg.base_addr) / env.sizeof_T < ctrl.length
          · left
            refine ⟨h0, rfl, hin.1, hin.2, ⟨hmod, hidx⟩, ?_⟩
            simp [deallocate, h0, precondition_eq, postcondition_eq, valid_memory, hin.1,
              hin.2, hmod, hidx, PageState.page, List.getD_eq_getElem?_getD,
              List.getElem?_set]
          · right
            refine ⟨h0, rfl, hin.1, hin.2,
              Or.inr (by simpa [PageState.page] using hidx), ?_⟩
            simp [deallocate, h0, precondition_eq, valid_memory, hin.1, hin.2, hmod, hidx]
        · right
          refine ⟨h0, rfl, hin.1, hin.2, Or.inl hmod, ?_⟩
          simp [deallocate, h0, precondition_eq, valid_memory, hin.1, hin.2, hmod]
      · left
        refine ⟨h0, rfl, hin, ?_⟩
        have hin' : ¬ (pg.base_addr ≤ ptr ∧ ptr < pg.base_addr + pg.size) := hin
        simp only [not_and, not_lt] at hin'
        by_cases hb : pg.base_addr ≤ ptr
        · have := hin' hb
          have hnl : ¬ ptr < pg.base_addr + pg.size := by omega
          simp [deallocate, h0, precondition_eq, valid_memory, hb, hnl]
        · simp [deallocate, h0, precondition_eq, valid_memory, hb]

/-- Every way `unused_in_allocation` can end when the counter is at most 7. -/
theorem unused_in_allocation_cases (env : Env) (os : OsReply) (p : Puddle V)
    (hle : p.use ≤ 7) :
    (unused_in_allocation env os p = .ret ()
        ⟨p.use - 1, p.ctrl,
          if p.use = 1 ∧ p.ctrl.any is_used_slot = false
            then page_allocator.loan env os p.state else p.state, p.objs⟩
      ∧ (p.use = 1 → env.check_pre = true → valid_memory p = true))
    ∨ (p.use = 1 ∧ valid_memory p = false
      ∧ unused_in_allocation env os p = .abort .give_up_buffer_pre_valid_memory)
    ∨ (p.use = 1 ∧ p.ctrl.any is_used_slot = false
      ∧ unused_in_allocation env os p = .abort .give_up_buffer_post_not_valid_memory) := by
  rcases p with ⟨use, ctrl, state, objs⟩
  simp only at hle
  rcases Nat.eq_zero_or_pos use with h0 | hpos
  · left
    subst h0
    simp [unused_in_allocation, dec_use, Outcome.bind, postcondition_eq]
  · by_cases h1 : use = 1
    · subst h1
      by_cases hpre : (!env.check_pre || valid_memory
          (⟨0, ctrl, state, objs⟩ : Puddle V)) = true
      · have hpre1 : env.check_pre = true → valid_memory
            (⟨1, ctrl, state, objs⟩ : Puddle V) = true := by
          intro h; simpa [h, valid_memory] using hpre
        by_cases hany : ctrl.any is_used_slot = true
        · left
          refine ⟨?_, fun _ => hpre1⟩
          simp [unused_in_allocation, dec_use, give_up_buffer, Outcome.bind, postcondition_eq,
            precondition_eq, hpre, hany]
        · have hany' : ctrl.any is_used_slot = false := by simpa using hany
          by_cases hpost : (!env.check_post || !valid_memory
              (⟨0, ctrl, page_allocator.loan env os state, objs⟩ : Puddle V)) = true
          · left
            refine ⟨?_, fun _ => hpre1⟩
            simp [unused_in_allocation, dec_use, give_up_buffer, Outcome.bind, postcondition_eq,
              precondition_eq, hpre, hany', hpost]
          · right; right
            refine ⟨rfl, hany', ?_⟩
            simp [unused_in_allocation, dec_use, give_up_buffer, Outcome.bind, postcondition_eq,
              precondition_eq, hpre, hany', hpost]
      · right; left
        refine ⟨rfl, ?_, ?_⟩
        · cases hv : valid_memory (⟨1, ctrl, state, objs⟩ : Puddle V)
          · rfl
          · exfalso; apply hpre
            have : valid_memory (⟨0, ctrl, state, objs⟩ : Puddle V) = true := by
              simpa [valid_memory] using hv
            simp [this]
        · simp [unused_in_allocation, dec_use, give_up_buffer, Outcome.bind, precondition_eq,
            hpre]
    · left
      have h2 : ¬ (use - 1 = 0) := by omega
      have h3 : use - 1 < 7 := by omega
      have h4 : 0 < use := hpos
      simp [unused_in_allocation, dec_use, Outcome.bind, postcondition_eq, h1, h2, h3, h4]

/-! ## The invariant holds in every reachable state -/

/-- What the constructor returns when it returns. -/
theorem ctor_ok (env : Env) (os : OsReply) (p : Puddle V) (h : ctor env os = .ok p) :
    p = ⟨0, List.replicate (env.page_size / env.sizeof_T) slot_empty,
          .allocated ⟨os.VirtualAlloc_reserve, env.page_size⟩, fun _ => none⟩
    ∧ os.VirtualAlloc_reserve ≠ 0
    ∧ (env.check_post = true → 0 < env.page_size / env.sizeof_T) := by
  unfold ctor page_allocator.reserve at h
  simp only [precondition_eq, postcondition_eq] at h
  by_cases hr : os.VirtualAlloc_reserve = 0
  · simp [hr] at h
  · by_cases hc : (!env.check_post || decide (env.page_size / env.sizeof_T > 0)) = true
    · simp [hr, hc, valid_memory] at h
      refine ⟨h.symm, hr, ?_⟩
      intro hcp
      simpa [hcp] using hc
    · simp [hr, hc] at h

/-- The constructor returns when the OS hands out an address and, in a build with
postcondition checks, the capacity is positive. -/
theorem ctor_returns (env : Env) (os : OsReply) (hr : os.VirtualAlloc_reserve ≠ 0)
    (hc : env.check_post = true → 0 < env.page_size / env.sizeof_T) :
    ctor env os = .ok (⟨0, List.replicate (env.page_size / env.sizeof_T) slot_empty,
          .allocated ⟨os.VirtualAlloc_reserve, env.page_size⟩, fun _ => none⟩ : Puddle V) := by
  unfold ctor page_allocator.reserve
  simp only [precondition_eq, postcondition_eq]
  cases hcp : env.check_post
  · simp [hr, valid_memory]
  · have := hc hcp
    simp [hr, valid_memory, this]

theorem inv_ctor (env : Env) (os : OsReply) (p : Puddle V) (h : ctor env os = .ok p) :
    Inv env p := by
  obtain ⟨rfl, hr, _⟩ := ctor_ok env os p h
  refine ⟨by simp, ?_, by simp, rfl, hr, ?_⟩
  · intro i _ hi
    simp only [List.length_replicate] at hi
    simp [List.getElem?_replicate, hi]
  · intro _ pg hpg
    simp at hpg

/-- Transfer of the invariant to a state with the same page, a slot-status vector of
the same length and the same Empty slots past the chunked part. -/
theorem Inv.transfer {env : Env} {p q : Puddle V} (hI : Inv env p)
    (hlen : q.ctrl.length = p.ctrl.length)
    (htail : ∀ i, vectorized_size env p ≤ i → i < p.ctrl.length →
      q.ctrl[i]? = some slot_empty)
    (huse : q.use ≤ 7) (hpage : q.state.page = p.state.page)
    (hm : env.backend = .mingw → ∀ pg, q.state ≠ .loaned pg) : Inv env q := by
  have hvs : vectorized_size env q = vectorized_size env p := by
    unfold vectorized_size; rw [hlen]
  refine ⟨by rw [hlen]; exact hI.len, ?_, huse, by rw [hpage]; exact hI.size,
    by rw [hpage]; exact hI.base, hm⟩
  intro i h1 h2
  rw [hvs] at h1
  rw [hlen] at h2
  exact htail i h1 h2

theorem loan_page (env : Env) (os : OsReply) (st : PageState) :
    (page_allocator.loan env os st).page = st.page := by
  cases st <;> cases hb : env.backend <;>
    by_cases ho : (os.OfferVirtualMemory != ERROR_SUCCESS) = true <;>
    simp [page_allocator.loan, PageState.page, hb, ho]

theorem loan_mingw (env : Env) (os : OsReply) (st : PageState) (hb : env.backend = .mingw) :
    page_allocator.loan env os st = st := by
  cases st <;> simp [page_allocator.loan, hb]

theorem tail_set (env : Env) (p : Puddle V) (hI : Inv env p) (j a : Nat)
    (hj : j < vectorized_size env p ∨ a = slot_empty) :
    ∀ i, vectorized_size env p ≤ i → i < p.ctrl.length →
      (p.ctrl.set j a)[i]? = some slot_empty := by
  intro i h1 h2
  rw [List.getElem?_set]
  rcases hj with hj | ha
  · have : ¬ j = i := by omega
    simp only [this, if_false]
    exact hI.tail i h1 h2
  · by_cases hji : j = i
    · subst hji
      simp [h2, ha]
    · simp only [hji, if_false]
      exact hI.tail i h1 h2

theorem inv_try_allocate (env : Env) (os : OsReply) (p q : Puddle V) (args : Option V)
    (hI : Inv env p) (h : (try_allocate env os p args).state? = some q) :
    Inv env q ∧ q.state.page = p.state.page := by
  have hm1 : env.backend = .mingw →
      ∀ pg, (if p.use = 0 then PageState.committed p.state.page else p.state)
        ≠ .loaned pg := by
    intro hb pg
    by_cases h0 : p.use = 0
    · simp [h0]
    · simp only [h0, if_false]; exact hI.mingw hb pg
  have hp1 : (if p.use = 0 then PageState.committed p.state.page else p.state).page
      = p.state.page := by
    by_cases h0 : p.use = 0 <;> simp [h0, PageState.page]
  have hle := hI.use_le
  rcases try_allocate_cases env os p args hI with
    ⟨ho, h0, _⟩ | ⟨ho, _, _⟩ | ⟨ho, _⟩ | ⟨_, ho⟩ | ⟨j, hj, _, _, hcase⟩
  · rw [ho] at h
    simp only [Outcome.state?, Option.some.injEq] at h
    subst h
    exact ⟨hI.transfer rfl hI.tail (by simp only; omega) rfl hI.mingw, rfl⟩
  · rw [ho] at h; simp [Outcome.state?] at h
  · rw [ho] at h; simp [Outcome.state?] at h
  · rw [ho] at h
    simp only [Outcome.state?, Option.some.injEq] at h
    subst h
    exact ⟨hI.transfer rfl hI.tail (by simp only; omega) hp1 hm1, hp1⟩
  · rcases hcase with ⟨v, _, _, ho⟩ | ⟨_, _, ho⟩ | ⟨_, _, _, ho⟩
    · rw [ho] at h
      simp only [Outcome.state?, Option.some.injEq] at h
      subst h
      exact ⟨hI.transfer (by simp) (tail_set env p hI j slot_used (Or.inl hj))
        (by simp only; omega) rfl (by intro _ pg; simp), rfl⟩
    · rw [ho] at h
      simp only [Outcome.state?, Option.some.injEq] at h
      subst h
      exact ⟨hI.transfer (by simp) (tail_set env p hI j slot_used (Or.inl hj))
        (by simp only; omega) rfl (by intro _ pg; simp), rfl⟩
    · rw [ho] at h
      simp only [Outcome.state?, Option.some.injEq] at h
      subst h
      exact ⟨hI.transfer (by simp) (tail_set env p hI j slot_used (Or.inl hj))
        (by simp only; omega) rfl hI.mingw, rfl⟩

theorem inv_deallocate (env : Env) (p q : Puddle V) (ptr : Nat)
    (hI : Inv env p) (h : (deallocate env p ptr).state? = some q) :
    Inv env q ∧ q.state.page = p.state.page := by
  rcases deallocate_cases env p ptr with
    ⟨_, ho⟩ | ⟨_, _, ho | ho⟩ | ⟨_, _, _, ho⟩ | ⟨_, _, _, _, _, ho⟩ | ⟨_, _, _, _, _, ho⟩
  · rw [ho] at h
    simp only [Outcome.state?, Option.some.injEq] at h
    subst h; exact ⟨hI, rfl⟩
  · rw [ho] at h; simp [Outcome.state?] at h
  · rw [ho] at h
    simp only [Outcome.state?, Option.some.injEq] at h
    subst h; exact ⟨hI, rfl⟩
  · rw [ho] at h
    simp only [Outcome.state?, Option.some.injEq] at h
    subst h; exact ⟨hI, rfl⟩
  · rw [ho] at h
    simp only [Outcome.state?, Option.some.injEq] at h
    subst h
    exact ⟨hI.transfer (by simp) (tail_set env p hI _ slot_empty (Or.inr rfl))
      hI.use_le rfl hI.mingw, rfl⟩
  · rw [ho] at h; simp [Outcome.state?] at h

theorem inv_unused_in_allocation (env : Env) (os : OsReply) (p q : Puddle V)
    (hI : Inv env p) (h : (unused_in_allocation env os p).state? = some q) :
    Inv env q ∧ q.state.page = p.state.page := by
  have hle := hI.use_le
  rcases unused_in_allocation_cases env os p hle with ⟨ho, _⟩ | ⟨_, _, ho⟩ | ⟨_, _, ho⟩
  · rw [ho] at h
    simp only [Outcome.state?, Option.some.injEq] at h
    subst h
    have hpg : (if p.use = 1 ∧ p.ctrl.any is_used_slot = false
        then page_allocator.loan env os p.state else p.state).page = p.state.page := by
      split
      · exact loan_page env os p.state
      · rfl
    refine ⟨hI.transfer rfl hI.tail (by simp only; omega) hpg ?_, hpg⟩
    intro hb pg
    simp only
    split
    · rw [loan_mingw env os p.state hb]; exact hI.mingw hb pg
    · exact hI.mingw hb pg
  · rw [ho] at h; simp [Outcome.state?] at h
  · rw [ho] at h; simp [Outcome.state?] at h

theorem inv_step (env : Env) (p q : Puddle V) (op : Op V)
    (hI : Inv env p) (h : step env p op = some q) :
    Inv env q ∧ q.state.page = p.state.page := by
  cases op with
  | try_allocate os args => exact inv_try_allocate env os p q args hI h
  | deallocate ptr => exact inv_deallocate env p q ptr hI h
  | unused_in_allocation os => exact inv_unused_in_allocation env os p q hI h

/-- Every reachable state satisfies the invariant. -/
theorem Reachable.inv {env : Env} {p : Puddle V} (h : Reachable env p) : Inv env p := by
  induction h with
  | ctor os p hc => exact inv_ctor env os p hc
  | step p op q _ hs ih => exact (inv_step env p q op ih hs).1

/-! ## Capacity -/

/-- C1: for a page size `P` and an element size `s ≥ 1`, every newly constructed
puddle has `capacity() = P / s`, which is the length of its slot-status vector; the
capacity is positive when `s ≤ P`, and the constructor then returns such a puddle
whenever the OS hands out an address. -/
theorem ctor_capacity (env : Env) (os : OsReply) (hs : 1 ≤ env.sizeof_T) :
    (∀ p : Puddle V, ctor env os = .ok p →
        capacity p = env.page_size / env.sizeof_T
        ∧ p.ctrl.length = env.page_size / env.sizeof_T
        ∧ (env.sizeof_T ≤ env.page_size → 0 < capacity p))
    ∧ (env.sizeof_T ≤ env.page_size → os.VirtualAlloc_reserve ≠ 0 →
        ∃ p : Puddle V, ctor env os = .ok p ∧ 0 < capacity p) := by
  have hpos : env.sizeof_T ≤ env.page_size → 0 < env.page_size / env.sizeof_T := by
    intro hle
    exact Nat.div_pos hle (by omega)
  refine ⟨?_, ?_⟩
  · intro p hp
    obtain ⟨rfl, _, _⟩ := ctor_ok env os p hp
    refine ⟨by simp [capacity], by simp, ?_⟩
    intro hle
    simpa [capacity] using hpos hle
  · intro hle hr
    refine ⟨_, ctor_returns env os hr (fun _ => hpos hle), ?_⟩
    simpa [capacity] using hpos hle

/-- A puddle for 16-byte elements on a 4096-byte page is constructed with a positive
capacity. -/
theorem ctor_capacity_witness :
    ∃ p : Puddle Nat,
      ctor ⟨true, true, .win32, 4096, 16, 16⟩ ⟨65536, true, 0, 0⟩ = .ok p ∧ 0 < capacity p :=
  (ctor_capacity ⟨true, true, .win32, 4096, 16, 16⟩ ⟨65536, true, 0, 0⟩
    (by decide)).2 (by decide) (by decide)

/-- C2: when `2n` divides the page size, a puddle for elements of size `2n` has half
the capacity of a puddle for elements of size `n ≥ 1` on the same page size; both
puddles are constructed whenever the page size is positive and the OS hands out
addresses. -/
theorem capacity_twice_the_size (small big : Env) (os1 os2 : OsReply)
    (hpage : big.page_size = small.page_size)
    (hsize : big.sizeof_T = 2 * small.sizeof_T)
    (hn : 1 ≤ small.sizeof_T)
    (hdvd : 2 * small.sizeof_T ∣ small.page_size) :
    (∀ smaller bigger : Puddle V, ctor small os1 = .ok smaller → ctor big os2 = .ok bigger →
        capacity bigger * 2 = capacity smaller)
    ∧ (0 < small.page_size → os1.VirtualAlloc_reserve ≠ 0 → os2.VirtualAlloc_reserve ≠ 0 →
        ∃ smaller bigger : Puddle V, ctor small os1 = .ok smaller ∧ ctor big os2 = .ok bigger
          ∧ capacity bigger * 2 = capacity smaller) := by
  obtain ⟨k, hk⟩ := hdvd
  have h2n : 0 < 2 * small.sizeof_T := by omega
  have hbig : big.page_size / big.sizeof_T = k := by
    rw [hpage, hsize, hk]
    exact Nat.mul_div_cancel_left k h2n
  have hsmall : small.page_size / small.sizeof_T = 2 * k := by
    rw [hk]
    have : 2 * small.sizeof_T * k = small.sizeof_T * (2 * k) := by ring
    rw [this]
    exact Nat.mul_div_cancel_left (2 * k) (by omega)
  refine ⟨?_, ?_⟩
  · intro smaller bigger h1 h2
    obtain ⟨rfl, _, _⟩ := ctor_ok small os1 smaller h1
    obtain ⟨rfl, _, _⟩ := ctor_ok big os2 bigger h2
    simp only [capacity, List.length_replicate, hbig, hsmall]
    omega
  · intro hP h1 h2
    have hkpos : 0 < k := by
      rcases Nat.eq_zero_or_pos k with h | h
      · rw [h] at hk; omega
      · exact h
    refine ⟨_, _, ctor_returns small os1 h1 (fun _ => by rw [hsmall]; omega),
      ctor_returns big os2 h2 (fun _ => by rw [hbig]; exact hkpos), ?_⟩
    simp only [capacity, List.length_replicate, hbig, hsmall]
    omega

/-- On a 4096-byte page, 32-byte elements get half the capacity of 16-byte elements. -/
theorem capacity_twice_the_size_witness :
    ∃ smaller bigger : Puddle Nat,
      ctor ⟨true, true, .win32, 4096, 16, 16⟩ ⟨65536, true, 0, 0⟩ = .ok smaller
      ∧ ctor ⟨true, true, .win32, 4096, 32, 16⟩ ⟨131072, true, 0, 0⟩ = .ok bigger
      ∧ capacity bigger * 2 = capacity smaller :=
  (capacity_twice_the_size ⟨true, true, .win32, 4096, 16, 16⟩
    ⟨true, true, .win32, 4096, 32, 16⟩ ⟨65536, true, 0, 0⟩ ⟨131072, true, 0, 0⟩
    rfl rfl (by decide) (by decide)).2 (by decide) (by decide) (by decide)

/-! ## try_allocate on a full puddle -/

/-- C6: in every reachable state, a non-null pointer returned by `try_allocate` lies in
the committed page together with the whole object, `base ≤ ptr` and
`ptr + sizeof(T) ≤ base + size`, and the postcondition "ret is either null or in the
page" does not fail. -/
theorem try_allocate_in_page (env : Env) (os : OsReply) (p : Puddle V) (args : Option V)
    (h : Reachable env p) :
    (∀ ptr q, try_allocate env os p args = .ret ptr q → ptr ≠ 0 →
        ∃ page, q.state = .committed page ∧ page.base_addr ≤ ptr
          ∧ ptr + env.sizeof_T ≤ page.base_addr + page.size)
    ∧ try_allocate env os p args ≠ .abort .try_allocate_ret_in_page := by
  have hI := h.inv
  have hvle : vectorized_size env p ≤ p.ctrl.length := by unfold vectorized_size; omega
  rcases try_allocate_cases env os p args hI with
    ⟨ho, _⟩ | ⟨ho, _⟩ | ⟨ho, _⟩ | ⟨_, ho⟩ | ⟨j, hj, _, _, hcase⟩
  · rw [ho]; exact ⟨fun ptr q hq => (by cases hq), by simp⟩
  · rw [ho]; exact ⟨fun ptr q hq => (by cases hq), by simp⟩
  · rw [ho]; exact ⟨fun ptr q hq => (by cases hq), by simp⟩
  · rw [ho]
    refine ⟨?_, by simp⟩
    intro ptr q hq hne
    simp only [Outcome.ret.injEq] at hq
    exact absurd hq.1.symm hne
  · obtain ⟨_, hin⟩ := slot_in_page env p hI j (by omega)
    have hsize := hI.size
    rcases hcase with ⟨v, _, _, ho⟩ | ⟨_, _, ho⟩ | ⟨_, _, _, ho⟩
    · rw [ho]
      refine ⟨?_, by simp⟩
      intro ptr q hq _
      simp only [Outcome.ret.injEq] at hq
      obtain ⟨rfl, rfl⟩ := hq
      exact ⟨p.state.page, rfl, by omega, by omega⟩
    · rw [ho]; exact ⟨fun ptr q hq => (by cases hq), by simp⟩
    · rw [ho]; exact ⟨fun ptr q hq => (by cases hq), by simp⟩

theorem page_committed (pg : Page) : (PageState.committed pg).page = pg := rfl

theorem set_set_self (l : List Nat) (j a b : Nat) (hj : l[j]? = some b) :
    (l.set j a).set j b = l := by
  apply List.ext_getElem?
  intro i
  rw [List.getElem?_set, List.getElem?_set]
  by_cases hji : j = i
  · subst hji
    have hlt : j < l.length := by
      by_contra hge
      rw [List.getElem?_eq_none (by omega)] at hj
      exact absurd hj (by simp)
    simp [hlt, hj]
  · simp [hji]

/-- C8: in every reachable state, when `try_allocate` returns a non-null pointer, the
`deallocate` of that pointer that follows returns `true` and marks exactly the slot of
the pointer Empty, so that the slot-status vector is the one before the allocation;
`deallocate` leaves the usage counter and the page handle as they are. -/
theorem deallocate_after_try_allocate (env : Env) (os : OsReply) (p q : Puddle V)
    (args : Option V) (ptr : Nat)
    (h : Reachable env p) (ha : try_allocate env os p args = .ret ptr q) (hne : ptr ≠ 0) :
    ∃ r, deallocate env q ptr = .ret true r
      ∧ r.ctrl = p.ctrl
      ∧ (∃ i, ptr = q.state.page.base_addr + i * env.sizeof_T
          ∧ p.ctrl[i]? = some slot_empty ∧ q.ctrl = p.ctrl.set i slot_used
          ∧ r.ctrl = q.ctrl.set i slot_empty)
      ∧ r.use = q.use ∧ r.state = q.state := by
  have hI := h.inv
  have hvle : vectorized_size env p ≤ p.ctrl.length := by unfold vectorized_size; omega
  rcases try_allocate_cases env os p args hI with
    ⟨ho, _⟩ | ⟨ho, _⟩ | ⟨ho, _⟩ | ⟨_, ho⟩ | ⟨j, hj, hje, _, hcase⟩
  · rw [ho] at ha; cases ha
  · rw [ho] at ha; cases ha
  · rw [ho] at ha; cases ha
  · rw [ho] at ha
    simp only [Outcome.ret.injEq] at ha
    exact absurd ha.1.symm hne
  · obtain ⟨hs, hin⟩ := slot_in_page env p hI j (by omega)
    have hsize := hI.size
    rcases hcase with ⟨v, _, _, ho⟩ | ⟨_, _, ho⟩ | ⟨_, _, _, ho⟩
    · rw [ho] at ha
      simp only [Outcome.ret.injEq] at ha
      obtain ⟨rfl, rfl⟩ := ha
      have hidx : (p.state.page.base_addr + j * env.sizeof_T - p.state.page.base_addr)
          / env.sizeof_T = j := by
        rw [Nat.add_sub_cancel_left]
        exact Nat.mul_div_cancel j hs
      rcases deallocate_cases env
          (⟨min (p.use + 1) 7, p.ctrl.set j slot_used, .committed p.state.page,
            fun a => if a = p.state.page.base_addr + j * env.sizeof_T then some v
              else p.objs a⟩ : Puddle V)
          (p.state.page.base_addr + j * env.sizeof_T) with
        ⟨h0, _⟩ | ⟨_, hv, _⟩ | ⟨_, _, hnin, _⟩ | ⟨_, _, _, _, _, hd⟩ | ⟨_, _, _, _, hoob, _⟩
      · exact absurd h0 hne
      · simp [valid_memory] at hv
      · exfalso
        apply hnin
        simp only [page_committed]
        constructor <;> omega
      · simp only [page_committed] at hd
        rw [hidx] at hd
        refine ⟨_, hd, ?_, ⟨j, rfl, hje, rfl, rfl⟩, rfl, rfl⟩
        exact set_set_self p.ctrl j slot_used slot_empty hje
      · exfalso
        simp only [page_committed] at hoob
        rcases hoob with hmod | hoob
        · apply hmod
          rw [Nat.add_sub_cancel_left]
          exact Nat.mul_mod_left j env.sizeof_T
        · rw [hidx] at hoob
          simp only [List.length_set] at hoob
          omega
    · rw [ho] at ha; cases ha
    · rw [ho] at ha; cases ha

/-! ## Foreign pointers -/

/-- C9, as amended: for a puddle whose page is committed and a pointer outside
`[base, base + size)`, `deallocate` leaves the puddle as it is and returns `false`
when the pointer is not null, `true` when it is null. -/
theorem deallocate_outside_page (env : Env) (p : Puddle V) (page : Page) (ptr : Nat)
    (hc : p.state = .committed page)
    (hout : ¬ (page.base_addr ≤ ptr ∧ ptr < page.base_addr + page.size)) :
    deallocate env p ptr = .ret (decide (ptr = 0)) p := by
  have hpg : p.state.page = page := by rw [hc]; rfl
  rcases deallocate_cases env p ptr with
    ⟨h0, ho⟩ | ⟨_, hv, _⟩ | ⟨h0, _, _, ho⟩ | ⟨_, _, h1, h2, _⟩ | ⟨_, _, h1, h2, _⟩
  · rw [ho]; simp [h0]
  · simp [valid_memory, hc] at hv
  · rw [ho]; simp [h0]
  · rw [hpg] at h1 h2; exact absurd ⟨h1, h2⟩ hout
  · rw [hpg] at h1 h2; exact absurd ⟨h1, h2⟩ hout

/-! ## The usage counter -/

/-- C10: in every reachable state the usage counter is at most 7 (and, as a natural
number, at least 0); whenever the puddle survives the call, `try_allocate` leaves it
one higher unless it is 7, `unused_in_allocation` leaves it one lower unless it is 0,
and `deallocate` leaves it as it is; the postconditions of `inc_use` and `dec_use`
do not fail. -/
theorem use_counter_saturates (env : Env) (p : Puddle V) (h : Reachable env p) :
    p.use ≤ 7
    ∧ (∀ os args q, (try_allocate env os p args).state? = some q →
        q.use = if p.use = 7 then 7 else p.use + 1)
    ∧ (∀ os q, (unused_in_allocation env os p).state? = some q →
        q.use = if p.use = 0 then 0 else p.use - 1)
    ∧ (∀ ptr q, (deallocate env p ptr).state? = some q → q.use = p.use)
    ∧ (∀ os, inc_use env os p ≠ .abort .inc_use_pos
        ∧ inc_use env os p ≠ .abort .inc_use_le_7
        ∧ dec_use env os p ≠ .abort .dec_use_lt_7
        ∧ dec_use env os p ≠ .abort .dec_use_ge_0)
    ∧ (∀ os args, try_allocate env os p args ≠ .abort .inc_use_pos
        ∧ try_allocate env os p args ≠ .abort .inc_use_le_7) := by
  have hI := h.inv
  have hle := hI.use_le
  have hmin : min (p.use + 1) 7 = if p.use = 7 then 7 else p.use + 1 := by
    split <;> omega
  refine ⟨hle, ?_, ?_, ?_, ?_, ?_⟩
  · intro os args q hq
    rcases try_allocate_cases env os p args hI with
      ⟨ho, h0, _⟩ | ⟨ho, _⟩ | ⟨ho, _⟩ | ⟨_, ho⟩ | ⟨j, _, _, _, hcase⟩
    · rw [ho] at hq
      simp only [Outcome.state?, Option.some.injEq] at hq
      subst hq
      simp [h0]
    · rw [ho] at hq; simp [Outcome.state?] at hq
    · rw [ho] at hq; simp [Outcome.state?] at hq
    · rw [ho] at hq
      simp only [Outcome.state?, Option.some.injEq] at hq
      subst hq
      exact hmin
    · rcases hcase with ⟨v, _, _, ho⟩ | ⟨_, _, ho⟩ | ⟨_, _, _, ho⟩ <;>
      · rw [ho] at hq
        simp only [Outcome.state?, Option.some.injEq] at hq
        subst hq
        exact hmin
  · intro os q hq
    rcases unused_in_allocation_cases env os p hle with ⟨ho, _⟩ | ⟨_, _, ho⟩ | ⟨_, _, ho⟩
    · rw [ho] at hq
      simp only [Outcome.state?, Option.some.injEq] at hq
      subst hq
      simp only
      split <;> omega
    · rw [ho] at hq; simp [Outcome.state?] at hq
    · rw [ho] at hq; simp [Outcome.state?] at hq
  · intro ptr q hq
    rcases deallocate_cases env p ptr with
      ⟨_, ho⟩ | ⟨_, _, ho | ho⟩ | ⟨_, _, _, ho⟩ | ⟨_, _, _, _, _, ho⟩ | ⟨_, _, _, _, _, ho⟩
    all_goals
      rw [ho] at hq
      simp only [Outcome.state?, Option.some.injEq] at hq
    all_goals first
      | (subst hq; rfl)
      | exact absurd hq (by simp)
  · intro os
    refine ⟨?_, ?_, ?_, ?_⟩
    · rcases inc_use_cases env os p hI with ho | ⟨ho, _⟩ | ⟨ho, _⟩ <;> rw [ho] <;> simp
    · rcases inc_use_cases env os p hI with ho | ⟨ho, _⟩ | ⟨ho, _⟩ <;> rw [ho] <;> simp
    · rcases unused_in_allocation_cases env os p hle with ⟨ho, _⟩ | ⟨_, _, ho⟩ | ⟨_, _, ho⟩ <;>
        (unfold unused_in_allocation at ho; rw [ho]; simp)
    · rcases unused_in_allocation_cases env os p hle with ⟨ho, _⟩ | ⟨_, _, ho⟩ | ⟨_, _, ho⟩ <;>
        (unfold unused_in_allocation at ho; rw [ho]; simp)
  · intro os args
    rcases try_allocate_cases env os p args hI with
      ⟨ho, _⟩ | ⟨ho, _⟩ | ⟨ho, _⟩ | ⟨_, ho⟩ | ⟨j, _, _, _, hcase⟩
    · rw [ho]; simp
    · rw [ho]; simp
    · rw [ho]; simp
    · rw [ho]; simp
    · rcases hcase with ⟨v, _, _, ho⟩ | ⟨_, _, ho⟩ | ⟨_, _, _, ho⟩ <;> rw [ho] <;> simp

/-! ## Live objects -/

theorem slot_addr_ne (base s i j : Nat) (hs : 0 < s) (hij : i ≠ j) :
    base + i * s ≠ base + j * s := by
  intro h
  have h1 : i * s = j * s := by omega
  exact hij (Nat.eq_of_mul_eq_mul_right hs h1)

/-- A held object survives any `try_allocate` the puddle survives. -/
theorem holds_after_try_allocate (env : Env) (os : OsReply) (p q : Puddle V)
    (args : Option V) (hI : Inv env p)
    (hq : (try_allocate env os p args).state? = some q)
    (e : Nat × V) (he : Holds env p e) : Holds env q e := by
  obtain ⟨i, hi, heq, hused, hobj, hv⟩ := he
  have hvle : vectorized_size env p ≤ p.ctrl.length := by unfold vectorized_size; omega
  have hst : (if p.use = 0 then PageState.committed p.state.page else p.state)
      = .committed p.state.page := by
    by_cases h0 : p.use = 0
    · simp [h0]
    · simp only [h0, if_false]
      rcases p with ⟨use, ctrl, state, objs⟩
      cases state <;> simp_all [valid_memory, PageState.page]
  rcases try_allocate_cases env os p args hI with
    ⟨_, _, hn⟩ | ⟨_, _, hn⟩ | ⟨_, _, hn, _⟩ | ⟨_, ho⟩ | ⟨j, hj, hje, _, hcase⟩
  · rw [hv] at hn; exact absurd hn (by simp)
  · rw [hv] at hn; exact absurd hn (by simp)
  · rw [hv] at hn; exact absurd hn (by simp)
  · rw [ho, hst] at hq
    simp only [Outcome.state?, Option.some.injEq] at hq
    subst hq
    exact ⟨i, hi, heq, hused, hobj, rfl⟩
  · have hij : i ≠ j := by
      intro hij
      rw [hij, hje] at hused
      simp [slot_empty, slot_used] at hused
    obtain ⟨hs, _⟩ := slot_in_page env p hI j (by omega)
    have hne : e.1 ≠ p.state.page.base_addr + j * env.sizeof_T := by
      rw [heq]; exact slot_addr_ne _ _ _ _ hs hij
    have hvs : ∀ (u : Nat) (st : PageState) (o : Nat → Option V),
        vectorized_size env (⟨u, p.ctrl.set j slot_used, st, o⟩ : Puddle V)
          = vectorized_size env p := by
      intro u st o; unfold vectorized_size; simp
    have hset : (p.ctrl.set j slot_used)[i]? = some slot_used := by
      rw [List.getElem?_set]
      simp [Ne.symm hij, hused]
    rcases hcase with ⟨v, _, _, ho⟩ | ⟨_, _, ho⟩ | ⟨_, hn, _, _⟩
    · rw [ho] at hq
      simp only [Outcome.state?, Option.some.injEq] at hq
      subst hq
      refine ⟨i, by rw [hvs]; exact hi, heq, hset, ?_, rfl⟩
      simp [hne, hobj]
    · rw [ho] at hq
      simp only [Outcome.state?, Option.some.injEq] at hq
      subst hq
      exact ⟨i, by rw [hvs]; exact hi, heq, hset, hobj, rfl⟩
    · rw [hv] at hn; exact absurd hn (by simp)

/-- A non-null pointer returned by `try_allocate` is held afterwards and differs from
every pointer held before. -/
theorem holds_new_pointer (env : Env) (os : OsReply) (p q : Puddle V) (v : V) (ptr : Nat)
    (hI : Inv env p) (ha : try_allocate env os p (some v) = .ret ptr q) (hne : ptr ≠ 0) :
    Holds env q (ptr, v) ∧ ∀ e, Holds env p e → e.1 ≠ ptr := by
  have hvle : vectorized_size env p ≤ p.ctrl.length := by unfold vectorized_size; omega
  rcases try_allocate_cases env os p (some v) hI with
    ⟨ho, _⟩ | ⟨ho, _⟩ | ⟨ho, _⟩ | ⟨_, ho⟩ | ⟨j, hj, hje, _, hcase⟩
  · rw [ho] at ha; cases ha
  · rw [ho] at ha; cases ha
  · rw [ho] at ha; cases ha
  · rw [ho] at ha
    simp only [Outcome.ret.injEq] at ha
    exact absurd ha.1.symm hne
  · obtain ⟨hs, _⟩ := slot_in_page env p hI j (by omega)
    rcases hcase with ⟨w, hw, _, ho⟩ | ⟨hn, _⟩ | ⟨_, _, _, ho⟩
    · rw [ho] at ha
      simp only [Outcome.ret.injEq] at ha
      obtain ⟨rfl, rfl⟩ := ha
      simp only [Option.some.injEq] at hw
      subst hw
      refine ⟨⟨j, ?_, rfl, ?_, by simp, rfl⟩, ?_⟩
      · unfold vectorized_size; simpa [vectorized_size] using hj
      · rw [List.getElem?_set]; simp; omega
      · rintro e ⟨i, _, heq, hused, _⟩
        have hij : i ≠ j := by
          intro hij
          rw [hij, hje] at hused
          simp [slot_empty, slot_used] at hused
        rw [heq]; exact slot_addr_ne _ _ _ _ hs hij
    · cases hn
    · rw [ho] at ha; cases ha

/-- The `deallocate` of a held pointer returns `true`, and every other held object
survives it. -/
theorem holds_after_deallocate (env : Env) (p : Puddle V) (hI : Inv env p)
    (e : Nat × V) (he : Holds env p e) :
    ∃ q, deallocate env p e.1 = .ret true q ∧ Inv env q
      ∧ ∀ e2, Holds env p e2 → e2.1 ≠ e.1 → Holds env q e2 := by
  obtain ⟨i, hi, heq, hused, hobj, hv⟩ := he
  have hvle : vectorized_size env p ≤ p.ctrl.length := by unfold vectorized_size; omega
  obtain ⟨hs, hin⟩ := slot_in_page env p hI i (by omega)
  have hsize := hI.size
  have hbase := hI.base
  have hidx : (e.1 - p.state.page.base_addr) / env.sizeof_T = i := by
    rw [heq, Nat.add_sub_cancel_left]
    exact Nat.mul_div_cancel i hs
  rcases deallocate_cases env p e.1 with
    ⟨h0, _⟩ | ⟨_, hn, _⟩ | ⟨_, _, hnin, _⟩ | ⟨_, _, _, _, _, hd⟩ | ⟨_, _, _, _, hoob, _⟩
  · omega
  · rw [hv] at hn; exact absurd hn (by simp)
  · exfalso; apply hnin; constructor <;> omega
  · rw [hidx] at hd
    have hIq : Inv env (⟨p.use, p.ctrl.set i slot_empty, p.state,
        fun a => if a = e.1 then none else p.objs a⟩ : Puddle V) :=
      hI.transfer (by simp) (tail_set env p hI _ slot_empty (Or.inr rfl)) hI.use_le rfl hI.mingw
    refine ⟨_, hd, hIq, ?_⟩
    rintro e2 ⟨i2, hi2, heq2, hused2, hobj2, _⟩ hne2
    have hii : i ≠ i2 := by
      intro hii
      apply hne2
      rw [heq, heq2, hii]
    refine ⟨i2, ?_, heq2, ?_, ?_, hv⟩
    · unfold vectorized_size; simpa [vectorized_size] using hi2
    · rw [List.getElem?_set]; simp [hii, hused2]
    · simp [hne2, hobj2]
  · rcases hoob with hmod | hoob
    · apply absurd _ hmod
      rw [heq, Nat.add_sub_cancel_left]
      exact Nat.mul_mod_left i env.sizeof_T
    · rw [hidx] at hoob; omega

/-- Along the calls of a client, the pointers it holds stay distinct and each keeps
its object. -/
theorem run_calls_holds (env : Env) :
    ∀ (calls : List (Call V)) (p : Puddle V) (live : List (Nat × V)) (q : Puddle V)
      (live2 : List (Nat × V)),
      Inv env p → (live.map Prod.fst).Nodup → (∀ e ∈ live, Holds env p e) →
      run_calls env p live calls = some (q, live2) →
      (live2.map Prod.fst).Nodup ∧ ∀ e ∈ live2, Holds env q e := by
  intro calls
  induction calls with
  | nil =>
    intro p live q live2 _ hnd hh hrun
    simp only [run_calls, Option.some.injEq, Prod.mk.injEq] at hrun
    obtain ⟨rfl, rfl⟩ := hrun
    exact ⟨hnd, hh⟩
  | cons c calls ih =>
    intro p live q live2 hI hnd hh hrun
    cases c with
    | try_allocate os args =>
      simp only [run_calls] at hrun
      cases hout : try_allocate env os p args with
      | ret ptr r =>
        rw [hout] at hrun
        have hst : (try_allocate env os p args).state? = some r := by rw [hout]; rfl
        have hIr := (inv_try_allocate env os p r args hI hst).1
        have hkeep : ∀ e ∈ live, Holds env r e := fun e he =>
          holds_after_try_allocate env os p r args hI hst e (hh e he)
        cases args with
        | none => exact ih r live q live2 hIr hnd hkeep hrun
        | some v =>
          simp only at hrun
          by_cases h0 : ptr = 0
          · simp only [h0, if_true] at hrun
            exact ih r live q live2 hIr hnd hkeep hrun
          · simp only [h0, if_false] at hrun
            obtain ⟨hnew, hfresh⟩ := holds_new_pointer env os p r v ptr hI hout h0
            refine ih r ((ptr, v) :: live) q live2 hIr ?_ ?_ hrun
            · simp only [List.map_cons, List.nodup_cons]
              refine ⟨?_, hnd⟩
              intro hmem
              obtain ⟨e, he, hfst⟩ := List.mem_map.mp hmem
              exact hfresh e (hh e he) hfst
            · intro e he
              rcases List.mem_cons.mp he with rfl | he
              · exact hnew
              · exact hkeep e he
      | throw x r =>
        rw [hout] at hrun
        have hst : (try_allocate env os p args).state? = some r := by rw [hout]; rfl
        have hIr := (inv_try_allocate env os p r args hI hst).1
        exact ih r live q live2 hIr hnd
          (fun e he => holds_after_try_allocate env os p r args hI hst e (hh e he)) hrun
      | abort site => rw [hout] at hrun; simp at hrun
      | out_of_bounds => rw [hout] at hrun; simp at hrun
    | deallocate ptr =>
      simp only [run_calls] at hrun
      by_cases hmem : ptr ∈ live.map Prod.fst
      · simp only [hmem, if_true] at hrun
        obtain ⟨e, he, rfl⟩ := List.mem_map.mp hmem
        obtain ⟨r, hd, hIr, hothers⟩ := holds_after_deallocate env p hI e (hh e he)
        rw [hd] at hrun
        refine ih r _ q live2 hIr ?_ ?_ hrun
        · exact hnd.sublist ((List.filter_sublist live).map Prod.fst)
        · intro e2 he2
          obtain ⟨h1, h2⟩ := List.mem_filter.mp he2
          exact hothers e2 (hh e2 h1) (by simpa using h2)
      · simp [hmem] at hrun

/-- C7: a client plays any sequence of `try_allocate` and `deallocate` calls against a
puddle in a reachable state, deallocating only pointers it got from the puddle and
still holds. Then the pointers it holds are pairwise distinct and each still addresses
the value its object was constructed with, in a Used slot of the committed page. -/
theorem live_objects_keep_their_values (env : Env) (p q : Puddle V)
    (calls : List (Call V)) (live : List (Nat × V))
    (h : Reachable env p) (hrun : run_calls env p [] calls = some (q, live)) :
    (∀ e ∈ live, q.objs e.1 = some e.2)
    ∧ (live.map Prod.fst).Nodup
    ∧ (∀ e ∈ live, Holds env q e) := by
  obtain ⟨hnd, hh⟩ := run_calls_holds env calls p [] q live h.inv (by simp)
    (by intro e he; cases he) hrun
  refine ⟨?_, hnd, hh⟩
  intro e he
  obtain ⟨_, _, _, _, hobj, _⟩ := hh e he
  exact hobj

/-! ## Concrete runs -/

theorem reachable_fresh : Reachable env_two puddle_fresh :=
  Reachable.ctor os_grants puddle_fresh rfl

theorem reachable_one : Reachable env_two puddle_one :=
  Reachable.step puddle_fresh (.try_allocate os_grants (some 7)) puddle_one reachable_fresh rfl

theorem reachable_full : Reachable env_two puddle_full :=
  Reachable.step puddle_one (.try_allocate os_grants (some 8)) puddle_full reachable_one rfl

/-- C3, the code at a failing input: a new puddle for 1024-byte elements on a
4096-byte page has capacity 4, and with batches of 16 slot bytes each of 4
consecutive `try_allocate` calls returns `nullptr`. -/
theorem try_allocate_each_capacity_four :
    ∃ p q : Puddle Nat, ctor env_four os_grants = .ok p ∧ capacity p = 4
      ∧ try_allocate_each env_four os_grants p [1, 2, 3, 4] = some ([0, 0, 0, 0], q) :=
  ⟨_, _, rfl, rfl, rfl⟩

/-- C5, the code at a failing input: a new puddle for 240-byte elements on a
4096-byte page has capacity 17; with batches of 16 slot bytes, after 16 allocations
slot 16 is the Empty slot with the smallest index, and `try_allocate` returns
`nullptr` and marks no slot. -/
theorem try_allocate_skips_empty_slot :
    ∃ (p q r : Puddle Nat) (ptrs : List Nat),
      ctor env_seventeen os_grants = .ok p
      ∧ try_allocate_each env_seventeen os_grants p (List.range 16) = some (ptrs, q)
      ∧ q.ctrl = List.replicate 16 slot_used ++ [slot_empty]
      ∧ try_allocate env_seventeen os_grants q (some 16) = .ret 0 r
      ∧ r.ctrl = q.ctrl :=
  ⟨_, _, _, _, rfl, rfl, rfl, rfl, rfl⟩

/-- The second object of a capacity-2 puddle lies in the upper half of the page. -/
theorem try_allocate_in_page_witness :
    ∃ page, puddle_full.state = .committed page ∧ page.base_addr ≤ 67584
      ∧ 67584 + env_two.sizeof_T ≤ page.base_addr + page.size :=
  (try_allocate_in_page env_two os_grants puddle_one (some 8) reachable_one).1
    67584 puddle_full rfl (by decide)

/-- Two allocations and the deallocation of the first: the second object is still
there with its value 8. -/
theorem live_objects_keep_their_values_witness :
    (∀ e ∈ [((67584 : Nat), (8 : Nat))], puddle_second.objs e.1 = some e.2)
    ∧ ([((67584 : Nat), (8 : Nat))].map Prod.fst).Nodup
    ∧ (∀ e ∈ [((67584 : Nat), (8 : Nat))], Holds env_two puddle_second e) :=
  live_objects_keep_their_values env_two puddle_fresh puddle_second
    [.try_allocate os_grants (some 7), .try_allocate os_grants (some 8), .deallocate 65536]
    [(67584, 8)] reachable_fresh rfl

/-- Allocating in a new puddle and deallocating the pointer gives back the slot-status
vector of the new puddle. -/
theorem deallocate_after_try_allocate_witness :
    ∃ r, deallocate env_two puddle_one 65536 = .ret true r
      ∧ r.ctrl = puddle_fresh.ctrl
      ∧ (∃ i, 65536 = puddle_one.state.page.base_addr + i * env_two.sizeof_T
          ∧ puddle_fresh.ctrl[i]? = some slot_empty
          ∧ puddle_one.ctrl = puddle_fresh.ctrl.set i slot_used
          ∧ r.ctrl = puddle_one.ctrl.set i slot_empty)
      ∧ r.use = puddle_one.use ∧ r.state = puddle_one.state :=
  deallocate_after_try_allocate env_two os_grants puddle_fresh puddle_one (some 7) 65536
    reachable_fresh rfl (by decide)

/-- C9, the claim at a failing input: the null pointer lies outside the committed page
`[65536, 69632)` and `deallocate` returns `true` for it. -/
theorem deallocate_nullptr_returns_true :
    puddle_one.state = .committed ⟨65536, 4096⟩
    ∧ decide (65536 ≤ 0 ∧ 0 < 65536 + 4096) = false
    ∧ (deallocate env_two puddle_one 0).value? = some true :=
  ⟨rfl, by decide, rfl⟩

/-- The address 100 lies below the page: `deallocate` returns `false` and the puddle
is as before. -/
theorem deallocate_outside_page_witness :
    deallocate env_two puddle_one 100 = .ret (decide (100 = 0)) puddle_one :=
  deallocate_outside_page env_two puddle_one ⟨65536, 4096⟩ 100 rfl (by decide)

/-- The counter of the capacity-2 puddle after two allocations. -/
theorem use_counter_saturates_witness :
    puddle_full.use ≤ 7
    ∧ (∀ os args q, (try_allocate env_two os puddle_full args).state? = some q →
        q.use = if puddle_full.use = 7 then 7 else puddle_full.use + 1)
    ∧ (∀ os q, (unused_in_allocation env_two os puddle_full).state? = some q →
        q.use = if puddle_full.use = 0 then 0 else puddle_full.use - 1)
    ∧ (∀ ptr q, (deallocate env_two puddle_full ptr).state? = some q →
        q.use = puddle_full.use)
    ∧ (∀ os, inc_use env_two os puddle_full ≠ .abort .inc_use_pos
        ∧ inc_use env_two os puddle_full ≠ .abort .inc_use_le_7
        ∧ dec_use env_two os puddle_full ≠ .abort .dec_use_lt_7
        ∧ dec_use env_two os puddle_full ≠ .abort .dec_use_ge_0)
    ∧ (∀ os args, try_allocate env_two os puddle_full args ≠ .abort .inc_use_pos
        ∧ try_allocate env_two os puddle_full args ≠ .abort .inc_use_le_7) :=
  use_counter_saturates env_two puddle_full reachable_full

/-! ## Commits succeeding -/

theorem grants_commit_iff (os : OsReply) :
    grants_commit os = true ↔ os.VirtualAlloc_commit = true
      ∧ (os.ReclaimVirtualMemory == ERROR_SUCCESS
          || os.ReclaimVirtualMemory == ERROR_BUSY) = true := by
  simp [grants_commit]

/-- A granted commit of a non-empty page returns the page. -/
theorem commit_granted_ok (env : Env) (os : OsReply) (p : Puddle V) (hI : Inv env p)
    (hg : grants_commit os = true) (hP : 0 < env.page_size) :
    page_allocator.commit env os p.state = .ok p.state.page := by
  obtain ⟨hva, hre⟩ := (grants_commit_iff os).mp hg
  obtain ⟨_, _, _, hsize, hbase, hmingw⟩ := hI
  rcases p with ⟨use, ctrl, state, objs⟩
  cases state with
  | allocated pg =>
    obtain ⟨b, sz⟩ := pg
    simp only [PageState.page] at hsize hbase
    subst hsize
    simp [page_allocator.commit, page_allocator.commit_allocated, precondition_eq,
      postcondition_eq, hva, hbase, PageState.page]
  | committed pg => simp [page_allocator.commit, PageState.page]
  | loaned pg =>
    simp only [PageState.page] at hsize hbase
    cases hb : env.backend with
    | mingw => exact absurd rfl (hmingw hb pg)
    | win32 =>
      have hnz : pg.size ≠ 0 := by omega
      simp [page_allocator.commit, page_allocator.commit_loaned, precondition_eq, hb, hbase,
        hnz, hre, PageState.page]

/-- A granted commit returns the page; the one check that can fail is the size check
of `commit(loaned_page)` on an empty page. -/
theorem commit_granted_cases (env : Env) (os : OsReply) (p : Puddle V) (hI : Inv env p)
    (hg : grants_commit os = true) :
    page_allocator.commit env os p.state = .ok p.state.page
    ∨ (page_allocator.commit env os p.state = .error (.abort .commit_loaned_size_nonzero)
        ∧ env.page_size = 0) := by
  rcases Nat.eq_zero_or_pos env.page_size with h0 | hP
  · obtain ⟨hva, hre⟩ := (grants_commit_iff os).mp hg
    obtain ⟨_, _, _, hsize, hbase, hmingw⟩ := hI
    rcases p with ⟨use, ctrl, state, objs⟩
    cases state with
    | allocated pg =>
      left
      obtain ⟨b, sz⟩ := pg
      simp only [PageState.page] at hsize hbase
      subst hsize
      simp [page_allocator.commit, page_allocator.commit_allocated, precondition_eq,
        postcondition_eq, hva, hbase, PageState.page]
    | committed pg => left; simp [page_allocator.commit, PageState.page]
    | loaned pg =>
      simp only [PageState.page] at hsize hbase
      cases hb : env.backend with
      | mingw => exact absurd rfl (hmingw hb pg)
      | win32 =>
        by_cases hz : (!env.check_pre || pg.size != 0) = true
        · left
          simp [page_allocator.commit, page_allocator.commit_loaned, precondition_eq, hb,
            hbase, hz, hre, PageState.page]
        · right
          refine ⟨?_, h0⟩
          simp [page_allocator.commit, page_allocator.commit_loaned, precondition_eq, hb,
            hbase, hz]
  · left; exact commit_granted_ok env os p hI hg hP

/-- With the commit granted, `inc_use` returns, unless the size check of
`commit(loaned_page)` fails on an empty page. -/
theorem inc_use_granted (env : Env) (os : OsReply) (p : Puddle V) (hI : Inv env p)
    (hg : grants_commit os = true) :
    inc_use env os p = .ret ()
        ⟨min (p.use + 1) 7, p.ctrl,
          if p.use = 0 then .committed p.state.page else p.state, p.objs⟩
    ∨ (inc_use env os p = .abort .commit_loaned_size_nonzero ∧ env.page_size = 0) := by
  rcases inc_use_cases env os p hI with ho | ⟨ho, h0, _⟩ | ⟨ho, h0, _⟩
  · left; exact ho
  · exfalso
    have hI1 : Inv env (⟨p.use + 1, p.ctrl, p.state, p.objs⟩ : Puddle V) :=
      ⟨hI.len, hI.tail, by simp [h0], hI.size, hI.base, hI.mingw⟩
    rcases commit_granted_cases env os _ hI1 hg with hc | ⟨hc, _⟩ <;>
      simp [inc_use, retake_buffer, hc, h0, Outcome.bind, postcondition_eq, valid_memory]
        at ho
  · rcases Nat.eq_zero_or_pos env.page_size with hz | hP
    · right; exact ⟨ho, hz⟩
    · exfalso
      have hI1 : Inv env (⟨p.use + 1, p.ctrl, p.state, p.objs⟩ : Puddle V) :=
        ⟨hI.len, hI.tail, by simp [h0], hI.size, hI.base, hI.mingw⟩
      have hc := commit_granted_ok env os _ hI1 hg hP
      simp [inc_use, retake_buffer, hc, h0, Outcome.bind, postcondition_eq, valid_memory]
        at ho

/-- An exception that `try_allocate` lets escape from the commit comes from `inc_use`. -/
theorem try_allocate_bad_alloc (env : Env) (os : OsReply) (p q : Puddle V)
    (args : Option V) (h : try_allocate env os p args = .throw .bad_alloc q) :
    inc_use env os p = .throw .bad_alloc q := by
  unfold try_allocate at h
  cases hi : inc_use env os p with
  | ret a p1 =>
    rw [hi] at h
    simp only [Outcome.bind] at h
    split at h
    · cases h
    · split at h
      · cases h
      · split at h
        · cases h
        · split at h
          · split at h
            · cases h
            · split at h <;> cases h
          · cases h
  | throw e p1 =>
    rw [hi] at h
    simp only [Outcome.bind, Outcome.throw.injEq] at h
    rw [h.1, h.2]
  | abort site => rw [hi] at h; simp [Outcome.bind] at h
  | out_of_bounds => rw [hi] at h; simp [Outcome.bind] at h

/-- A failed check of the commit that `try_allocate` reports comes from `inc_use`. -/
theorem try_allocate_abort_commit (env : Env) (os : OsReply) (p : Puddle V)
    (args : Option V)
    (h : try_allocate env os p args = .abort .commit_loaned_size_nonzero) :
    inc_use env os p = .abort .commit_loaned_size_nonzero := by
  unfold try_allocate at h
  cases hi : inc_use env os p with
  | ret a p1 =>
    rw [hi] at h
    simp only [Outcome.bind] at h
    split at h
    · cases h
    · split at h
      · cases h
      · split at h
        · cases h
        · split at h
          · split at h
            · cases h
            · split at h <;> cases h
          · cases h
  | throw e p1 => rw [hi] at h; simp [Outcome.bind] at h
  | abort site =>
    rw [hi] at h
    simp only [Outcome.bind, Outcome.abort.injEq] at h
    rw [h]
  | out_of_bounds => rw [hi] at h; simp [Outcome.bind] at h

theorem committed_of_valid (p : Puddle V) (hv : valid_memory p = true) :
    p.state = .committed p.state.page := by
  rcases p with ⟨use, ctrl, state, objs⟩
  cases state <;> simp_all [valid_memory, PageState.page]

/-- Every way `try_allocate` can end in a state reachable with commits succeeding,
when the commit is granted. -/
theorem try_allocate_granted (env : Env) (os : OsReply) (p : Puddle V) (args : Option V)
    (hG : InvGranted env p) (hg : grants_commit os = true) :
    (try_allocate env os p args = .abort .commit_loaned_size_nonzero
      ∧ p.use = 0 ∧ env.page_size = 0)
    ∨ ((∀ k, k < vectorized_size env p → p.ctrl[k]? ≠ some slot_empty)
      ∧ try_allocate env os p args = .ret 0
          ⟨min (p.use + 1) 7, p.ctrl, .committed p.state.page, p.objs⟩)
    ∨ (∃ j, j < vectorized_size env p ∧ p.ctrl[j]? = some slot_empty
      ∧ (∀ k, k < j → p.ctrl[k]? ≠ some slot_empty)
      ∧ ((∃ v, args = some v
          ∧ try_allocate env os p args
            = .ret (p.state.page.base_addr + j * env.sizeof_T)
                ⟨min (p.use + 1) 7, p.ctrl.set j slot_used, .committed p.state.page,
                  fun a => if a = p.state.page.base_addr + j * env.sizeof_T then some v
                    else p.objs a⟩)
        ∨ (args = none
          ∧ try_allocate env os p args
            = .throw .constructor_failed
                ⟨min (p.use + 1) 7, p.ctrl.set j slot_used, .committed p.state.page,
                  p.objs⟩))) := by
  have hI := hG.inv
  have hvalid : p.use ≠ 0 → valid_memory p = true := fun h => hG.use_committed (by omega)
  rcases try_allocate_cases env os p args hI with
    ⟨ho, _, _⟩ | ⟨ho, h0, _⟩ | ⟨_, h0, hn, _⟩ | ⟨hnone, ho⟩ | ⟨j, hj, hje, hjf, hcase⟩
  · exfalso
    have hi := try_allocate_bad_alloc env os p _ args ho
    rcases inc_use_granted env os p hI hg with h1 | ⟨h1, _⟩ <;> rw [h1] at hi <;> cases hi
  · left
    refine ⟨ho, h0, ?_⟩
    have hi := try_allocate_abort_commit env os p args ho
    rcases inc_use_granted env os p hI hg with h1 | ⟨_, hz⟩
    · rw [h1] at hi; cases hi
    · exact hz
  · rw [hvalid h0] at hn; exact absurd hn (by simp)
  · right; left
    refine ⟨hnone, ?_⟩
    rw [ho]
    by_cases h0 : p.use = 0
    · simp [h0]
    · simp only [h0, if_false]
      rw [← committed_of_valid p (hvalid h0)]
  · right; right
    refine ⟨j, hj, hje, hjf, ?_⟩
    rcases hcase with ⟨v, hv, _, ho⟩ | ⟨hn, _, ho⟩ | ⟨h0, hn, _, _⟩
    · left; exact ⟨v, hv, ho⟩
    · right; exact ⟨hn, ho⟩
    · rw [hvalid h0] at hn; exact absurd hn (by simp)

theorem inv_granted_ctor (env : Env) (os : OsReply) (p : Puddle V) (h : ctor env os = .ok p) :
    InvGranted env p := by
  refine ⟨inv_ctor env os p h, ?_, ?_⟩
  · obtain ⟨rfl, _, _⟩ := ctor_ok env os p h
    intro hu; simp at hu
  · obtain ⟨rfl, _, _⟩ := ctor_ok env os p h
    intro hm
    have := List.eq_of_mem_replicate hm
    simp [slot_used, slot_empty] at this

theorem mem_of_mem_set_empty (l : List Nat) (i : Nat) (hm : slot_used ∈ l.set i slot_empty) :
    slot_used ∈ l := by
  rcases List.mem_or_eq_of_mem_set hm with h | h
  · exact h
  · simp [slot_used, slot_empty] at h

theorem inv_granted_step (env : Env) (p q : Puddle V) (op : Op V)
    (hG : InvGranted env p) (hg : commit_granted op = true) (h : step env p op = some q) :
    InvGranted env q := by
  have hIq := (inv_step env p q op hG.inv h).1
  refine ⟨hIq, ?_, ?_⟩
  · cases op with
    | try_allocate os args =>
      simp only [step] at h
      simp only [commit_granted] at hg
      rcases try_allocate_granted env os p args hG hg with
        ⟨ho, _⟩ | ⟨_, ho⟩ | ⟨j, _, _, _, ⟨v, _, ho⟩ | ⟨_, ho⟩⟩ <;>
      · rw [ho] at h
        simp only [Outcome.state?, Option.some.injEq] at h
        first
          | (subst h; intro _; rfl)
          | exact absurd h (by simp)
    | deallocate ptr =>
      simp only [step] at h
      rcases deallocate_cases env p ptr with
        ⟨_, ho⟩ | ⟨_, _, ho | ho⟩ | ⟨_, _, _, ho⟩ | ⟨_, _, _, _, _, ho⟩ | ⟨_, _, _, _, _, ho⟩
      all_goals
        rw [ho] at h
        simp only [Outcome.state?, Option.some.injEq] at h
      all_goals first
        | (subst h; exact hG.use_committed)
        | exact absurd h (by simp)
    | unused_in_allocation os =>
      simp only [step] at h
      rcases unused_in_allocation_cases env os p hG.inv.use_le with
        ⟨ho, _⟩ | ⟨_, _, ho⟩ | ⟨_, _, ho⟩
      · rw [ho] at h
        simp only [Outcome.state?, Option.some.injEq] at h
        subst h
        intro hu
        simp only at hu
        have h1 : ¬ (p.use = 1 ∧ p.ctrl.any is_used_slot = false) := by
          intro hh; omega
        have hv := hG.use_committed (by omega)
        simp only [valid_memory, h1, if_false]
        simpa [valid_memory] using hv
      · rw [ho] at h; simp [Outcome.state?] at h
      · rw [ho] at h; simp [Outcome.state?] at h
  · cases op with
    | try_allocate os args =>
      simp only [step] at h
      simp only [commit_granted] at hg
      rcases try_allocate_granted env os p args hG hg with
        ⟨ho, _⟩ | ⟨_, ho⟩ | ⟨j, _, _, _, ⟨v, _, ho⟩ | ⟨_, ho⟩⟩ <;>
      · rw [ho] at h
        simp only [Outcome.state?, Option.some.injEq] at h
        first
          | (subst h; intro _; rfl)
          | exact absurd h (by simp)
    | deallocate ptr =>
      simp only [step] at h
      rcases deallocate_cases env p ptr with
        ⟨_, ho⟩ | ⟨_, _, ho | ho⟩ | ⟨_, _, _, ho⟩ | ⟨_, _, _, _, _, ho⟩ | ⟨_, _, _, _, _, ho⟩
      all_goals
        rw [ho] at h
        simp only [Outcome.state?, Option.some.injEq] at h
      all_goals first
        | (subst h; exact hG.used_committed)
        | (subst h
           intro hm
           have hv := hG.used_committed (mem_of_mem_set_empty _ _ hm)
           simpa [valid_memory] using hv)
        | exact absurd h (by simp)
    | unused_in_allocation os =>
      simp only [step] at h
      rcases unused_in_allocation_cases env os p hG.inv.use_le with
        ⟨ho, _⟩ | ⟨_, _, ho⟩ | ⟨_, _, ho⟩
      · rw [ho] at h
        simp only [Outcome.state?, Option.some.injEq] at h
        subst h
        intro hm
        simp only at hm
        have hany : p.ctrl.any is_used_slot = true := by
          rw [List.any_eq_true]
          exact ⟨slot_used, hm, by simp [is_used_slot]⟩
        have h1 : ¬ (p.use = 1 ∧ p.ctrl.any is_used_slot = false) := by
          intro hh; rw [hany] at hh; exact absurd hh.2 (by simp)
        have hv := hG.used_committed hm
        simp only [valid_memory, h1, if_false]
        simpa [valid_memory] using hv
      · rw [ho] at h; simp [Outcome.state?] at h
      · rw [ho] at h; simp [Outcome.state?] at h

/-- Every state reachable with commits succeeding satisfies the stronger invariant. -/
theorem ReachableGranted.inv_granted {env : Env} {p : Puddle V}
    (h : ReachableGranted env p) : InvGranted env p := by
  induction h with
  | ctor os p hc => exact inv_granted_ctor env os p hc
  | step p op q _ hg hs ih => exact inv_granted_step env p q op ih hg hs

/-- A state reachable with commits succeeding is reachable. -/
theorem ReachableGranted.reachable {env : Env} {p : Puddle V}
    (h : ReachableGranted env p) : Reachable env p := by
  induction h with
  | ctor os p hc => exact Reachable.ctor os p hc
  | step p op q _ _ hs ih => exact Reachable.step p op q ih hs

/-- With a positive counter `inc_use` asks the OS for nothing. -/
theorem inc_use_no_commit (env : Env) (os os2 : OsReply) (p : Puddle V) (h0 : p.use ≠ 0) :
    inc_use env os2 p = inc_use env os p := by
  have h1 : (p.use + 1 == 1) = false := by simp [h0]
  by_cases h7 : p.use < 7 <;> simp [inc_use, h7, h1]

/-- A denied commit of a page that is not committed throws `bad_alloc`. -/
theorem commit_denied (env : Env) (os : OsReply) (p : Puddle V) (hI : Inv env p)
    (hd : denies_commit os = true) (hv : valid_memory p = false) (hP : 0 < env.page_size) :
    page_allocator.commit env os p.state = .error (.throw .bad_alloc) := by
  have hva : os.VirtualAlloc_commit = false := by
    simp [denies_commit] at hd; exact hd.1
  have hre : (os.ReclaimVirtualMemory == ERROR_SUCCESS
      || os.ReclaimVirtualMemory == ERROR_BUSY) = false := by
    simp [denies_commit] at hd
    simp [hd.2]
  obtain ⟨_, _, _, hsize, hbase, hmingw⟩ := hI
  rcases p with ⟨use, ctrl, state, objs⟩
  cases state with
  | allocated pg =>
    obtain ⟨b, sz⟩ := pg
    simp only [PageState.page] at hsize hbase
    subst hsize
    simp [page_allocator.commit, page_allocator.commit_allocated, precondition_eq, hva, hbase]
  | committed pg => simp [valid_memory] at hv
  | loaned pg =>
    simp only [PageState.page] at hsize hbase
    cases hb : env.backend with
    | mingw => exact absurd rfl (hmingw hb pg)
    | win32 =>
      have hnz : pg.size ≠ 0 := by omega
      simp only [page_allocator.commit, page_allocator.commit_loaned, hb, hre]
      simp [precondition_eq, hbase, hnz]

/-- C11: in a puddle state reachable from construction with commits succeeding, a
`try_allocate` call whose commit is granted leaves the puddle, whether it returns a
pointer or null, with a Committed page and a usage counter of at least 1, and its two
postconditions do not fail; on a non-empty page the call returns or lets the exception
of the constructor of `T` escape. The commit is requested exactly when the counter was
0: with a positive counter the call does not depend on the OS, and with counter 0 on a
page that is not committed a denied commit makes the call throw `bad_alloc`. -/
theorem try_allocate_commits_page (env : Env) (os : OsReply) (p : Puddle V)
    (args : Option V) (h : ReachableGranted env p) (hg : grants_commit os = true) :
    (∀ q, (try_allocate env os p args).state? = some q →
        valid_memory q = true ∧ 1 ≤ q.use)
    ∧ try_allocate env os p args ≠ .abort .try_allocate_valid_memory
    ∧ try_allocate env os p args ≠ .abort .try_allocate_use_pos
    ∧ (0 < env.page_size → ∃ q,
        (∃ ptr, try_allocate env os p args = .ret ptr q)
        ∨ try_allocate env os p args = .throw .constructor_failed q)
    ∧ (p.use ≠ 0 → ∀ os2, try_allocate env os2 p args = try_allocate env os p args)
    ∧ (p.use = 0 → valid_memory p = false → 0 < env.page_size →
        ∀ os2, denies_commit os2 = true →
          try_allocate env os2 p args
            = .throw .bad_alloc ⟨1, p.ctrl, p.state, p.objs⟩) := by
  have hG := h.inv_granted
  have hI := hG.inv
  have hle := hI.use_le
  have hmin : 1 ≤ min (p.use + 1) 7 := by omega
  refine ⟨?_, ?_, ?_, ?_, ?_, ?_⟩
  · intro q hq
    rcases try_allocate_granted env os p args hG hg with
      ⟨ho, _⟩ | ⟨_, ho⟩ | ⟨j, _, _, _, ⟨v, _, ho⟩ | ⟨_, ho⟩⟩
    · rw [ho] at hq; simp [Outcome.state?] at hq
    all_goals
      rw [ho] at hq
      simp only [Outcome.state?, Option.some.injEq] at hq
      subst hq
      exact ⟨rfl, hmin⟩
  · rcases try_allocate_granted env os p args hG hg with
      ⟨ho, _⟩ | ⟨_, ho⟩ | ⟨j, _, _, _, ⟨v, _, ho⟩ | ⟨_, ho⟩⟩ <;> rw [ho] <;> simp
  · rcases try_allocate_granted env os p args hG hg with
      ⟨ho, _⟩ | ⟨_, ho⟩ | ⟨j, _, _, _, ⟨v, _, ho⟩ | ⟨_, ho⟩⟩ <;> rw [ho] <;> simp
  · intro hP
    rcases try_allocate_granted env os p args hG hg with
      ⟨_, _, hz⟩ | ⟨_, ho⟩ | ⟨j, _, _, _, ⟨v, _, ho⟩ | ⟨_, ho⟩⟩
    · omega
    · exact ⟨_, Or.inl ⟨_, ho⟩⟩
    · exact ⟨_, Or.inl ⟨_, ho⟩⟩
    · exact ⟨_, Or.inr ho⟩
  · intro h0 os2
    unfold try_allocate
    rw [inc_use_no_commit env os os2 p h0]
  · intro h0 hv hP os2 hd
    have hI1 : Inv env (⟨p.use + 1, p.ctrl, p.state, p.objs⟩ : Puddle V) :=
      ⟨hI.len, hI.tail, by simp [h0], hI.size, hI.base, hI.mingw⟩
    have hc := commit_denied env os2 _ hI1 hd (by simpa [valid_memory] using hv) hP
    simp [try_allocate, inc_use, retake_buffer, hc, h0, Outcome.bind]

/-! ## Used slots and the page -/

theorem any_used_of_mem (l : List Nat) (hm : slot_used ∈ l) : l.any is_used_slot = true := by
  rw [List.any_eq_true]
  exact ⟨slot_used, hm, by simp [is_used_slot]⟩

/-- No call takes the page of a puddle with a Used slot out of the Committed state. -/
theorem step_keeps_committed (env : Env) (r q : Puddle V) (op : Op V) (hI : Inv env r)
    (hs : step env r op = some q) (hv : valid_memory r = true) (hm : slot_used ∈ r.ctrl) :
    valid_memory q = true := by
  cases op with
  | try_allocate os args =>
    simp only [step] at hs
    have hst : (if r.use = 0 then PageState.committed r.state.page else r.state)
        = .committed r.state.page := by
      by_cases h0 : r.use = 0
      · simp [h0]
      · simp only [h0, if_false]; exact committed_of_valid r hv
    rcases try_allocate_cases env os r args hI with
      ⟨_, _, hn⟩ | ⟨_, _, hn⟩ | ⟨_, _, hn, _⟩ | ⟨_, ho⟩ | ⟨j, _, _, _, hcase⟩
    · rw [hv] at hn; exact absurd hn (by simp)
    · rw [hv] at hn; exact absurd hn (by simp)
    · rw [hv] at hn; exact absurd hn (by simp)
    · rw [ho, hst] at hs
      simp only [Outcome.state?, Option.some.injEq] at hs
      subst hs; rfl
    · rcases hcase with ⟨v, _, _, ho⟩ | ⟨_, _, ho⟩ | ⟨_, hn, _, _⟩
      · rw [ho] at hs
        simp only [Outcome.state?, Option.some.injEq] at hs
        subst hs; rfl
      · rw [ho] at hs
        simp only [Outcome.state?, Option.some.injEq] at hs
        subst hs; rfl
      · rw [hv] at hn; exact absurd hn (by simp)
  | deallocate ptr =>
    simp only [step] at hs
    rcases deallocate_cases env r ptr with
      ⟨_, ho⟩ | ⟨_, _, ho | ho⟩ | ⟨_, _, _, ho⟩ | ⟨_, _, _, _, _, ho⟩ | ⟨_, _, _, _, _, ho⟩
    all_goals
      rw [ho] at hs
      simp only [Outcome.state?, Option.some.injEq] at hs
    all_goals first
      | (subst hs; exact hv)
      | exact absurd hs (by simp)
  | unused_in_allocation os =>
    simp only [step] at hs
    rcases unused_in_allocation_cases env os r hI.use_le with
      ⟨ho, _⟩ | ⟨_, _, ho⟩ | ⟨_, _, ho⟩
    · rw [ho] at hs
      simp only [Outcome.state?, Option.some.injEq] at hs
      subst hs
      have hany := any_used_of_mem r.ctrl hm
      have h1 : ¬ (r.use = 1 ∧ r.ctrl.any is_used_slot = false) := by
        intro hh; rw [hany] at hh; exact absurd hh.2 (by simp)
      simp only [valid_memory, h1, if_false]
      simpa [valid_memory] using hv
    · rw [ho] at hs; simp [Outcome.state?] at hs
    · rw [ho] at hs; simp [Outcome.state?] at hs

/-- C12, as amended: in every puddle state reachable from construction with commits
succeeding, a Used slot comes with a Committed page; and in every reachable state no
call of `try_allocate`, `deallocate` or `unused_in_allocation` takes the page of a
puddle that has a Used slot out of the Committed state. -/
theorem used_slot_committed (env : Env) (p : Puddle V) (h : ReachableGranted env p) :
    (slot_used ∈ p.ctrl → valid_memory p = true)
    ∧ (∀ r : Puddle V, Reachable env r → ∀ op q, step env r op = some q →
        valid_memory r = true → slot_used ∈ r.ctrl → valid_memory q = true) :=
  ⟨h.inv_granted.used_committed,
    fun r hr op q hs hv hm => step_keeps_committed env r q op hr.inv hs hv hm⟩

/-! ## unused_in_allocation -/

/-- C13: in every reachable state `unused_in_allocation` leaves the slot-status vector
as it is. With counter 0 it changes nothing; with a counter of at least 2 it changes
only the counter, to one less; with counter 1 the counter becomes 0 and, when a slot is
Used, the page handle stays whatever the OS would answer, while with no slot Used the
page handle becomes what the allocator's `loan` returns. -/
theorem unused_in_allocation_acts (env : Env) (os : OsReply) (p : Puddle V)
    (h : Reachable env p) :
    (∀ q, (unused_in_allocation env os p).state? = some q →
        q.ctrl = p.ctrl ∧ q.objs = p.objs)
    ∧ (p.use = 0 → unused_in_allocation env os p = .ret () p)
    ∧ (2 ≤ p.use → unused_in_allocation env os p
        = .ret () ⟨p.use - 1, p.ctrl, p.state, p.objs⟩)
    ∧ (p.use = 1 → p.ctrl.any is_used_slot = true →
        (∀ q, (unused_in_allocation env os p).state? = some q →
          q = ⟨0, p.ctrl, p.state, p.objs⟩)
        ∧ (valid_memory p = true →
          ∀ os2, unused_in_allocation env os2 p = .ret () ⟨0, p.ctrl, p.state, p.objs⟩))
    ∧ (p.use = 1 → p.ctrl.any is_used_slot = false →
        (∀ q, (unused_in_allocation env os p).state? = some q →
          q = ⟨0, p.ctrl, page_allocator.loan env os p.state, p.objs⟩)
        ∧ (valid_memory p = true →
          (env.check_post = false ∨ (page_allocator.loan env os p.state).index ≠ 1) →
          unused_in_allocation env os p
            = .ret () ⟨0, p.ctrl, page_allocator.loan env os p.state, p.objs⟩)) := by
  have hle := h.inv.use_le
  have hcases := unused_in_allocation_cases env os p hle
  refine ⟨?_, ?_, ?_, ?_, ?_⟩
  · intro q hq
    rcases hcases with ⟨ho, _⟩ | ⟨_, _, ho⟩ | ⟨_, _, ho⟩
    · rw [ho] at hq
      simp only [Outcome.state?, Option.some.injEq] at hq
      subst hq; exact ⟨rfl, rfl⟩
    · rw [ho] at hq; simp [Outcome.state?] at hq
    · rw [ho] at hq; simp [Outcome.state?] at hq
  · intro h0
    rcases hcases with ⟨ho, _⟩ | ⟨h1, _⟩ | ⟨h1, _⟩
    · rw [ho]
      rcases p with ⟨use, ctrl, state, objs⟩
      simp only at h0
      subst h0
      simp
    · omega
    · omega
  · intro h2
    rcases hcases with ⟨ho, _⟩ | ⟨h1, _⟩ | ⟨h1, _⟩
    · rw [ho]
      have : ¬ (p.use = 1 ∧ p.ctrl.any is_used_slot = false) := by intro hh; omega
      rw [if_neg this]
    · omega
    · omega
  · intro h1 hany
    have hne : ¬ (p.use = 1 ∧ p.ctrl.any is_used_slot = false) := by
      intro hh; rw [hany] at hh; exact absurd hh.2 (by simp)
    refine ⟨?_, ?_⟩
    · intro q hq
      rcases hcases with ⟨ho, _⟩ | ⟨_, _, ho⟩ | ⟨_, _, ho⟩
      · rw [ho] at hq
        simp only [Outcome.state?, Option.some.injEq] at hq
        subst hq
        rw [if_neg hne, h1]
      · rw [ho] at hq; simp [Outcome.state?] at hq
      · rw [ho] at hq; simp [Outcome.state?] at hq
    · intro hv os2
      rcases unused_in_allocation_cases env os2 p hle with
        ⟨ho, _⟩ | ⟨_, hn, _⟩ | ⟨_, hn, _⟩
      · rw [ho, if_neg hne, h1]
      · rw [hv] at hn; exact absurd hn (by simp)
      · rw [hany] at hn; exact absurd hn (by simp)
  · intro h1 hany
    refine ⟨?_, ?_⟩
    · intro q hq
      rcases hcases with ⟨ho, _⟩ | ⟨_, _, ho⟩ | ⟨_, _, ho⟩
      · rw [ho] at hq
        simp only [Outcome.state?, Option.some.injEq] at hq
        subst hq
        rw [if_pos ⟨h1, hany⟩, h1]
      · rw [ho] at hq; simp [Outcome.state?] at hq
      · rw [ho] at hq; simp [Outcome.state?] at hq
    · intro hv hpost
      rcases p with ⟨use, ctrl, state, objs⟩
      simp only at h1 hany
      subst h1
      have hv0 : valid_memory (⟨0, ctrl, state, objs⟩ : Puddle V) = true := by
        simpa [valid_memory] using hv
      have hp : (!env.check_post || !valid_memory
          (⟨0, ctrl, page_allocator.loan env os state, objs⟩ : Puddle V)) = true := by
        rcases hpost with hc | hidx
        · simp [hc]
        · have : valid_memory
              (⟨0, ctrl, page_allocator.loan env os state, objs⟩ : Puddle V) = false := by
            simp only [valid_memory]
            cases hl : page_allocator.loan env os state <;>
              simp_all [PageState.index]
          simp [this]
      simp [unused_in_allocation, dec_use, give_up_buffer, Outcome.bind, postcondition_eq,
        precondition_eq, hv0, hany, hp]

/-! ## A constructor that throws -/

theorem reachable_granted_fresh : ReachableGranted env_two puddle_fresh :=
  ReachableGranted.ctor os_grants puddle_fresh rfl

theorem reachable_granted_one : ReachableGranted env_two puddle_one :=
  ReachableGranted.step puddle_fresh (.try_allocate os_grants (some 7)) puddle_one
    reachable_granted_fresh rfl rfl

/-- A first allocation in a new puddle leaves the page committed and the counter 1. -/
theorem try_allocate_commits_page_witness :
    valid_memory puddle_one = true ∧ 1 ≤ puddle_one.use :=
  (try_allocate_commits_page env_two os_grants puddle_fresh (some 7)
    reachable_granted_fresh rfl).1 puddle_one rfl

/-- C12, the claim at a failing input: in a build without checks, a new puddle whose
first commit the OS denies is left by the next `try_allocate` with slot 0 Used and a
page that is not committed. -/
theorem used_slot_without_committed_page :
    Reachable env_release puddle_leaked
    ∧ slot_used ∈ puddle_leaked.ctrl
    ∧ valid_memory puddle_leaked = false :=
  ⟨Reachable.step puddle_denied (.try_allocate os_grants (some 7)) puddle_leaked
      (Reachable.step puddle_sixteen (.try_allocate os_denies (some 7)) puddle_denied
        (Reachable.ctor os_denies puddle_sixteen rfl) rfl) rfl,
    by decide, rfl⟩

/-- After one allocation the puddle has a Used slot and a committed page. -/
theorem used_slot_committed_witness :
    slot_used ∈ puddle_one.ctrl ∧ valid_memory puddle_one = true :=
  ⟨by decide, (used_slot_committed env_two puddle_one reachable_granted_one).1 (by decide)⟩

/-- With counter 1 and a Used slot the counter drops to 0 and the page stays. -/
theorem unused_in_allocation_acts_witness :
    unused_in_allocation env_two os_grants puddle_one
      = .ret () ⟨0, puddle_one.ctrl, puddle_one.state, puddle_one.objs⟩ :=
  ((unused_in_allocation_acts env_two os_grants puddle_one reachable_one).2.2.2.1
    rfl rfl).2 rfl os_grants

/-- C14, the code at a failing input: on the MinGW backend with postcondition checks
on, a puddle with counter 1, a committed page and no Used slot is reachable; `loan`
returns its page handle unchanged, and `unused_in_allocation` ends in `std::abort` at
the postcondition of `give_up_buffer`. -/
theorem unused_in_allocation_rejected_loan :
    Reachable env_mingw puddle_idle
    ∧ puddle_idle.ctrl.any is_used_slot = false
    ∧ page_allocator.loan env_mingw os_grants puddle_idle.state = puddle_idle.state
    ∧ unused_in_allocation env_mingw os_grants puddle_idle
        = .abort .give_up_buffer_post_not_valid_memory :=
  ⟨Reachable.step puddle_sixteen_one (.deallocate 65536) puddle_idle
      (Reachable.step puddle_sixteen (.try_allocate os_grants (some 7)) puddle_sixteen_one
        (Reachable.ctor os_grants puddle_sixteen rfl) rfl) rfl,
    by decide, rfl, rfl⟩

end puddle

namespace pool

variable {V : Type}

/-! ## The pool: choosing a puddle -/

theorem append_set_last (l : List Nat) (a : Nat) :
    (l ++ [a]).set ((l ++ [a]).length - 1) a = l ++ [a] := by
  induction l with
  | nil => rfl
  | cons b l ih =>
    have : (b :: (l ++ [a])).length - 1 = ((l ++ [a]).length - 1) + 1 := by
      simp
    rw [List.cons_append, this, List.set_cons_succ, ih]

/-- Without a free status byte `select` appends a status byte and a null entry, and
chooses the new index. -/
theorem select_no_free (pool : Pool V) (h : slot_empty ∉ pool.ctrl) :
    select pool
      = (pool.puddles.length, ⟨pool.ctrl ++ [slot_used], pool.puddles ++ [none]⟩) := by
  have hi : pool.ctrl.indexOf slot_empty = pool.ctrl.length := List.indexOf_eq_length.2 h
  unfold select
  simp only [hi, beq_self_eq_true, if_true, append_set_last]
  simp

/-- With a free status byte `select` chooses the first one and marks it busy. -/
theorem select_free (pool : Pool V) (h : slot_empty ∈ pool.ctrl) :
    select pool = (pool.ctrl.indexOf slot_empty,
      ⟨pool.ctrl.set (pool.ctrl.indexOf slot_empty) slot_used, pool.puddles⟩) := by
  have hi : pool.ctrl.indexOf slot_empty < pool.ctrl.length := List.indexOf_lt_length.2 h
  have hne : (pool.ctrl.indexOf slot_empty == pool.ctrl.length) = false := by
    simp; omega
  unfold select
  simp only [hne]
  rfl

theorem count_set_used (l : List Nat) (h : slot_empty ∈ l) :
    (l.set (l.indexOf slot_empty) slot_used).count slot_empty + 1 = l.count slot_empty := by
  have hi : l.indexOf slot_empty < l.length := List.indexOf_lt_length.2 h
  have hg : l[l.indexOf slot_empty] = slot_empty := List.getElem_indexOf hi
  rw [List.count_set _ _ _ _ hi, hg]
  have hpos : 0 < l.count slot_empty := List.count_pos_iff.2 h
  have h1 : (slot_used == slot_empty) = false := by decide
  simp only [beq_self_eq_true, if_true, h1]
  simp only [Bool.false_eq_true, if_false]
  omega

/-- The loop of `allocate` ends within the rounds it is given: every round that does
not end it takes a free status byte. -/
theorem allocate_loop_ends (env : Env) (os : Nat → OsReply) (args : Option V) :
    ∀ (fuel : Nat) (pool : Pool V), pool.ctrl.count slot_empty < fuel →
      (allocate_loop env os args fuel pool).isSome = true := by
  intro fuel
  induction fuel with
  | zero => intro pool h; omega
  | succ fuel ih =>
    intro pool h
    by_cases hm : slot_empty ∈ pool.ctrl
    · have hc := count_set_used pool.ctrl hm
      simp only [allocate_loop, select_free pool hm]
      split
      · rfl
      · rfl
      · split
        · split
          · exact ih _ (by simp only; omega)
          · rfl
        · rfl
        · rfl
        · rfl
    · simp [allocate_loop, select_no_free pool hm]

/-- The member `allocate` ends: the rounds it gives its loop are enough. -/
theorem allocate_ends (env : Env) (os : Nat → OsReply) (pool : Pool V) (args : Option V) :
    (allocate env os pool args).isSome = true := by
  have h := allocate_loop_ends env os args (pool.ctrl.length + 1) pool
    (Nat.lt_succ_of_le (List.count_le_length _ _))
  unfold allocate
  cases hl : allocate_loop env os args (pool.ctrl.length + 1) pool with
  | none => rw [hl] at h; cases h
  | some o =>
    cases o with
    | ret a pool2 =>
      simp only
      split <;> rfl
    | throw e pool2 => rfl
    | abort site => rfl
    | out_of_bounds => rfl
    | null_dereference => rfl

/-! ## The pool of one puddle -/

theorem select_single_free (p : Puddle V) :
    select (⟨[slot_empty], [some p]⟩ : Pool V) = (0, ⟨[slot_used], [some p]⟩) := rfl

theorem select_single_busy (b : Nat) (p : Puddle V) (hb : b ≠ slot_empty) :
    select (⟨[b], [some p]⟩ : Pool V) = (1, ⟨[b, slot_used], [some p, none]⟩) := by
  rw [select_no_free _ (by simpa using fun h => hb h.symm)]
  rfl

/-- The member `allocate` on a pool of one puddle: with the status byte free the
puddle is tried, and a null result sends the loop into a second round; a round with
the status byte busy calls `try_allocate` through the null entry it has appended. -/
theorem allocate_single (env : Env) (os : Nat → OsReply) (b : Nat) (p : Puddle V)
    (args : Option V) :
    allocate env os ⟨[b], [some p]⟩ args =
      if b = slot_empty then
        match puddle.try_allocate env (os 0) p args with
        | .ret ptr q =>
          if ptr = 0 then some .null_dereference
          else some (.ret ptr ⟨[slot_used], [some q]⟩)
        | .throw e q => some (.throw e ⟨[slot_used], [some q]⟩)
        | .abort site => some (.abort site)
        | .out_of_bounds => some .out_of_bounds
      else some .null_dereference := by
  by_cases hb : b = slot_empty
  · subst hb
    simp only [if_true]
    cases h : puddle.try_allocate env (os 0) p args with
    | ret ptr q =>
      by_cases h0 : ptr = 0
      · subst h0
        have hq : select (⟨[slot_used], [some q]⟩ : Pool V)
            = (1, ⟨[slot_used, slot_used], [some q, none]⟩) :=
          select_single_busy slot_used q (by decide)
        simp [allocate, allocate_loop, select_single_free, h, hq]
      · simp [allocate, allocate_loop, select_single_free, h, h0, notify_unused]
    | throw e q => simp [allocate, allocate_loop, select_single_free, h]
    | abort site => simp [allocate, allocate_loop, select_single_free, h]
    | out_of_bounds => simp [allocate, allocate_loop, select_single_free, h]
  · simp [allocate, allocate_loop, select_single_busy b p hb, hb]

/-- A non-null pointer outside the page of every puddle is refused by each puddle in
turn, when the pages are committed. -/
theorem probe_foreign (env : Env) (ptr : Nat) (hp : ptr ≠ 0) :
    ∀ (ps : List (Option (Puddle V))),
      (∀ e ∈ ps, ∃ p, e = some p ∧ puddle.valid_memory p = true
        ∧ ¬ (p.state.page.base_addr ≤ ptr
          ∧ ptr < p.state.page.base_addr + p.state.page.size)) →
      probe env ptr ps = .ret none ps := by
  intro ps
  induction ps with
  | nil => intro _; rfl
  | cons e ps ih =>
    intro h
    obtain ⟨p, rfl, hv, hout⟩ := h e (List.mem_cons_self _ _)
    have hd : puddle.deallocate env p ptr = .ret false p := by
      rcases puddle.deallocate_cases env p ptr with
        ⟨h0, _⟩ | ⟨_, hn, _⟩ | ⟨_, _, _, ho⟩ | ⟨_, _, h1, h2, _⟩ | ⟨_, _, h1, h2, _⟩
      · exact absurd h0 hp
      · rw [hv] at hn; cases hn
      · exact ho
      · exact absurd ⟨h1, h2⟩ hout
      · exact absurd ⟨h1, h2⟩ hout
    have hrest := ih (fun e2 he2 => h e2 (List.mem_cons_of_mem _ he2))
    simp only [probe, hd, hrest]

/-- C20, as amended: on a pool whose entries are all puddles with a committed page,
`deallocate` of a non-null pointer that lies in the page of no puddle returns normally
and changes nothing; `deallocate` of the null pointer returns normally and changes
nothing but the status byte of the first puddle, which it marks free. -/
theorem pool_deallocate_foreign (env : Env) (pool : Pool V) (ptr : Nat)
    (hc : ∀ e ∈ pool.puddles, ∃ p, e = some p ∧ puddle.valid_memory p = true) :
    (ptr ≠ 0 →
      (∀ p, some p ∈ pool.puddles → ¬ (p.state.page.base_addr ≤ ptr
        ∧ ptr < p.state.page.base_addr + p.state.page.size)) →
      deallocate env pool ptr = .ret () pool)
    ∧ (pool.puddles ≠ [] → pool.ctrl ≠ [] →
      deallocate env pool 0 = .ret () ⟨pool.ctrl.set 0 slot_empty, pool.puddles⟩) := by
  constructor
  · intro hp hout
    have := probe_foreign env ptr hp pool.puddles (by
      intro e he
      obtain ⟨p, rfl, hv⟩ := hc e he
      exact ⟨p, rfl, hv, hout p he⟩)
    simp only [deallocate, this]
  · intro hps hctrl
    rcases pool with ⟨ctrl, ps⟩
    cases ps with
    | nil => exact absurd rfl hps
    | cons e ps =>
      obtain ⟨p, rfl, _⟩ := hc e (List.mem_cons_self _ _)
      have hd : puddle.deallocate env p 0 = .ret true p := by
        rcases puddle.deallocate_cases env p 0 with
          ⟨_, ho⟩ | ⟨hne, _⟩ | ⟨hne, _⟩ | ⟨hne, _⟩ | ⟨hne, _⟩
        · exact ho
        all_goals exact absurd rfl hne
      have hlen : 0 < ctrl.length := List.length_pos.2 hctrl
      simp [deallocate, probe, hd, hlen]


/-! ## Growth of the pool -/

/-- On a new pool whose puddles have a capacity of at least one batch, with the OS
granting the commit, the first `allocate` is served by the first slot of the initial
puddle and leaves one puddle, its status byte busy and all its other slots Empty. -/
theorem allocate_fresh_pool (env : Env) (os0 : OsReply) (os : Nat → OsReply)
    (pool0 : Pool V) (v : V)
    (h0 : ctor env os0 = .ok pool0) (hg : puddle.grants_commit (os 0) = true)
    (hw : 0 < env.simd_size) (hc : env.simd_size ≤ env.page_size / env.sizeof_T) :
    allocate env os pool0 (some v)
        = some (.ret os0.VirtualAlloc_reserve ⟨[slot_used],
            [some ⟨1, (List.replicate (env.page_size / env.sizeof_T) slot_empty).set 0 slot_used,
              .committed ⟨os0.VirtualAlloc_reserve, env.page_size⟩,
              fun a => if a = os0.VirtualAlloc_reserve then some v else none⟩]⟩) := by
  · unfold ctor at h0
    cases hp : (puddle.ctor env os0 : Except Fault (Puddle V)) with
    | error f => rw [hp] at h0; cases h0
    | ok p =>
      rw [hp] at h0
      simp only [Except.ok.injEq] at h0
      subst h0
      have hG := puddle.inv_granted_ctor env os0 p hp
      obtain ⟨rfl, hr, _⟩ := puddle.ctor_ok env os0 p hp
      have hvs : 0 < puddle.vectorized_size env
          (⟨0, List.replicate (env.page_size / env.sizeof_T) slot_empty,
            .allocated ⟨os0.VirtualAlloc_reserve, env.page_size⟩, fun _ => none⟩ : Puddle V) := by
        unfold puddle.vectorized_size
        simp only [List.length_replicate]
        have := Nat.mod_lt (env.page_size / env.sizeof_T) hw
        omega
      have hps : 0 < env.page_size := by
        rcases Nat.eq_zero_or_pos env.page_size with h | h
        · rw [h, Nat.zero_div] at hc; omega
        · exact h
      have hfirst : (List.replicate (env.page_size / env.sizeof_T) slot_empty)[0]?
          = some slot_empty := by
        rw [List.getElem?_replicate]; simp; omega
      rw [allocate_single, if_pos rfl]
      rcases puddle.try_allocate_granted env (os 0) _ (some v) hG hg with
        ⟨_, _, hz⟩ | ⟨hnone, _⟩ | ⟨j, hj, hje, hfst, hcase⟩
      · omega
      · exact absurd hfirst (hnone 0 hvs)
      · have hj0 : j = 0 := by
          rcases Nat.eq_zero_or_pos j with h | h
          · exact h
          · exact absurd hfirst (hfst 0 h)
        subst hj0
        rcases hcase with ⟨w, hw2, ho⟩ | ⟨hn, _⟩
        · simp only [Option.some.injEq] at hw2
          subst hw2
          rw [ho]
          simp [puddle.page_committed, PageState.page, hr]
        · cases hn

/-- On a new pool, of whatever capacity, the `allocate` call that follows an `allocate`
call that has returned calls `try_allocate` through a null entry of the puddle list. -/
theorem allocate_after_allocate (env : Env) (os0 : OsReply) (os os2 : Nat → OsReply)
    (pool0 pool1 : Pool V) (args args2 : Option V) (ptr : Nat)
    (h0 : ctor env os0 = .ok pool0)
    (h1 : allocate env os pool0 args = some (.ret ptr pool1)) :
    pool1.ctrl = [slot_used] ∧ pool1.puddles.length = 1
    ∧ allocate env os2 pool1 args2 = some .null_dereference := by
  unfold ctor at h0
  cases hp : (puddle.ctor env os0 : Except Fault (Puddle V)) with
  | error f => rw [hp] at h0; cases h0
  | ok p =>
    rw [hp] at h0
    simp only [Except.ok.injEq] at h0
    subst h0
    rw [allocate_single, if_pos rfl] at h1
    cases ht : puddle.try_allocate env (os 0) p args with
    | ret ptr1 q =>
      rw [ht] at h1
      simp only at h1
      split at h1
      · cases h1
      · simp only [Option.some.injEq, PoolOutcome.ret.injEq] at h1
        obtain ⟨_, rfl⟩ := h1
        refine ⟨rfl, rfl, ?_⟩
        rw [allocate_single, if_neg (by decide)]
    | throw e q => rw [ht] at h1; cases h1
    | abort site => rw [ht] at h1; cases h1
    | out_of_bounds => rw [ht] at h1; cases h1

/-! ## Concrete pools at work -/

/-- C16, the code at failing inputs: on a new pool with puddles of capacity 16 the
first `allocate` returns a pointer and the second calls `try_allocate` through a null
entry of the puddle list; on a new pool with puddles of capacity 4, below the batch
size, the first `allocate` already does so. -/
theorem pool_allocate_null_dereference :
    ctor puddle.env_sixteen puddle.os_grants = .ok pool_sixteen
    ∧ allocate puddle.env_sixteen (fun _ => puddle.os_grants) pool_sixteen (some 7)
        = some (.ret 65536 pool_sixteen_one)
    ∧ allocate puddle.env_sixteen (fun _ => puddle.os_grants) pool_sixteen_one (some 8)
        = some .null_dereference
    ∧ ctor puddle.env_four puddle.os_grants = .ok pool_four
    ∧ allocate puddle.env_four (fun _ => puddle.os_grants) pool_four (some 7)
        = some .null_dereference :=
  ⟨rfl, rfl, rfl, rfl, rfl⟩

set_option maxRecDepth 100000 in
/-- C17, the code at a failing input: sixteen `allocate` calls with a
`deallocate(nullptr)` between them fill the only puddle of a new pool with puddles of
capacity 16; the next `allocate` appends a null entry to the puddle list and calls
`try_allocate` through it. -/
theorem pool_allocate_full_puddle :
    ctor puddle.env_sixteen puddle.os_grants = .ok pool_sixteen
    ∧ (run_calls puddle.env_sixteen pool_sixteen [] false
        (fill_calls (fun _ => puddle.os_grants) (List.range 16))).map
          (fun r => (r.1.ctrl, r.1.puddles.map (Option.map Puddle.ctrl), r.2.2))
        = some ([slot_used], [some (List.replicate 16 slot_used)], false)
    ∧ (run_calls puddle.env_sixteen pool_sixteen [] false
        (fill_calls (fun _ => puddle.os_grants) (List.range 16))).map
          (fun r => (select r.1).2.puddles.map Option.isSome)
        = some [true, false]
    ∧ (run_calls puddle.env_sixteen pool_sixteen [] false
        (fill_calls (fun _ => puddle.os_grants) (List.range 16))).bind
          (fun r => allocate puddle.env_sixteen (fun _ => puddle.os_grants) r.1 (some 16))
        = some .null_dereference :=
  ⟨rfl, rfl, rfl, rfl⟩

set_option maxRecDepth 100000 in
/-- C18, the code at a failing input: a new pool with puddles of capacity 512. The first
`allocate` returns slot 0 of the only puddle and leaves its status byte busy and 511
slots Empty; the second `allocate` does not return: it calls `try_allocate` through a
null entry of the puddle list, so the client that makes the two calls does not get
through them. -/
theorem pool_second_allocate_fails :
    ctor env_512 puddle.os_grants = .ok pool_512
    ∧ pool_512.puddles.map (Option.map puddle.capacity) = [some 512]
    ∧ allocate env_512 (fun _ => puddle.os_grants) pool_512 (some 1)
        = some (.ret 65536 pool_512_one)
    ∧ pool_512_one.ctrl = [slot_used]
    ∧ pool_512_one.puddles.map (Option.map (fun p => p.ctrl.count slot_empty)) = [some 511]
    ∧ allocate env_512 (fun _ => puddle.os_grants) pool_512_one (some 2)
        = some .null_dereference
    ∧ run_calls env_512 pool_512 [] false
        [.allocate (fun _ => puddle.os_grants) (some 1),
          .allocate (fun _ => puddle.os_grants) (some 2)] = none :=
  ⟨rfl, rfl, rfl, rfl, rfl, rfl, rfl⟩

/-- C20, the claim at failing inputs: on a new pool `deallocate` of a non-null pointer
outside the page ends in `std::abort` at the precondition of `puddle::deallocate`, and
after one `allocate` the `deallocate` of the null pointer changes the status byte of
the puddle from busy to free. -/
theorem pool_deallocate_not_noop :
    ctor puddle.env_sixteen puddle.os_grants = .ok pool_sixteen
    ∧ deallocate puddle.env_sixteen pool_sixteen 100 = .abort .deallocate_pre_valid_memory
    ∧ allocate puddle.env_sixteen (fun _ => puddle.os_grants) pool_sixteen (some 7)
        = some (.ret 65536 pool_sixteen_one)
    ∧ pool_sixteen_one.ctrl = [slot_used]
    ∧ deallocate puddle.env_sixteen pool_sixteen_one 0
        = .ret () ⟨[slot_empty], [some puddle.puddle_sixteen_one]⟩ :=
  ⟨rfl, rfl, rfl, rfl, rfl⟩

/-- After one `allocate` the `deallocate` of a pointer below the page changes
nothing. -/
theorem pool_deallocate_foreign_witness :
    deallocate puddle.env_sixteen pool_sixteen_one 100 = .ret () pool_sixteen_one :=
  (pool_deallocate_foreign puddle.env_sixteen pool_sixteen_one 100
    (fun e he => ⟨puddle.puddle_sixteen_one, List.mem_singleton.1 he, rfl⟩)).1
    (by decide)
    (fun p hp => (by
      have h := List.mem_singleton.1 hp
      simp only [Option.some.injEq] at h
      subst h
      decide))

end pool

/-! ## Contract checks -/

theorem condition_impl_run_returns {α : Type} (env : Env) (is_post : Bool) (msg : String)
    (fn : α → Bool) (args : α) :
    (condition_impl_run env is_post msg fn args).returns = condition_impl env is_post fn args := by
  unfold condition_impl_run condition_impl check_condition_run check_condition
    do_pre_checks do_post_checks
  cases is_post <;> cases env.check_pre <;> cases env.check_post <;> cases fn args <;> rfl

/-- C25: with its category enabled, a precondition check (a postcondition check) returns
exactly when the predicate is true of the supplied arguments and calls `std::abort`
otherwise; it invokes the predicate once, on those arguments, and on failure prints the
kind of check and the message. The message does not change whether the check returns,
and the call operator without a message acts as the one with the message
`unnamed-condition`. The Boolean `precondition` and `postcondition` that the model of
the allocator uses agree with it. -/
theorem check_enabled {α : Type} (env : Env) (msg : String) (fn : α → Bool) (args : α) :
    (env.check_pre = true →
      ((condition_impl_run env false msg fn args).returns = true ↔ fn args = true)
      ∧ (condition_impl_run env false msg fn args).invocations = 1
      ∧ (fn args = false → (condition_impl_run env false msg fn args).printed
          = some ("precondition failed: " ++ msg))
      ∧ (condition_impl_unnamed env false fn args).returns
          = (condition_impl_run env false msg fn args).returns
      ∧ precondition env fn args = fn args)
    ∧ (env.check_post = true →
      ((condition_impl_run env true msg fn args).returns = true ↔ fn args = true)
      ∧ (condition_impl_run env true msg fn args).invocations = 1
      ∧ (fn args = false → (condition_impl_run env true msg fn args).printed
          = some ("postcondition failed: " ++ msg))
      ∧ (condition_impl_unnamed env true fn args).returns
          = (condition_impl_run env true msg fn args).returns
      ∧ postcondition env fn args = fn args) := by
  constructor
  · intro h
    unfold condition_impl_unnamed
    rw [precondition_eq, h]
    unfold condition_impl_run check_condition_run do_pre_checks do_post_checks
    cases hf : fn args <;> simp [h]
  · intro h
    unfold condition_impl_unnamed
    rw [postcondition_eq, h]
    unfold condition_impl_run check_condition_run do_pre_checks do_post_checks
    cases hf : fn args <;> simp [h]

/-- C26: a check whose category is disabled returns for every predicate and arguments,
does not invoke the predicate and prints nothing. A precondition check is the same in
two builds with the same pre-check switch, a postcondition check in two builds with
the same post-check switch, whatever the other switch is. -/
theorem check_disabled {α : Type} (env : Env) (msg : String) (fn : α → Bool) (args : α) :
    (env.check_pre = false →
      condition_impl_run env false msg fn args = ⟨true, 0, none⟩
      ∧ precondition env fn args = true)
    ∧ (env.check_post = false →
      condition_impl_run env true msg fn args = ⟨true, 0, none⟩
      ∧ postcondition env fn args = true)
    ∧ (∀ env2 : Env, env2.check_pre = env.check_pre →
      condition_impl_run env2 false msg fn args = condition_impl_run env false msg fn args
      ∧ precondition env2 fn args = precondition env fn args)
    ∧ (∀ env2 : Env, env2.check_post = env.check_post →
      condition_impl_run env2 true msg fn args = condition_impl_run env true msg fn args
      ∧ postcondition env2 fn args = postcondition env fn args) := by
  refine ⟨?_, ?_, ?_, ?_⟩
  · intro h
    rw [precondition_eq, h]
    unfold condition_impl_run check_condition_run do_pre_checks do_post_checks
    simp [h]
  · intro h
    rw [postcondition_eq, h]
    unfold condition_impl_run check_condition_run do_pre_checks do_post_checks
    simp [h]
  · intro env2 h
    rw [precondition_eq, precondition_eq, h]
    unfold condition_impl_run check_condition_run do_pre_checks do_post_checks
    simp [h]
  · intro env2 h
    rw [postcondition_eq, postcondition_eq, h]
    unfold condition_impl_run check_condition_run do_pre_checks do_post_checks
    simp [h]

/-- A precondition check of `x == 42` on the argument 42, with the checks on. -/
theorem check_enabled_witness :
    ((condition_impl_run puddle.env_sixteen false "custom abort message"
        (fun x => x == 42) 42).returns = true ↔ (fun x => x == 42) 42 = true)
    ∧ (condition_impl_run puddle.env_sixteen false "custom abort message"
        (fun x => x == 42) 42).invocations = 1 :=
  ⟨((check_enabled puddle.env_sixteen "custom abort message" (fun x => x == 42) 42).1 rfl).1,
    ((check_enabled puddle.env_sixteen "custom abort message" (fun x => x == 42) 42).1 rfl).2.1⟩

/-- A precondition check of a false predicate, with the checks off. -/
theorem check_disabled_witness :
    condition_impl_run puddle.env_release false "custom abort message"
      (fun (_ : Unit) => false) () = ⟨true, 0, none⟩
    ∧ precondition puddle.env_release (fun (_ : Unit) => false) () = true :=
  (check_disabled puddle.env_release "custom abort message" (fun (_ : Unit) => false) ()).1 rfl

/-! ## Page-handle transitions -/

namespace page_allocator

theorem loan_self_mingw (env : Env) (os : OsReply) (st : PageState)
    (hb : env.backend = .mingw) : loan env os st = st := by
  cases st <;> simp [loan, hb]

/-- On the MinGW backend no handle a program can hold is Loaned. -/
theorem issued_not_loaned {env : Env} {st : PageState} (h : Issued env st)
    (hb : env.backend = .mingw) : st.index ≠ 2 := by
  induction h with
  | reserve os size pg _ => simp [PageState.index]
  | commit os st pg _ _ _ => simp [PageState.index]
  | decommit pg pg2 _ _ _ => simp [PageState.index]
  | loan os st _ hne _ => rw [loan_self_mingw env os st hb]; exact hne

theorem commit_allocated_ok (env : Env) (os : OsReply) (page pg : Page)
    (h : commit_allocated env os page = .ok pg) : pg = page := by
  unfold commit_allocated at h
  split at h
  · cases h
  · split at h
    · cases h
    · cases hc : os.VirtualAlloc_commit
      · simp [hc] at h
      · simp only [hc, if_true] at h
        split at h
        · cases h
        · split at h
          · cases h
          · split at h
            · cases h
            · simp only [Except.ok.injEq] at h
              exact h.symm

theorem commit_loaned_ok (env : Env) (os : OsReply) (page pg : Page)
    (hb : env.backend = .win32) (h : commit_loaned env os page = .ok pg) : pg = page := by
  unfold commit_loaned at h
  simp only [hb] at h
  split at h
  · cases h
  · split at h
    · cases h
    · split at h
      · simp only [Except.ok.injEq] at h
        exact h.symm
      · cases h

/-- C21: for every handle a program can hold, a `commit` that succeeds returns a handle
with the base address and the size of its argument, and `commit` of a Committed handle
succeeds and returns that handle; a `decommit` that returns, and `loan` whether the
offer is accepted or rejected, return a handle with the base address and the size of
their argument. On the MinGW backend no handle is Loaned. -/
theorem transitions_keep_base_and_size (env : Env) (os : OsReply) (st : PageState)
    (h : Issued env st) :
    (∀ pg, commit env os st = .ok pg →
      pg.base_addr = st.page.base_addr ∧ pg.size = st.page.size)
    ∧ (∀ pg, st = .committed pg → commit env os st = .ok pg)
    ∧ (∀ pg pg2, st = .committed pg → decommit env pg = .ok pg2 →
      pg2.base_addr = pg.base_addr ∧ pg2.size = pg.size)
    ∧ ((loan env os st).page.base_addr = st.page.base_addr
      ∧ (loan env os st).page.size = st.page.size)
    ∧ (env.backend = .mingw → st.index ≠ 2) := by
  refine ⟨?_, ?_, ?_, ?_, fun hb => issued_not_loaned h hb⟩
  · intro pg hc
    cases st with
    | allocated page =>
      have := commit_allocated_ok env os page pg hc
      subst this; exact ⟨rfl, rfl⟩
    | committed page =>
      simp only [commit, Except.ok.injEq] at hc
      subst hc; exact ⟨rfl, rfl⟩
    | loaned page =>
      cases hb : env.backend with
      | win32 =>
        have := commit_loaned_ok env os page pg hb hc
        subst this; exact ⟨rfl, rfl⟩
      | mingw => exact absurd rfl (issued_not_loaned h hb)
  · intro pg hst
    subst hst; rfl
  · intro pg pg2 _ hd
    unfold decommit at hd
    split at hd
    · cases hd
    · split at hd
      · cases hd
      · simp only [Except.ok.injEq] at hd
        subst hd; exact ⟨rfl, rfl⟩
  · rw [puddle.loan_page]; exact ⟨rfl, rfl⟩

/-- C22: `loan` returns for every handle (it is a function without a contract check
and without a `throw`). For a Reserved or Committed handle on the Win32 backend it
returns the Loaned handle of the same page exactly when `OfferVirtualMemory` reports
`ERROR_SUCCESS`, and its argument otherwise; on the MinGW backend it returns its
argument for every handle and every answer of the OS, so the handle it returns is not
Loaned. -/
theorem loan_never_fails (env : Env) (os : OsReply) (st : PageState) (hst : st.index ≠ 2) :
    (env.backend = .win32 →
      (os.OfferVirtualMemory = ERROR_SUCCESS → loan env os st = .loaned st.page)
      ∧ (os.OfferVirtualMemory ≠ ERROR_SUCCESS → loan env os st = st)
      ∧ ((loan env os st).index = 2 ↔ os.OfferVirtualMemory = ERROR_SUCCESS))
    ∧ (env.backend = .mingw → loan env os st = st ∧ (loan env os st).index ≠ 2) := by
  constructor
  · intro hb
    cases st with
    | allocated pg =>
      by_cases ho : os.OfferVirtualMemory = ERROR_SUCCESS
      · simp [loan, hb, ho, PageState.page, PageState.index]
      · simp [loan, hb, ho, PageState.index]
    | committed pg =>
      by_cases ho : os.OfferVirtualMemory = ERROR_SUCCESS
      · simp [loan, hb, ho, PageState.page, PageState.index]
      · simp [loan, hb, ho, PageState.index]
    | loaned pg => exact absurd rfl hst
  · intro hb
    rw [loan_self_mingw env os st hb]
    exact ⟨rfl, hst⟩

/-- C23, as amended: on the MinGW backend `commit` of a Loaned handle ends in
`std::abort` at its precondition when precondition checks are on; when they are off it
returns the Committed handle with the null base address and the size 0. No handle a
program can hold on that backend is Loaned. -/
theorem commit_loaned_on_mingw (env : Env) (os : OsReply) (page : Page)
    (hb : env.backend = .mingw) :
    (env.check_pre = true →
      commit env os (.loaned page) = .error (.abort .commit_loaned_mingw))
    ∧ (env.check_pre = false → commit env os (.loaned page) = .ok ⟨0, 0⟩)
    ∧ (∀ st, Issued env st → st ≠ .loaned page) := by
  refine ⟨?_, ?_, ?_⟩
  · intro hc
    simp [commit, commit_loaned, hb, precondition_eq, hc]
  · intro hc
    simp [commit, commit_loaned, hb, precondition_eq, hc]
  · intro st h hst
    subst hst
    exact issued_not_loaned h hb rfl

/-- C24: with a size that is a multiple of the page size, `reserve` returns the Reserved
handle of that size at the address the OS returned when that address is not null, and
throws `bad_alloc` exactly when it is null. With a size that is not a multiple of the
page size the predicate of its precondition is false: `reserve` ends in `std::abort`
when precondition checks are on. The page size is positive, as the postcondition of
`figure_out_page_size` says, so `%` is defined. -/
theorem reserve_returns (env : Env) (os : OsReply) (size : Nat)
    (_hp : 0 < env.page_size) :
    (size % env.page_size = 0 →
      (os.VirtualAlloc_reserve ≠ 0 →
        reserve env os size = .ok ⟨os.VirtualAlloc_reserve, size⟩)
      ∧ (reserve env os size = .error (.throw .bad_alloc) ↔ os.VirtualAlloc_reserve = 0))
    ∧ (size % env.page_size ≠ 0 →
      (fun (a : Nat × Nat) => a.1 % a.2 == 0) (size, env.page_size) = false
      ∧ (env.check_pre = true →
        reserve env os size = .error (.abort .reserve_size_multiple))) := by
  constructor
  · intro hm
    by_cases hr : os.VirtualAlloc_reserve = 0
    · simp [reserve, precondition_eq, postcondition_eq, hm, hr]
    · simp [reserve, precondition_eq, postcondition_eq, hm, hr]
  · intro hm
    refine ⟨by simpa using hm, ?_⟩
    intro hc
    simp [reserve, precondition_eq, hc, hm]

end page_allocator

/-! ## Concrete page handles -/

theorem issued_reserved : page_allocator.Issued puddle.env_sixteen (.allocated ⟨65536, 4096⟩) :=
  page_allocator.Issued.reserve puddle.os_grants 4096 ⟨65536, 4096⟩ rfl

/-- A reserved page of 4096 bytes at address 65536 is committed, then offered. -/
theorem transitions_keep_base_and_size_witness :
    page_allocator.commit puddle.env_sixteen puddle.os_grants (.allocated ⟨65536, 4096⟩)
      = .ok ⟨65536, 4096⟩
    ∧ ((page_allocator.loan puddle.env_sixteen puddle.os_grants
          (.allocated ⟨65536, 4096⟩)).page.base_addr = 65536
      ∧ (page_allocator.loan puddle.env_sixteen puddle.os_grants
          (.allocated ⟨65536, 4096⟩)).page.size = 4096) :=
  ⟨rfl, (page_allocator.transitions_keep_base_and_size puddle.env_sixteen puddle.os_grants
    (.allocated ⟨65536, 4096⟩) issued_reserved).2.2.2.1⟩

/-- An accepted and a rejected offer of a committed page on the Win32 backend. -/
theorem loan_never_fails_witness :
    page_allocator.loan puddle.env_sixteen puddle.os_grants (.committed ⟨65536, 4096⟩)
      = .loaned ⟨65536, 4096⟩
    ∧ page_allocator.loan puddle.env_sixteen os_rejects_offer (.committed ⟨65536, 4096⟩)
      = .committed ⟨65536, 4096⟩ :=
  ⟨((page_allocator.loan_never_fails puddle.env_sixteen puddle.os_grants
      (.committed ⟨65536, 4096⟩) (by decide)).1 rfl).1 rfl,
    ((page_allocator.loan_never_fails puddle.env_sixteen os_rejects_offer
      (.committed ⟨65536, 4096⟩) (by decide)).1 rfl).2.1 (by decide)⟩

/-- C23, the claim at a failing input: in a build for MinGW without precondition checks,
`commit` of a Loaned handle returns a Committed handle. -/
theorem commit_loaned_mingw_returns :
    env_mingw_release.backend = .mingw
    ∧ page_allocator.commit env_mingw_release puddle.os_grants (.loaned ⟨65536, 4096⟩)
      = .ok ⟨0, 0⟩ :=
  ⟨rfl, rfl⟩

/-- With precondition checks on, `commit` of a Loaned handle on MinGW aborts. -/
theorem commit_loaned_on_mingw_witness :
    page_allocator.commit puddle.env_mingw puddle.os_grants (.loaned ⟨65536, 4096⟩)
      = .error (.abort .commit_loaned_mingw) :=
  (page_allocator.commit_loaned_on_mingw puddle.env_mingw puddle.os_grants ⟨65536, 4096⟩ rfl).1 rfl

/-- A reservation of one page of 4096 bytes that the OS grants at address 65536. -/
theorem reserve_returns_witness :
    page_allocator.reserve puddle.env_sixteen puddle.os_grants 4096 = .ok ⟨65536, 4096⟩ :=
  ((page_allocator.reserve_returns puddle.env_sixteen puddle.os_grants 4096 (by decide)).1
    (by decide)).1 (by decide)

/-! ## The puddles that `allocate` notifies -/

namespace pool

variable {V : Type}

/-- The loop of `allocate` ends with the index of the puddle whose `try_allocate`
returned the pointer, which is not null. -/
theorem allocate_loop_served (env : Env) (os : Nat → OsReply) (args : Option V) :
    ∀ (fuel : Nat) (pool pool2 : Pool V) (ptr k : Nat),
      allocate_loop env os args fuel pool = some (.ret (ptr, k) pool2) →
      ptr ≠ 0 ∧ ∃ p q, puddle.try_allocate env (os k) p args = .ret ptr q
        ∧ pool2.puddles[k]? = some (some q) := by
  intro fuel
  induction fuel with
  | zero => intro pool pool2 ptr k h; simp [allocate_loop] at h
  | succ fuel ih =>
    intro pool pool2 ptr k h
    simp only [allocate_loop] at h
    split at h
    · cases h
    · cases h
    · rename_i p hp
      split at h
      · rename_i ptr1 q ht
        split at h
        · exact ih _ _ _ _ h
        · rename_i hne
          simp only [Option.some.injEq, PoolOutcome.ret.injEq, Prod.mk.injEq] at h
          obtain ⟨⟨rfl, rfl⟩, rfl⟩ := h
          refine ⟨by simpa using hne, p, q, ht, ?_⟩
          have hlt : (select pool).1 < (select pool).2.puddles.length := by
            rcases Nat.lt_or_ge (select pool).1 (select pool).2.puddles.length with h1 | h1
            · exact h1
            · rw [List.getElem?_eq_none h1] at hp; cases hp
          simp [List.getElem?_set, hlt]
      · cases h
      · cases h
      · cases h

/-- A run of the `for` loop of `allocate` that returns has called
`unused_in_allocation` once on every puddle from index `i` on but the one at `idx`, which
it has left as it was. -/
theorem notify_unused_returned (env : Env) (os : Nat → OsReply) (idx : Nat) :
    ∀ (ps : List (Option (Puddle V))) (i : Nat) (ps1 : List (Option (Puddle V))),
      notify_unused env os idx i ps = .ret () ps1 →
      ps1.length = ps.length
      ∧ ∀ n, n < ps.length →
        (i + n = idx → ps1[n]? = ps[n]?)
        ∧ (i + n ≠ idx → ∃ p q, ps[n]? = some (some p)
          ∧ puddle.unused_in_allocation env (os (i + n)) p = .ret () q
          ∧ ps1[n]? = some (some q)) := by
  intro ps
  induction ps with
  | nil =>
    intro i ps1 h
    simp only [notify_unused, PoolOutcome.ret.injEq, true_and] at h
    subst h
    exact ⟨rfl, fun n hn => absurd hn (by simp)⟩
  | cons e rest ih =>
    intro i ps1 h
    simp only [notify_unused] at h
    by_cases hi : i = idx
    · have hb : (i != idx) = false := by simpa using hi
      simp only [hb, Bool.false_eq_true, if_false] at h
      cases hr : notify_unused env os idx (i + 1) rest with
      | ret u rest1 =>
        rw [hr] at h
        simp only [PoolOutcome.ret.injEq, true_and] at h
        subst h
        obtain ⟨hlen, hall⟩ := ih (i + 1) rest1 hr
        refine ⟨by simp [hlen], ?_⟩
        intro n hn
        cases n with
        | zero => exact ⟨fun _ => (by simp), fun hne => absurd hi hne⟩
        | succ n =>
          have := hall n (by simpa using hn)
          simp only [List.getElem?_cons_succ]
          rw [show i + (n + 1) = i + 1 + n by omega]
          exact this
      | throw x rest1 => rw [hr] at h; cases h
      | abort site => rw [hr] at h; cases h
      | out_of_bounds => rw [hr] at h; cases h
      | null_dereference => rw [hr] at h; cases h
    · have hb : (i != idx) = true := by simpa using hi
      simp only [hb, if_true] at h
      cases e with
      | none => cases h
      | some p =>
        simp only at h
        cases hu : puddle.unused_in_allocation env (os i) p with
        | ret u q =>
          rw [hu] at h
          simp only at h
          cases hr : notify_unused env os idx (i + 1) rest with
          | ret u2 rest1 =>
            rw [hr] at h
            simp only [PoolOutcome.ret.injEq, true_and] at h
            subst h
            obtain ⟨hlen, hall⟩ := ih (i + 1) rest1 hr
            refine ⟨by simp [hlen], ?_⟩
            intro n hn
            cases n with
            | zero => exact ⟨fun h0 => absurd h0 hi, fun _ => ⟨p, q, by simp, hu, by simp⟩⟩
            | succ n =>
              have := hall n (by simpa using hn)
              simp only [List.getElem?_cons_succ]
              rw [show i + (n + 1) = i + 1 + n by omega]
              exact this
          | throw x rest1 => rw [hr] at h; cases h
          | abort site => rw [hr] at h; cases h
          | out_of_bounds => rw [hr] at h; cases h
          | null_dereference => rw [hr] at h; cases h
        | throw x q => rw [hu] at h; cases h
        | abort site => rw [hu] at h; cases h
        | out_of_bounds => rw [hu] at h; cases h

/-- C30: when `allocate` returns a pointer, its loop has ended with a puddle `k` whose
`try_allocate` returned that pointer. The `for` loop that follows leaves the status
bytes and puddle `k` as the loop left them, and every other puddle of the pool, the ones
tried and found full among them, is in the state that one call of
`unused_in_allocation` returns for the state the loop left it in. -/
theorem pool_allocate_notifies (env : Env) (os : Nat → OsReply) (pool pool1 : Pool V)
    (args : Option V) (ptr : Nat)
    (hret : allocate env os pool args = some (.ret ptr pool1)) :
    ∃ (k : Nat) (pool2 : Pool V),
      allocate_loop env os args (pool.ctrl.length + 1) pool = some (.ret (ptr, k) pool2)
      ∧ ptr ≠ 0
      ∧ (∃ p q, puddle.try_allocate env (os k) p args = .ret ptr q
        ∧ pool2.puddles[k]? = some (some q))
      ∧ pool1.ctrl = pool2.ctrl
      ∧ pool1.puddles.length = pool2.puddles.length
      ∧ pool1.puddles[k]? = pool2.puddles[k]?
      ∧ (∀ i, i ≠ k → i < pool2.puddles.length →
        ∃ p q, pool2.puddles[i]? = some (some p)
          ∧ puddle.unused_in_allocation env (os i) p = .ret () q
          ∧ pool1.puddles[i]? = some (some q)) := by
  unfold allocate at hret
  cases hl : allocate_loop env os args (pool.ctrl.length + 1) pool with
  | none => rw [hl] at hret; cases hret
  | some o =>
    rw [hl] at hret
    cases o with
    | ret a pool2 =>
      obtain ⟨ptr2, k⟩ := a
      simp only at hret
      cases hn : notify_unused env os k 0 pool2.puddles with
      | ret u ps =>
        rw [hn] at hret
        simp only [Option.some.injEq, PoolOutcome.ret.injEq] at hret
        obtain ⟨rfl, rfl⟩ := hret
        obtain ⟨hne, hserved⟩ := allocate_loop_served env os args _ pool pool2 ptr2 k hl
        obtain ⟨hlen, hall⟩ := notify_unused_returned env os k pool2.puddles 0 ps hn
        refine ⟨k, pool2, rfl, hne, hserved, rfl, hlen, ?_, ?_⟩
        · rcases Nat.lt_or_ge k pool2.puddles.length with hk | hk
          · exact (hall k hk).1 (by omega)
          · rw [List.getElem?_eq_none hk, List.getElem?_eq_none (by simpa [hlen] using hk)]
        · intro i hik hi
          have := (hall i hi).2 (by omega)
          simpa using this
      | throw x ps => rw [hn] at hret; cases hret
      | abort site => rw [hn] at hret; cases hret
      | out_of_bounds => rw [hn] at hret; cases hret
      | null_dereference => rw [hn] at hret; cases hret
    | throw e pool2 => cases hret
    | abort site => cases hret
    | out_of_bounds => cases hret
    | null_dereference => cases hret

set_option maxRecDepth 100000 in
/-- A pool of two puddles whose first puddle is full: `allocate` tries the first
puddle, is served by the second and calls `unused_in_allocation` on the first. -/
theorem pool_allocate_notifies_witness :
    ∃ (k : Nat) (pool2 : Pool Nat),
      allocate_loop puddle.env_sixteen (fun _ => puddle.os_grants) (some 9)
          (pool_two.ctrl.length + 1) pool_two = some (.ret (131072, k) pool2)
      ∧ 131072 ≠ 0
      ∧ (∃ p q, puddle.try_allocate puddle.env_sixteen puddle.os_grants p (some 9)
          = .ret 131072 q ∧ pool2.puddles[k]? = some (some q))
      ∧ pool_two_served.ctrl = pool2.ctrl
      ∧ pool_two_served.puddles.length = pool2.puddles.length
      ∧ pool_two_served.puddles[k]? = pool2.puddles[k]?
      ∧ (∀ i, i ≠ k → i < pool2.puddles.length →
        ∃ p q, pool2.puddles[i]? = some (some p)
          ∧ puddle.unused_in_allocation puddle.env_sixteen puddle.os_grants p = .ret () q
          ∧ pool_two_served.puddles[i]? = some (some q)) :=
  pool_allocate_notifies puddle.env_sixteen (fun _ => puddle.os_grants) pool_two
    pool_two_served (some 9) 131072 rfl

set_option maxRecDepth 100000 in
/-- The loop of `allocate` on that pool ends with puddle 1. -/
theorem allocate_loop_two :
    allocate_loop puddle.env_sixteen (fun _ => puddle.os_grants) (some 9) 3 pool_two
      = some (.ret (131072, 1) pool_two_tried) := rfl

end pool

/-! ## Threads that call try_allocate -/

namespace puddle

variable {V : Type}

/-- The call `try_allocate` is the block under the lock followed, when an index was
found, by the construction. -/
theorem try_allocate_eq_locked (env : Env) (os : OsReply) (p : Puddle V) (args : Option V) :
    try_allocate env os p args
      = (try_allocate_locked env os p).bind fun idx p2 =>
          match idx with
          | none => .ret 0 p2
          | some i => try_allocate_construct env p2 i args := by
  unfold try_allocate try_allocate_locked
  cases hinc : inc_use env os p with
  | ret u p1 =>
    simp only [Outcome.bind]
    split
    · rfl
    · split
      · rfl
      · cases hidx : (find_empty env p1).1 with
        | none => rfl
        | some i => simp only [try_allocate_construct]
  | throw e q => rfl
  | abort site => rfl
  | out_of_bounds => rfl

/-- C29, the code at a failing input: two threads call `try_allocate` on a new puddle of
capacity 4, which has 4 Empty slots; in whichever order they take the lock, both get
`nullptr`. -/
theorem threads_receive_null :
    ctor env_four os_grants = .ok puddle_four
    ∧ puddle_four.ctrl.count slot_empty = 4
    ∧ run_threads env_four puddle_four
        [.calling os_grants (some 1), .calling os_grants (some 2)] [0, 1]
      = some (puddle_four_tried_twice, [.returned 0, .returned 0])
    ∧ run_threads env_four puddle_four
        [.calling os_grants (some 1), .calling os_grants (some 2)] [1, 0]
      = some (puddle_four_tried_twice, [.returned 0, .returned 0]) :=
  ⟨rfl, rfl, rfl, rfl⟩

end puddle

namespace puddle

variable {V : Type}

/-- Every way the block of `try_allocate` under the lock can end in a state that
satisfies the invariant: the index it leaves is the one slot it has marked, and that
slot was Empty. -/
theorem try_allocate_locked_cases (env : Env) (os : OsReply) (p : Puddle V)
    (hI : Inv env p) :
    (∃ e q, try_allocate_locked env os p = .throw e q
      ∧ q.ctrl = p.ctrl ∧ Inv env q ∧ q.state.page = p.state.page)
    ∨ (∃ site, try_allocate_locked env os p = .abort site)
    ∨ (∃ q, try_allocate_locked env os p = .ret none q
      ∧ q.ctrl = p.ctrl ∧ Inv env q ∧ q.state.page = p.state.page)
    ∨ (∃ j q, try_allocate_locked env os p = .ret (some j) q
      ∧ j < vectorized_size env p ∧ p.ctrl[j]? = some slot_empty
      ∧ q.ctrl = p.ctrl.set j slot_used ∧ Inv env q ∧ q.state.page = p.state.page) := by
  have hm1 : env.backend = .mingw →
      ∀ pg, (if p.use = 0 then PageState.committed p.state.page else p.state)
        ≠ .loaned pg := by
    intro hb pg
    by_cases h0 : p.use = 0
    · simp [h0]
    · simp only [h0, if_false]; exact hI.mingw hb pg
  have hpg : (if p.use = 0 then PageState.committed p.state.page else p.state).page
      = p.state.page := by
    by_cases h0 : p.use = 0
    · simp [h0, page_committed]
    · simp [h0]
  have hle := hI.use_le
  have hcases := inc_use_cases env os p hI
  generalize (if p.use = 0 then PageState.committed p.state.page else p.state) = st
    at hcases hm1 hpg
  rcases hcases with hinc | ⟨hinc, h0, _⟩ | ⟨hinc, _, _⟩
  · have hI1 : Inv env (⟨min (p.use + 1) 7, p.ctrl, st, p.objs⟩ : Puddle V) :=
      hI.transfer rfl hI.tail (by simp) hpg hm1
    rcases find_empty_spec env (⟨min (p.use + 1) 7, p.ctrl, st, p.objs⟩ : Puddle V)
      hI.tail with ⟨j, hj1, hj2, _, hfe⟩ | ⟨_, hfe⟩
    · have hI2 : Inv env (⟨min (p.use + 1) 7, p.ctrl.set j slot_used, st, p.objs⟩ :
          Puddle V) :=
        hI.transfer (by simp) (tail_set env p hI j slot_used (Or.inl hj1)) (by simp) hpg hm1
      simp only [try_allocate_locked, hinc, Outcome.bind, hfe]
      split
      · right; left; exact ⟨_, rfl⟩
      · split
        · right; left; exact ⟨_, rfl⟩
        · right; right; right
          exact ⟨j, _, rfl, hj1, hj2, rfl, hI2, hpg⟩
    · simp only [try_allocate_locked, hinc, Outcome.bind, hfe]
      split
      · right; left; exact ⟨_, rfl⟩
      · split
        · right; left; exact ⟨_, rfl⟩
        · right; right; left
          exact ⟨_, rfl, rfl, hI1, hpg⟩
  · left
    refine ⟨.bad_alloc, ⟨p.use + 1, p.ctrl, p.state, p.objs⟩,
      by simp [try_allocate_locked, hinc, Outcome.bind], rfl, ?_, rfl⟩
    exact hI.transfer rfl hI.tail (by simp [h0]) rfl hI.mingw
  · right; left
    exact ⟨.commit_loaned_size_nonzero, by simp [try_allocate_locked, hinc, Outcome.bind]⟩

/-- The construction changes neither the slot-status vector nor the page handle, and a
pointer it returns addresses the slot of the index. -/
theorem try_allocate_construct_cases (env : Env) (p : Puddle V) (idx : Nat)
    (args : Option V) :
    (∃ e, try_allocate_construct env p idx args = .throw e p)
    ∨ (∃ site, try_allocate_construct env p idx args = .abort site)
    ∨ (∃ q, try_allocate_construct env p idx args
        = .ret (p.state.page.base_addr + idx * env.sizeof_T) q
      ∧ q.ctrl = p.ctrl ∧ q.state = p.state ∧ q.use = p.use) := by
  unfold try_allocate_construct
  cases hs : p.state with
  | allocated pg => left; exact ⟨_, rfl⟩
  | loaned pg => left; exact ⟨_, rfl⟩
  | committed pg =>
    cases args with
    | none => left; exact ⟨_, rfl⟩
    | some v =>
      simp only
      split
      · right; left; exact ⟨_, rfl⟩
      · right; right
        exact ⟨_, rfl, rfl, rfl, rfl⟩

/-- The facts about the slots that threads hold which every step keeps: a slot a thread
holds is Used and lies in the chunked part, no two threads hold the same slot, and every
non-null pointer a thread has got addresses a slot. -/
theorem claims_carry (env : Env) (base : Nat) (p q : Puddle V) (ths : List (Thread V))
    (t : Nat) (th th1 : Thread V)
    (hused : ∀ (t2 : Nat) (th2 : Thread V) (i : Nat), ths[t2]? = some th2 → th2.claims env base i →
      i < vectorized_size env p ∧ p.ctrl[i]? = some slot_used)
    (hdis : ∀ (t1 t2 : Nat) (th1 th2 : Thread V) (i : Nat), t1 ≠ t2 → ths[t1]? = some th1 → ths[t2]? = some th2 →
      th1.claims env base i → th2.claims env base i → False)
    (hex : ∀ (t2 ptr : Nat), ths[t2]? = some (Thread.returned ptr) → ptr ≠ 0 →
      ∃ i, (Thread.returned ptr : Thread V).claims env base i)
    (ht : ths[t]? = some th)
    (hlen : q.ctrl.length = p.ctrl.length)
    (hkeep : ∀ (i : Nat), p.ctrl[i]? = some slot_used → q.ctrl[i]? = some slot_used)
    (hnew : ∀ (i : Nat), th1.claims env base i → th.claims env base i
      ∨ (i < vectorized_size env p ∧ p.ctrl[i]? = some slot_empty
        ∧ q.ctrl[i]? = some slot_used))
    (hex1 : ∀ ptr, th1 = Thread.returned ptr → ptr ≠ 0 → ∃ i, th1.claims env base i) :
    (∀ (t2 : Nat) (th2 : Thread V) (i : Nat), (ths.set t th1)[t2]? = some th2 → th2.claims env base i →
      i < vectorized_size env q ∧ q.ctrl[i]? = some slot_used)
    ∧ (∀ (t1 t2 : Nat) (th1' th2 : Thread V) (i : Nat), t1 ≠ t2 → (ths.set t th1)[t1]? = some th1' →
      (ths.set t th1)[t2]? = some th2 →
      th1'.claims env base i → th2.claims env base i → False)
    ∧ (∀ (t2 ptr : Nat), (ths.set t th1)[t2]? = some (Thread.returned ptr) → ptr ≠ 0 →
      ∃ i, (Thread.returned ptr : Thread V).claims env base i) := by
  have hvs : vectorized_size env q = vectorized_size env p := by
    unfold vectorized_size; rw [hlen]
  have htlt : t < ths.length := by
    rcases Nat.lt_or_ge t ths.length with h | h
    · exact h
    · rw [List.getElem?_eq_none h] at ht; cases ht
  have hget : ∀ t2 th2, (ths.set t th1)[t2]? = some th2 →
      (t2 = t ∧ th2 = th1) ∨ (t2 ≠ t ∧ ths[t2]? = some th2) := by
    intro t2 th2 h
    rw [List.getElem?_set] at h
    by_cases htt : t = t2
    · subst htt
      simp only [if_true, htlt] at h
      left; exact ⟨rfl, by simpa using h.symm⟩
    · simp only [htt, if_false] at h
      right; exact ⟨fun h2 => htt h2.symm, h⟩
  have hne : slot_empty ≠ slot_used := by decide
  have hused1 : ∀ i, th1.claims env base i →
      i < vectorized_size env p ∧ q.ctrl[i]? = some slot_used := by
    intro i hc
    rcases hnew i hc with hold | ⟨h1, _, h3⟩
    · obtain ⟨h1, h2⟩ := hused t th i ht hold
      exact ⟨h1, hkeep i h2⟩
    · exact ⟨h1, h3⟩
  have hclash : ∀ t2 th2 i, t2 ≠ t → ths[t2]? = some th2 → th1.claims env base i →
      th2.claims env base i → False := by
    intro t2 th2 i htne h2 hc1 hc2
    rcases hnew i hc1 with hold | ⟨_, hemp, _⟩
    · exact hdis t t2 th th2 i (fun h => htne h.symm) ht h2 hold hc2
    · have := (hused t2 th2 i h2 hc2).2
      rw [hemp] at this
      exact hne (by simpa using this)
  refine ⟨?_, ?_, ?_⟩
  · intro t2 th2 i h hc
    rw [hvs]
    rcases hget t2 th2 h with ⟨_, rfl⟩ | ⟨_, hold⟩
    · exact hused1 i hc
    · obtain ⟨h1, h2⟩ := hused t2 th2 i hold hc
      exact ⟨h1, hkeep i h2⟩
  · intro t1 t2 tha thb i h12 ha hb hca hcb
    rcases hget t1 tha ha with ⟨h1e, h1t⟩ | ⟨h1ne, ha2⟩
    · rcases hget t2 thb hb with ⟨h2e, _⟩ | ⟨h2ne, hb2⟩
      · exact h12 (h1e.trans h2e.symm)
      · rw [h1t] at hca
        exact hclash t2 thb i h2ne hb2 hca hcb
    · rcases hget t2 thb hb with ⟨_, h2t⟩ | ⟨h2ne, hb2⟩
      · rw [h2t] at hcb
        exact hclash t1 tha i h1ne ha2 hcb hca
      · exact hdis t1 t2 tha thb i h12 ha2 hb2 hca hcb
  · intro t2 ptr h hp
    rcases hget t2 _ h with ⟨_, h1⟩ | ⟨_, hold⟩
    · obtain ⟨i, hi⟩ := hex1 ptr h1.symm hp
      rw [← h1] at hi
      exact ⟨i, hi⟩
    · exact hex t2 ptr hold hp

end puddle

namespace puddle

variable {V : Type}

/-- One step of one thread keeps the invariant of the puddle, its page, and the facts
about the slots the threads hold. -/
theorem thread_step_claims (env : Env) (p q : Puddle V) (ths : List (Thread V))
    (t : Nat) (th th1 : Thread V) (hI : Inv env p)
    (hused : ∀ (t2 : Nat) (th2 : Thread V) (i : Nat), ths[t2]? = some th2 →
      th2.claims env p.state.page.base_addr i →
      i < vectorized_size env p ∧ p.ctrl[i]? = some slot_used)
    (hdis : ∀ (t1 t2 : Nat) (th1 th2 : Thread V) (i : Nat), t1 ≠ t2 →
      ths[t1]? = some th1 → ths[t2]? = some th2 →
      th1.claims env p.state.page.base_addr i →
      th2.claims env p.state.page.base_addr i → False)
    (hex : ∀ (t2 ptr : Nat), ths[t2]? = some (Thread.returned ptr) → ptr ≠ 0 →
      ∃ i, (Thread.returned ptr : Thread V).claims env p.state.page.base_addr i)
    (ht : ths[t]? = some th) (hs : thread_step env p th = some (q, th1)) :
    Inv env q ∧ q.state.page = p.state.page
    ∧ (∀ (t2 : Nat) (th2 : Thread V) (i : Nat), (ths.set t th1)[t2]? = some th2 →
      th2.claims env p.state.page.base_addr i →
      i < vectorized_size env q ∧ q.ctrl[i]? = some slot_used)
    ∧ (∀ (t1 t2 : Nat) (th1' th2 : Thread V) (i : Nat), t1 ≠ t2 →
      (ths.set t th1)[t1]? = some th1' → (ths.set t th1)[t2]? = some th2 →
      th1'.claims env p.state.page.base_addr i →
      th2.claims env p.state.page.base_addr i → False)
    ∧ (∀ (t2 ptr : Nat), (ths.set t th1)[t2]? = some (Thread.returned ptr) → ptr ≠ 0 →
      ∃ i, (Thread.returned ptr : Thread V).claims env p.state.page.base_addr i) := by
  have hvle : vectorized_size env p ≤ p.ctrl.length := by unfold vectorized_size; omega
  cases th with
  | calling os args =>
    simp only [thread_step] at hs
    rcases try_allocate_locked_cases env os p hI with
      ⟨e, q1, hl, hctrl, hIq, hpg⟩ | ⟨site, hl⟩ | ⟨q1, hl, hctrl, hIq, hpg⟩
        | ⟨j, q1, hl, hj, hje, hctrl, hIq, hpg⟩
    · rw [hl] at hs
      simp only [Option.some.injEq, Prod.mk.injEq] at hs
      obtain ⟨rfl, rfl⟩ := hs
      exact ⟨hIq, hpg, claims_carry env _ p q1 ths t _ _ hused hdis hex ht
        (by rw [hctrl]) (fun i h => (by rw [hctrl]; exact h))
        (fun i h => (by simp [Thread.claims] at h))
        (fun ptr h => (by cases h))⟩
    · rw [hl] at hs; cases hs
    · rw [hl] at hs
      simp only [Option.some.injEq, Prod.mk.injEq] at hs
      obtain ⟨rfl, rfl⟩ := hs
      exact ⟨hIq, hpg, claims_carry env _ p q1 ths t _ _ hused hdis hex ht
        (by rw [hctrl]) (fun i h => (by rw [hctrl]; exact h))
        (fun i h => (by simp [Thread.claims] at h))
        (fun ptr h hp => (by
          simp only [Thread.returned.injEq] at h
          exact absurd h.symm hp))⟩
    · rw [hl] at hs
      simp only [Option.some.injEq, Prod.mk.injEq] at hs
      obtain ⟨rfl, rfl⟩ := hs
      refine ⟨hIq, hpg, claims_carry env _ p q1 ths t _ _ hused hdis hex ht
        (by rw [hctrl]; simp) ?_ ?_ (fun ptr h => (by cases h))⟩
      · intro i h
        rw [hctrl, List.getElem?_set]
        by_cases hji : j = i
        · simp [hji]
          rcases Nat.lt_or_ge i p.ctrl.length with h1 | h1
          · exact h1
          · rw [List.getElem?_eq_none h1] at h; cases h
        · simp [hji, h]
      · intro i h
        simp only [Thread.claims] at h
        subst h
        right
        refine ⟨hj, hje, ?_⟩
        rw [hctrl, List.getElem?_set]
        simp; omega
  | unlocked idx args =>
    simp only [thread_step] at hs
    have hidx := hused t _ idx ht (by simp [Thread.claims])
    obtain ⟨hsz, _⟩ := slot_in_page env p hI idx (by omega)
    rcases try_allocate_construct_cases env p idx args with
      ⟨e, hc⟩ | ⟨site, hc⟩ | ⟨q1, hc, hctrl, hst, huse⟩
    · rw [hc] at hs
      simp only [Option.some.injEq, Prod.mk.injEq] at hs
      obtain ⟨rfl, rfl⟩ := hs
      exact ⟨hI, rfl, claims_carry env _ p p ths t _ _ hused hdis hex ht rfl
        (fun i h => h) (fun i h => (by simp [Thread.claims] at h))
        (fun ptr h => (by cases h))⟩
    · rw [hc] at hs; cases hs
    · rw [hc] at hs
      simp only [Option.some.injEq, Prod.mk.injEq] at hs
      obtain ⟨rfl, rfl⟩ := hs
      have hpg : q1.state.page = p.state.page := by rw [hst]
      have hIq : Inv env q1 :=
        hI.transfer (by rw [hctrl]) (by rw [hctrl]; exact hI.tail) (by rw [huse]; exact hI.use_le)
          hpg (by rw [hst]; exact hI.mingw)
      refine ⟨hIq, hpg, claims_carry env _ p q1 ths t _ _ hused hdis hex ht
        (by rw [hctrl]) (fun i h => (by rw [hctrl]; exact h)) ?_ ?_⟩
      · intro i h
        simp only [Thread.claims] at h
        left
        simp only [Thread.claims]
        by_contra hne
        exact slot_addr_ne _ _ _ _ hsz hne h.2
      · intro ptr h hp
        simp only [Thread.returned.injEq] at h
        exact ⟨idx, by simpa [Thread.claims, h] using hp, rfl⟩
  | returned ptr => simp [thread_step] at hs
  | threw e => simp [thread_step] at hs

end puddle

namespace puddle

variable {V : Type}

/-- Along every schedule the threads keep the facts about the slots they hold. -/
theorem run_threads_claims (env : Env) :
    ∀ (schedule : List Nat) (p q : Puddle V) (ths ths2 : List (Thread V)),
      Inv env p →
      (∀ (t2 : Nat) (th2 : Thread V) (i : Nat), ths[t2]? = some th2 →
        th2.claims env p.state.page.base_addr i →
        i < vectorized_size env p ∧ p.ctrl[i]? = some slot_used) →
      (∀ (t1 t2 : Nat) (th1 th2 : Thread V) (i : Nat), t1 ≠ t2 →
        ths[t1]? = some th1 → ths[t2]? = some th2 →
        th1.claims env p.state.page.base_addr i →
        th2.claims env p.state.page.base_addr i → False) →
      (∀ (t2 ptr : Nat), ths[t2]? = some (Thread.returned ptr) → ptr ≠ 0 →
        ∃ i, (Thread.returned ptr : Thread V).claims env p.state.page.base_addr i) →
      run_threads env p ths schedule = some (q, ths2) →
      Inv env q ∧ q.state.page = p.state.page
      ∧ (∀ (t1 t2 : Nat) (th1 th2 : Thread V) (i : Nat), t1 ≠ t2 →
        ths2[t1]? = some th1 → ths2[t2]? = some th2 →
        th1.claims env p.state.page.base_addr i →
        th2.claims env p.state.page.base_addr i → False)
      ∧ (∀ (t2 ptr : Nat), ths2[t2]? = some (Thread.returned ptr) → ptr ≠ 0 →
        ∃ i, (Thread.returned ptr : Thread V).claims env p.state.page.base_addr i) := by
  intro schedule
  induction schedule with
  | nil =>
    intro p q ths ths2 hI _ hdis hex hrun
    simp only [run_threads, Option.some.injEq, Prod.mk.injEq] at hrun
    obtain ⟨rfl, rfl⟩ := hrun
    exact ⟨hI, rfl, hdis, hex⟩
  | cons t schedule ih =>
    intro p q ths ths2 hI hused hdis hex hrun
    simp only [run_threads] at hrun
    cases ht : ths[t]? with
    | none => rw [ht] at hrun; cases hrun
    | some th =>
      rw [ht] at hrun
      simp only at hrun
      cases hs : thread_step env p th with
      | none => rw [hs] at hrun; cases hrun
      | some r =>
        obtain ⟨q1, th1⟩ := r
        rw [hs] at hrun
        simp only at hrun
        obtain ⟨hIq, hpg, hused1, hdis1, hex1⟩ :=
          thread_step_claims env p q1 ths t th th1 hI hused hdis hex ht hs
        rw [← hpg] at hused1 hdis1 hex1
        obtain ⟨hIq2, hpg2, hdis2, hex2⟩ :=
          ih q1 q (ths.set t th1) ths2 hIq hused1 hdis1 hex1 hrun
        rw [hpg] at hdis2 hex2
        exact ⟨hIq2, hpg2.trans hpg, hdis2, hex2⟩

/-- Threads that call `try_allocate` on one puddle in a reachable state, interleaved in
any way: the non-null pointers that different threads get address different slots, so
the objects do not overlap. -/
theorem threads_receive_distinct_slots (env : Env) (p q : Puddle V)
    (ths ths2 : List (Thread V)) (schedule : List Nat) (h : Reachable env p)
    (hcall : ∀ th ∈ ths, ∃ os args, th = Thread.calling os args)
    (hrun : run_threads env p ths schedule = some (q, ths2)) :
    ∀ (t1 t2 a b : Nat), t1 ≠ t2 → ths2[t1]? = some (Thread.returned a) →
      ths2[t2]? = some (Thread.returned b) → a ≠ 0 → b ≠ 0 →
      a + env.sizeof_T ≤ b ∨ b + env.sizeof_T ≤ a := by
  have hnone : ∀ (t2 : Nat) (th2 : Thread V) (i : Nat), ths[t2]? = some th2 →
      th2.claims env p.state.page.base_addr i → False := by
    intro t2 th2 i h2 hc
    obtain ⟨os, args, rfl⟩ := hcall th2 (List.getElem?_mem h2)
    simp [Thread.claims] at hc
  obtain ⟨_, _, hdis, hex⟩ := run_threads_claims env schedule p q ths ths2 h.inv
    (fun t2 th2 i h2 hc => (hnone t2 th2 i h2 hc).elim)
    (fun t1 t2 th1 th2 i _ h1 _ hc _ => hnone t1 th1 i h1 hc)
    (fun t2 ptr h2 _ => (by
      obtain ⟨os, args, hth⟩ := hcall (Thread.returned ptr) (List.getElem?_mem h2)
      cases hth))
    hrun
  intro t1 t2 a b h12 h1 h2 ha hb
  obtain ⟨i1, _, hi1⟩ := hex t1 a h1 ha
  obtain ⟨i2, _, hi2⟩ := hex t2 b h2 hb
  have hne : i1 ≠ i2 := by
    intro he
    subst he
    exact hdis t1 t2 _ _ i1 h12 h1 h2 ⟨ha, hi1⟩ ⟨hb, hi2⟩
  rcases Nat.lt_or_gt_of_ne hne with hlt | hgt
  · left
    have : (i1 + 1) * env.sizeof_T ≤ i2 * env.sizeof_T := Nat.mul_le_mul_right _ hlt
    rw [Nat.add_mul] at this
    omega
  · right
    have : (i2 + 1) * env.sizeof_T ≤ i1 * env.sizeof_T := Nat.mul_le_mul_right _ hgt
    rw [Nat.add_mul] at this
    omega

/-- Two threads on a new puddle of capacity 16, the second taking the lock while the
first has not constructed its object yet: they get the slots 0 and 1. -/
theorem threads_two_slots :
    (run_threads env_sixteen puddle_sixteen
        [.calling os_grants (some 1), .calling os_grants (some 2)] [0, 1, 1, 0]).map
      (fun r => (r.1.ctrl.take 3, r.2))
      = some ([0, 0, 0xFF], [.returned 65536, .returned 65792]) := rfl

end puddle

/-! ## The chunked scan and the linear search -/

namespace puddle

variable {V : Type}

/-- C32: on a slot-status vector whose length is a multiple of the batch size,
`find_empty` returns what the plain linear search for the Empty sentinel returns: the
same index, or the no-slot value when no slot is Empty, and the same puddle, in which
that one slot is marked Used. -/
theorem find_empty_eq_linear_search (env : Env) (p : Puddle V) (hw : 0 < env.simd_size)
    (hd : env.simd_size ∣ p.ctrl.length) :
    find_empty env p = linear_search_empty p := by
  have hmod : p.ctrl.length % env.simd_size = 0 := Nat.mod_eq_zero_of_dvd hd
  obtain ⟨hmem, hfirst, hnot⟩ := indexOf_spec slot_empty p.ctrl
  obtain ⟨hsome, hnone⟩ := find_empty_loop_spec env.simd_size p.ctrl.length p.ctrl hw hd
    p.ctrl.length 0 (Nat.dvd_zero _)
    (by
      have : p.ctrl.length * 1 ≤ p.ctrl.length * env.simd_size := Nat.mul_le_mul_left _ hw
      omega)
  unfold find_empty linear_search_empty
  simp only [hmod, Nat.sub_zero]
  cases hl : find_empty_loop env.simd_size p.ctrl.length p.ctrl p.ctrl.length 0 with
  | some j =>
    obtain ⟨_, hj, hje, hjfirst⟩ := hsome j hl
    have hm : slot_empty ∈ p.ctrl := List.getElem?_mem hje
    obtain ⟨hidx, hige⟩ := hmem hm
    have heq : p.ctrl.indexOf slot_empty = j := by
      rcases Nat.lt_trichotomy (p.ctrl.indexOf slot_empty) j with h | h | h
      · exact absurd hige (hjfirst _ (Nat.zero_le _) h)
      · exact h
      · exact absurd hje (hfirst j h)
    simp only [heq, hj, if_true]
  | none =>
    have hall := hnone hl
    have hm : slot_empty ∉ p.ctrl := by
      intro hm
      obtain ⟨hidx, hige⟩ := hmem hm
      exact hall _ (Nat.zero_le _) hidx hige
    have := hnot hm
    simp [this]

/-- In a new puddle of capacity 16 with batches of 16 both searches find slot 0. -/
theorem find_empty_eq_linear_search_witness :
    find_empty env_sixteen puddle_sixteen = linear_search_empty puddle_sixteen
    ∧ (linear_search_empty puddle_sixteen).1 = some 0 :=
  ⟨find_empty_eq_linear_search env_sixteen puddle_sixteen (by decide) (by decide), rfl⟩

end puddle

/-! ## The page handle of a puddle over time -/

namespace puddle

variable {V : Type}

theorem loan_not_reserved (env : Env) (os : OsReply) (st : PageState) (h : st.index ≠ 0) :
    (page_allocator.loan env os st).index ≠ 0 := by
  cases st with
  | allocated pg => exact absurd rfl h
  | committed pg =>
    cases hb : env.backend <;> simp only [page_allocator.loan, hb]
    · split <;> simp [PageState.index]
    · simp [PageState.index]
  | loaned pg => simp [page_allocator.loan, PageState.index]

/-- A call that returns or throws does not take a page handle that is not Reserved back
to Reserved. -/
theorem step_not_reserved (env : Env) (r q : Puddle V) (op : Op V) (hI : Inv env r)
    (hs : step env r op = some q) (hr : r.state.index ≠ 0) : q.state.index ≠ 0 := by
  cases op with
  | try_allocate os args =>
    simp only [step] at hs
    have hif : (if r.use = 0 then PageState.committed r.state.page else r.state).index ≠ 0 := by
      split
      · simp [PageState.index]
      · exact hr
    rcases try_allocate_cases env os r args hI with
      ⟨ho, _⟩ | ⟨ho, _⟩ | ⟨ho, _⟩ | ⟨_, ho⟩ | ⟨j, _, _, _, hcase⟩
    · rw [ho] at hs
      simp only [Outcome.state?, Option.some.injEq] at hs
      subst hs; exact hr
    · rw [ho] at hs; simp [Outcome.state?] at hs
    · rw [ho] at hs; simp [Outcome.state?] at hs
    · rw [ho] at hs
      simp only [Outcome.state?, Option.some.injEq] at hs
      subst hs; exact hif
    · rcases hcase with ⟨v, _, _, ho⟩ | ⟨_, _, ho⟩ | ⟨_, _, _, ho⟩
      · rw [ho] at hs
        simp only [Outcome.state?, Option.some.injEq] at hs
        subst hs; simp [PageState.index]
      · rw [ho] at hs
        simp only [Outcome.state?, Option.some.injEq] at hs
        subst hs; simp [PageState.index]
      · rw [ho] at hs
        simp only [Outcome.state?, Option.some.injEq] at hs
        subst hs; exact hr
  | deallocate ptr =>
    simp only [step] at hs
    rcases deallocate_cases env r ptr with
      ⟨_, ho⟩ | ⟨_, _, ho | ho⟩ | ⟨_, _, _, ho⟩ | ⟨_, _, _, _, _, ho⟩ | ⟨_, _, _, _, _, ho⟩
    · rw [ho] at hs
      simp only [Outcome.state?, Option.some.injEq] at hs
      subst hs; exact hr
    · rw [ho] at hs; simp [Outcome.state?] at hs
    · rw [ho] at hs
      simp only [Outcome.state?, Option.some.injEq] at hs
      subst hs; exact hr
    · rw [ho] at hs
      simp only [Outcome.state?, Option.some.injEq] at hs
      subst hs; exact hr
    · rw [ho] at hs
      simp only [Outcome.state?, Option.some.injEq] at hs
      subst hs; exact hr
    · rw [ho] at hs; simp [Outcome.state?] at hs
  | unused_in_allocation os =>
    simp only [step] at hs
    rcases unused_in_allocation_cases env os r hI.use_le with
      ⟨ho, _⟩ | ⟨_, _, ho⟩ | ⟨_, _, ho⟩
    · rw [ho] at hs
      simp only [Outcome.state?, Option.some.injEq] at hs
      subst hs
      simp only
      split
      · exact loan_not_reserved env os r.state hr
      · exact hr
    · rw [ho] at hs; simp [Outcome.state?] at hs
    · rw [ho] at hs; simp [Outcome.state?] at hs

/-- C33, as amended: a newly constructed puddle holds a Reserved page. In every
reachable state no call of `try_allocate`, `deallocate` or `unused_in_allocation` takes
a page handle that is Committed or Loaned back to Reserved. The first `try_allocate`
leaves the page Committed when it returns and when the exception of a constructor
escapes; when its commit is denied it leaves the page handle as it was, Reserved. -/
theorem page_not_reserved_again (env : Env) (os : OsReply) (p : Puddle V)
    (h : ctor env os = .ok p) :
    p.state.index = 0
    ∧ (∀ r : Puddle V, Reachable env r → ∀ op q, step env r op = some q →
      r.state.index ≠ 0 → q.state.index ≠ 0)
    ∧ (∀ os1 args ptr q, try_allocate env os1 p args = .ret ptr q → q.state.index = 1)
    ∧ (∀ os1 args q, try_allocate env os1 p args = .throw .constructor_failed q →
      q.state.index = 1)
    ∧ (∀ os1 args q, try_allocate env os1 p args = .throw .bad_alloc q →
      q.state = p.state ∧ q.state.index = 0) := by
  have hI := inv_ctor env os p h
  obtain ⟨hp, _, _⟩ := ctor_ok env os p h
  have hu : p.use = 0 := by rw [hp]
  have hidx : p.state.index = 0 := by rw [hp]; rfl
  refine ⟨hidx, fun r hr op q hs h0 => step_not_reserved env r q op hr.inv hs h0, ?_, ?_, ?_⟩
  · intro os1 args ptr q ht
    rcases try_allocate_cases env os1 p args hI with
      ⟨ho, _⟩ | ⟨ho, _⟩ | ⟨ho, _⟩ | ⟨_, ho⟩ | ⟨j, _, _, _, hcase⟩
    · rw [ho] at ht; cases ht
    · rw [ho] at ht; cases ht
    · rw [ho] at ht; cases ht
    · rw [ho] at ht
      simp only [Outcome.ret.injEq] at ht
      obtain ⟨_, rfl⟩ := ht
      simp [hu, PageState.index]
    · rcases hcase with ⟨v, _, _, ho⟩ | ⟨_, _, ho⟩ | ⟨_, _, _, ho⟩
      · rw [ho] at ht
        simp only [Outcome.ret.injEq] at ht
        obtain ⟨_, rfl⟩ := ht
        simp [PageState.index]
      · rw [ho] at ht; cases ht
      · rw [ho] at ht; cases ht
  · intro os1 args q ht
    rcases try_allocate_cases env os1 p args hI with
      ⟨ho, _⟩ | ⟨ho, _⟩ | ⟨ho, _⟩ | ⟨_, ho⟩ | ⟨j, _, _, _, hcase⟩
    · rw [ho] at ht; cases ht
    · rw [ho] at ht; cases ht
    · rw [ho] at ht; cases ht
    · rw [ho] at ht; cases ht
    · rcases hcase with ⟨v, _, _, ho⟩ | ⟨_, _, ho⟩ | ⟨_, _, _, ho⟩
      · rw [ho] at ht; cases ht
      · rw [ho] at ht
        simp only [Outcome.throw.injEq, true_and] at ht
        subst ht
        simp [PageState.index]
      · rw [ho] at ht; cases ht
  · intro os1 args q ht
    rcases try_allocate_cases env os1 p args hI with
      ⟨ho, _⟩ | ⟨ho, _⟩ | ⟨ho, _⟩ | ⟨_, ho⟩ | ⟨j, _, _, _, hcase⟩
    · rw [ho] at ht
      simp only [Outcome.throw.injEq, true_and] at ht
      subst ht
      exact ⟨rfl, hidx⟩
    · rw [ho] at ht; cases ht
    · rw [ho] at ht; cases ht
    · rw [ho] at ht; cases ht
    · rcases hcase with ⟨v, _, _, ho⟩ | ⟨_, _, ho⟩ | ⟨_, _, _, ho⟩
      · rw [ho] at ht; cases ht
      · rw [ho] at ht; cases ht
      · rw [ho] at ht; cases ht

/-! ## A commit that fails -/

/-- When the size of an element divides the page size, a pointer that passes the range
check of `deallocate` gives a slot index below the capacity. -/
theorem deallocate_index_in_bounds (env : Env) (p : Puddle V) (ptr : Nat) (hI : Inv env p)
    (hd : env.sizeof_T ∣ env.page_size)
    (h1 : p.state.page.base_addr ≤ ptr)
    (h2 : ptr < p.state.page.base_addr + p.state.page.size) :
    (ptr - p.state.page.base_addr) / env.sizeof_T < capacity p := by
  unfold capacity
  rw [hI.len]
  have := hI.size
  exact Nat.div_lt_div_of_lt_of_dvd hd (by omega)

end puddle

/-! ## Concrete puddles: page handle, failed commit, slot index -/

namespace puddle

/-- C33, the claim at a failing input: the first `try_allocate` on a new puddle, with
the OS denying the commit, throws `bad_alloc` and leaves a puddle whose page is
Reserved. -/
theorem page_reserved_after_try_allocate :
    ctor env_sixteen os_denies = .ok puddle_sixteen
    ∧ try_allocate env_sixteen os_denies puddle_sixteen (some 7) = .throw .bad_alloc puddle_denied
    ∧ Reachable env_sixteen puddle_denied
    ∧ puddle_denied.state.index = 0 :=
  ⟨rfl, rfl,
    Reachable.step puddle_sixteen (.try_allocate os_denies (some 7)) puddle_denied
      (Reachable.ctor os_denies puddle_sixteen rfl) rfl,
    rfl⟩

/-- A new puddle holds a Reserved page, and its first `try_allocate` commits it. -/
theorem page_not_reserved_again_witness :
    puddle_sixteen.state.index = 0 ∧ puddle_sixteen_one.state.index = 1 :=
  ⟨(page_not_reserved_again env_sixteen os_grants puddle_sixteen rfl).1,
    (page_not_reserved_again env_sixteen os_grants puddle_sixteen rfl).2.2.1
      os_grants (some 7) 65536 puddle_sixteen_one rfl⟩

/-- C34, the code at a failing input: in a puddle for elements of 240 bytes, of capacity
17, the pointer 4080 bytes behind the base address passes the range check of
`deallocate`, the slot index computed from it is 17, and `deallocate` writes behind the
end of the slot-status vector. -/
theorem deallocate_behind_last_slot :
    Reachable env_seventeen puddle_seventeen_one
    ∧ capacity puddle_seventeen_one = 17
    ∧ (decide (65536 ≤ 69616) && decide (69616 < 65536 + 4096)) = true
    ∧ (69616 - 65536) / env_seventeen.sizeof_T = 17
    ∧ deallocate env_seventeen puddle_seventeen_one 69616 = .out_of_bounds :=
  ⟨Reachable.step ⟨0, List.replicate 17 0xFF, .allocated ⟨65536, 4096⟩, fun _ => none⟩
      (.try_allocate os_grants (some 7)) puddle_seventeen_one
      (Reachable.ctor os_grants _ rfl) rfl,
    rfl, rfl, rfl, rfl⟩

end puddle

/-! ## The status bytes of the pool -/

namespace pool

variable {V : Type}

/-- The block of `allocate` that chooses a puddle frees no status byte. -/
theorem select_keeps_busy (pool : Pool V) (i : Nat)
    (h : (select pool).2.ctrl[i]? = some slot_empty) : pool.ctrl[i]? = some slot_empty := by
  have hne : slot_used ≠ slot_empty := by decide
  by_cases hm : slot_empty ∈ pool.ctrl
  · rw [select_free pool hm] at h
    simp only at h
    rw [List.getElem?_set] at h
    split at h
    · split at h
      · simp only [Option.some.injEq] at h
        exact absurd h hne
      · cases h
    · exact h
  · rw [select_no_free pool hm] at h
    simp only at h
    rcases Nat.lt_trichotomy i pool.ctrl.length with hlt | heq | hgt
    · rw [List.getElem?_append_left hlt] at h
      exact h
    · subst heq
      simp at h
      exact absurd h hne
    · rw [List.getElem?_eq_none (by simp; omega)] at h
      cases h

/-- The loop of `allocate` frees no status byte, whether it ends with a pointer or with
an exception. -/
theorem allocate_loop_keeps_busy (env : Env) (os : Nat → OsReply) (args : Option V) :
    ∀ (fuel : Nat) (pool pool2 : Pool V),
      ((∃ a, allocate_loop env os args fuel pool = some (.ret a pool2))
        ∨ (∃ e, allocate_loop env os args fuel pool = some (.throw e pool2))) →
      ∀ (i : Nat), pool2.ctrl[i]? = some slot_empty → pool.ctrl[i]? = some slot_empty := by
  intro fuel
  induction fuel with
  | zero =>
    intro pool pool2 h
    rcases h with ⟨a, h⟩ | ⟨e, h⟩ <;> simp [allocate_loop] at h
  | succ fuel ih =>
    intro pool pool2 h i hi
    apply select_keeps_busy pool i
    simp only [allocate_loop] at h
    split at h
    · rcases h with ⟨a, h⟩ | ⟨e, h⟩ <;> cases h
    · rcases h with ⟨a, h⟩ | ⟨e, h⟩ <;> cases h
    · split at h
      · split at h
        · exact ih _ pool2 h i hi
        · rcases h with ⟨a, h⟩ | ⟨e, h⟩
          · simp only [Option.some.injEq, PoolOutcome.ret.injEq] at h
            obtain ⟨_, rfl⟩ := h
            exact hi
          · cases h
      · rcases h with ⟨a, h⟩ | ⟨e, h⟩
        · cases h
        · simp only [Option.some.injEq, PoolOutcome.throw.injEq] at h
          obtain ⟨_, rfl⟩ := h
          exact hi
      · rcases h with ⟨a, h⟩ | ⟨e, h⟩ <;> cases h
      · rcases h with ⟨a, h⟩ | ⟨e, h⟩ <;> cases h

/-- The member `allocate` frees no status byte. -/
theorem allocate_keeps_busy (env : Env) (os : Nat → OsReply) (pool pool1 : Pool V)
    (args : Option V)
    (h : (∃ ptr, allocate env os pool args = some (.ret ptr pool1))
      ∨ (∃ e, allocate env os pool args = some (.throw e pool1))) :
    ∀ (i : Nat), pool1.ctrl[i]? = some slot_empty → pool.ctrl[i]? = some slot_empty := by
  unfold allocate at h
  cases hl : allocate_loop env os args (pool.ctrl.length + 1) pool with
  | none => rw [hl] at h; rcases h with ⟨a, h⟩ | ⟨e, h⟩ <;> cases h
  | some o =>
    rw [hl] at h
    cases o with
    | ret a pool2 =>
      have hk := allocate_loop_keeps_busy env os args _ pool pool2 (Or.inl ⟨a, hl⟩)
      simp only at h
      cases hn : notify_unused env os a.2 0 pool2.puddles with
      | ret u ps =>
        rw [hn] at h
        rcases h with ⟨ptr, h⟩ | ⟨e, h⟩
        · simp only [Option.some.injEq, PoolOutcome.ret.injEq] at h
          obtain ⟨_, rfl⟩ := h
          exact hk
        · cases h
      | throw x ps =>
        rw [hn] at h
        rcases h with ⟨ptr, h⟩ | ⟨e, h⟩
        · cases h
        · simp only [Option.some.injEq, PoolOutcome.throw.injEq] at h
          obtain ⟨_, rfl⟩ := h
          exact hk
      | abort site => rw [hn] at h; rcases h with ⟨ptr, h⟩ | ⟨e, h⟩ <;> cases h
      | out_of_bounds => rw [hn] at h; rcases h with ⟨ptr, h⟩ | ⟨e, h⟩ <;> cases h
      | null_dereference => rw [hn] at h; rcases h with ⟨ptr, h⟩ | ⟨e, h⟩ <;> cases h
    | throw e pool2 =>
      have hk := allocate_loop_keeps_busy env os args _ pool pool2 (Or.inr ⟨e, hl⟩)
      rcases h with ⟨ptr, h⟩ | ⟨e2, h⟩
      · cases h
      · simp only [Option.some.injEq, PoolOutcome.throw.injEq] at h
        obtain ⟨_, rfl⟩ := h
        exact hk
    | abort site => rcases h with ⟨ptr, h⟩ | ⟨e, h⟩ <;> cases h
    | out_of_bounds => rcases h with ⟨ptr, h⟩ | ⟨e, h⟩ <;> cases h
    | null_dereference => rcases h with ⟨ptr, h⟩ | ⟨e, h⟩ <;> cases h

/-- The loop of `deallocate` stops at a puddle whose `deallocate` has returned
`true`. -/
theorem probe_found (env : Env) (mem : Nat) :
    ∀ (ps ps1 : List (Option (Puddle V))) (i : Nat),
      probe env mem ps = .ret (some i) ps1 →
      ∃ p q, ps[i]? = some (some p) ∧ puddle.deallocate env p mem = .ret true q
        ∧ ps1[i]? = some (some q) := by
  intro ps
  induction ps with
  | nil => intro ps1 i h; simp [probe] at h
  | cons e rest ih =>
    intro ps1 i h
    cases e with
    | none => simp [probe] at h
    | some p =>
      simp only [probe] at h
      cases hd : puddle.deallocate env p mem with
      | ret b q =>
        rw [hd] at h
        cases b with
        | true =>
          simp only [PoolOutcome.ret.injEq, Option.some.injEq] at h
          obtain ⟨rfl, rfl⟩ := h
          exact ⟨p, q, by simp, hd, by simp⟩
        | false =>
          simp only at h
          cases hr : probe env mem rest with
          | ret o rest1 =>
            rw [hr] at h
            cases o with
            | none => simp at h
            | some k =>
              simp only [PoolOutcome.ret.injEq, Option.some.injEq] at h
              obtain ⟨rfl, rfl⟩ := h
              obtain ⟨p2, q2, h1, h2, h3⟩ := ih rest1 k hr
              exact ⟨p2, q2, by simpa using h1, h2, by simpa using h3⟩
          | throw x rest1 => rw [hr] at h; cases h
          | abort site => rw [hr] at h; cases h
          | out_of_bounds => rw [hr] at h; cases h
          | null_dereference => rw [hr] at h; cases h
      | throw x q => rw [hd] at h; cases h
      | abort site => rw [hd] at h; cases h
      | out_of_bounds => rw [hd] at h; cases h

/-- The first free status byte and the status bytes after it is set busy. -/
theorem ctrl_chosen_first (l : List Nat) (hm : slot_empty ∈ l) :
    l[l.indexOf slot_empty]? = some slot_empty
    ∧ (l.set (l.indexOf slot_empty) slot_used)[l.indexOf slot_empty]? = some slot_used
    ∧ (∀ (j : Nat), j < l.indexOf slot_empty →
      (l.set (l.indexOf slot_empty) slot_used)[j]? ≠ some slot_empty)
    ∧ (∀ (j : Nat), l.indexOf slot_empty < j →
      (l.set (l.indexOf slot_empty) slot_used)[j]? = l[j]?)
    ∧ (l.set (l.indexOf slot_empty) slot_used).length = l.length := by
  obtain ⟨hmem, hfirst, _⟩ := indexOf_spec slot_empty l
  obtain ⟨hlt, hget⟩ := hmem hm
  refine ⟨hget, ?_, ?_, ?_, by simp⟩
  · rw [List.getElem?_set]
    simp [hlt]
  · intro j hj
    rw [List.getElem?_set_ne (by omega)]
    exact hfirst j hj
  · intro j hj
    rw [List.getElem?_set_ne (by omega)]

/-- A status byte that is free after the first free one has been set busy was free
before and lies behind it. -/
theorem ctrl_chosen_later (l l2 : List Nat) (k : Nat)
    (h1 : (l.set (l.indexOf slot_empty) slot_used)[k]? = some slot_empty)
    (h2 : l2[k]? = some slot_used)
    (h3 : ∀ (j : Nat), j < k → l2[j]? ≠ some slot_empty)
    (h4 : ∀ (j : Nat), k < j → l2[j]? = (l.set (l.indexOf slot_empty) slot_used)[j]?)
    (h5 : l2.length = (l.set (l.indexOf slot_empty) slot_used).length) :
    l.indexOf slot_empty < k
    ∧ l[k]? = some slot_empty ∧ l2[k]? = some slot_used
    ∧ (∀ (j : Nat), j < k → l2[j]? ≠ some slot_empty)
    ∧ (∀ (j : Nat), k < j → l2[j]? = l[j]?)
    ∧ l2.length = l.length := by
  obtain ⟨_, hfirst, _⟩ := indexOf_spec slot_empty l
  have hne : slot_used ≠ slot_empty := by decide
  have hk : l.indexOf slot_empty ≠ k := by
    intro h
    rw [← h, List.getElem?_set] at h1
    split at h1
    · split at h1
      · simp only [Option.some.injEq] at h1
        exact hne h1
      · cases h1
    · exact absurd rfl ‹¬ l.indexOf slot_empty = l.indexOf slot_empty›
  rw [List.getElem?_set_ne hk] at h1
  have hlt : l.indexOf slot_empty < k := by
    rcases Nat.lt_trichotomy (l.indexOf slot_empty) k with h | h | h
    · exact h
    · exact absurd h hk
    · exact absurd h1 (hfirst k h)
  refine ⟨hlt, h1, h2, h3, ?_, by simpa using h5⟩
  intro j hj
  rw [h4 j hj, List.getElem?_set_ne (by omega)]

/-- Without a free status byte a round of the loop of `allocate` calls `try_allocate`
through the null entry it has appended. -/
theorem allocate_loop_no_free (env : Env) (os : Nat → OsReply) (args : Option V)
    (fuel : Nat) (pool : Pool V) (hm : slot_empty ∉ pool.ctrl) :
    allocate_loop env os args (fuel + 1) pool = some .null_dereference := by
  have hn : (pool.puddles ++ [none])[pool.puddles.length]? = some none := by simp
  simp only [allocate_loop, select_no_free pool hm, hn]

/-- The loop of `allocate` that ends with a pointer or with an exception has chosen, in
its last round, a puddle whose status byte was free when the call began; that byte is
busy afterwards, no status byte before it is free, those behind it are as they were,
and no status byte was added. The pointer is the one `try_allocate` of that puddle
returned. -/
theorem allocate_loop_selects (env : Env) (os : Nat → OsReply) (args : Option V) :
    ∀ (fuel : Nat) (pool pool2 : Pool V),
      (∀ (ptr k : Nat), allocate_loop env os args fuel pool = some (.ret (ptr, k) pool2) →
        (pool.ctrl[k]? = some slot_empty ∧ pool2.ctrl[k]? = some slot_used
          ∧ (∀ (j : Nat), j < k → pool2.ctrl[j]? ≠ some slot_empty)
          ∧ (∀ (j : Nat), k < j → pool2.ctrl[j]? = pool.ctrl[j]?)
          ∧ pool2.ctrl.length = pool.ctrl.length)
        ∧ ∃ (p q : Puddle V), pool.puddles[k]? = some (some p)
          ∧ puddle.try_allocate env (os k) p args = .ret ptr q
          ∧ pool2.puddles[k]? = some (some q) ∧ ptr ≠ 0)
      ∧ (∀ (e : Exn), allocate_loop env os args fuel pool = some (.throw e pool2) →
        ∃ (k : Nat), pool.ctrl[k]? = some slot_empty ∧ pool2.ctrl[k]? = some slot_used
          ∧ (∀ (j : Nat), j < k → pool2.ctrl[j]? ≠ some slot_empty)
          ∧ (∀ (j : Nat), k < j → pool2.ctrl[j]? = pool.ctrl[j]?)
          ∧ pool2.ctrl.length = pool.ctrl.length) := by
  intro fuel
  induction fuel with
  | zero =>
    intro pool pool2
    exact ⟨fun ptr k h => (by simp [allocate_loop] at h),
      fun e h => (by simp [allocate_loop] at h)⟩
  | succ fuel ih =>
    intro pool pool2
    by_cases hm : slot_empty ∈ pool.ctrl
    · obtain ⟨f1, f2, f3, f4, f5⟩ := ctrl_chosen_first pool.ctrl hm
      have hidx : pool.ctrl.indexOf slot_empty < pool.ctrl.length :=
        List.indexOf_lt_length.2 hm
      refine ⟨fun ptr k h => ?_, fun e h => ?_⟩
      · simp only [allocate_loop, select_free pool hm] at h
        split at h
        · cases h
        · cases h
        · rename_i p hp
          split at h
          · rename_i ptr1 q ht
            split at h
            · obtain ⟨⟨g1, g2, g3, g4, g5⟩, p2, q2, hp2, ht2, hq2, hne2⟩ :=
                (ih _ pool2).1 ptr k h
              obtain ⟨hlt, k1, k2, k3, k4, k5⟩ :=
                ctrl_chosen_later pool.ctrl pool2.ctrl k g1 g2 g3 g4 g5
              refine ⟨⟨k1, k2, k3, k4, k5⟩, p2, q2, ?_, ht2, hq2, hne2⟩
              simp only at hp2
              rw [List.getElem?_set_ne (by omega)] at hp2
              exact hp2
            · rename_i hne
              simp only [Option.some.injEq, PoolOutcome.ret.injEq, Prod.mk.injEq] at h
              obtain ⟨⟨rfl, rfl⟩, rfl⟩ := h
              refine ⟨⟨f1, f2, f3, f4, f5⟩, p, q, hp, ht, ?_, by simpa using hne⟩
              simp only
              rw [List.getElem?_set]
              have hlen : pool.ctrl.indexOf slot_empty < pool.puddles.length := by
                rcases Nat.lt_or_ge (pool.ctrl.indexOf slot_empty) pool.puddles.length
                  with hl | hl
                · exact hl
                · rw [List.getElem?_eq_none hl] at hp; cases hp
              simp [hlen]
          · cases h
          · cases h
          · cases h
      · simp only [allocate_loop, select_free pool hm] at h
        split at h
        · cases h
        · cases h
        · rename_i p hp
          split at h
          · rename_i ptr1 q ht
            split at h
            · obtain ⟨k, g1, g2, g3, g4, g5⟩ := (ih _ pool2).2 e h
              obtain ⟨_, k1, k2, k3, k4, k5⟩ :=
                ctrl_chosen_later pool.ctrl pool2.ctrl k g1 g2 g3 g4 g5
              exact ⟨k, k1, k2, k3, k4, k5⟩
            · cases h
          · simp only [Option.some.injEq, PoolOutcome.throw.injEq] at h
            obtain ⟨_, rfl⟩ := h
            exact ⟨_, f1, f2, f3, f4, f5⟩
          · cases h
          · cases h
    · rw [allocate_loop_no_free env os args fuel pool hm]
      exact ⟨fun ptr k h => (by cases h), fun e h => (by cases h)⟩

/-- The loop of `deallocate` stops at the first puddle whose `deallocate` returns
`true`. -/
theorem probe_first (env : Env) (mem : Nat) :
    ∀ (ps : List (Option (Puddle V))) (i : Nat) (p q : Puddle V),
      ps[i]? = some (some p) → puddle.deallocate env p mem = .ret true q →
      (∀ (j : Nat), j < i → ∃ (pj qj : Puddle V), ps[j]? = some (some pj)
        ∧ puddle.deallocate env pj mem = .ret false qj) →
      ∃ ps1, probe env mem ps = .ret (some i) ps1 ∧ ps1[i]? = some (some q) := by
  intro ps
  induction ps with
  | nil => intro i p q h; simp at h
  | cons e rest ih =>
    intro i p q hp hd hbefore
    cases i with
    | zero =>
      simp only [List.getElem?_cons_zero, Option.some.injEq] at hp
      subst hp
      exact ⟨some q :: rest, by simp [probe, hd], by simp⟩
    | succ i =>
      obtain ⟨p0, q0, h0, hd0⟩ := hbefore 0 (Nat.succ_pos i)
      simp only [List.getElem?_cons_zero, Option.some.injEq] at h0
      subst h0
      simp only [List.getElem?_cons_succ] at hp
      obtain ⟨ps1, h1, h2⟩ := ih i p q hp hd (fun j hj => by
        obtain ⟨pj, qj, hj1, hj2⟩ := hbefore (j + 1) (Nat.succ_lt_succ hj)
        exact ⟨pj, qj, by simpa using hj1, hj2⟩)
      exact ⟨some q0 :: ps1, by simp [probe, hd0, h1], by simpa using h2⟩

/-- C31: a call of `allocate` that returns has been served by a puddle `k` whose status
byte was free when the call began; afterwards that byte is busy, no status byte before
it is free (the free ones were chosen in index order and set busy), and the status
bytes behind it are as they were. A call that throws leaves the status bytes in the same
way. When no status byte is free the call chooses the entry it appends, with a busy
status byte, and ends in the call through that entry, which is null. A call of
`deallocate` sets the status byte of puddle `i` free when `deallocate` of that puddle
returns `true` for the pointer and puddles before it return `false`, whatever slots the
puddle is left with; a call that returns frees no other status byte, and no call of
`allocate` and no call of `deallocate` that throws frees one. -/
theorem pool_status_bytes (env : Env) (os : Nat → OsReply) (pool : Pool V) :
    (∀ (args : Option V) (ptr : Nat) (pool1 : Pool V),
      allocate env os pool args = some (.ret ptr pool1) →
      ∃ (k : Nat) (p q : Puddle V),
        pool.ctrl[k]? = some slot_empty
        ∧ pool.puddles[k]? = some (some p)
        ∧ puddle.try_allocate env (os k) p args = .ret ptr q
        ∧ pool1.puddles[k]? = some (some q)
        ∧ pool1.ctrl[k]? = some slot_used
        ∧ (∀ (j : Nat), j < k → pool1.ctrl[j]? ≠ some slot_empty)
        ∧ (∀ (j : Nat), k < j → pool1.ctrl[j]? = pool.ctrl[j]?)
        ∧ pool1.ctrl.length = pool.ctrl.length)
    ∧ (∀ (args : Option V) (e : Exn) (pool1 : Pool V),
      allocate env os pool args = some (.throw e pool1) →
      ∃ (k : Nat), pool.ctrl[k]? = some slot_empty
        ∧ pool1.ctrl[k]? = some slot_used
        ∧ (∀ (j : Nat), j < k → pool1.ctrl[j]? ≠ some slot_empty)
        ∧ (∀ (j : Nat), k < j → pool1.ctrl[j]? = pool.ctrl[j]?)
        ∧ pool1.ctrl.length = pool.ctrl.length)
    ∧ (slot_empty ∉ pool.ctrl →
      (select pool).1 = pool.puddles.length
      ∧ (select pool).2.ctrl = pool.ctrl ++ [slot_used]
      ∧ (select pool).2.puddles[(select pool).1]? = some none
      ∧ ∀ (args : Option V), allocate env os pool args = some .null_dereference)
    ∧ (∀ (mem i : Nat) (p q : Puddle V), i < pool.ctrl.length →
      pool.puddles[i]? = some (some p) → puddle.deallocate env p mem = .ret true q →
      (∀ (j : Nat), j < i → ∃ (pj qj : Puddle V), pool.puddles[j]? = some (some pj)
        ∧ puddle.deallocate env pj mem = .ret false qj) →
      ∃ (pool1 : Pool V), deallocate env pool mem = .ret () pool1
        ∧ pool1.ctrl = pool.ctrl.set i slot_empty
        ∧ pool1.ctrl[i]? = some slot_empty
        ∧ pool1.puddles[i]? = some (some q))
    ∧ (∀ (mem : Nat) (pool1 : Pool V), deallocate env pool mem = .ret () pool1 →
      pool1.ctrl = pool.ctrl
      ∨ ∃ (i : Nat) (p q : Puddle V), pool.puddles[i]? = some (some p)
        ∧ puddle.deallocate env p mem = .ret true q
        ∧ pool1.puddles[i]? = some (some q)
        ∧ pool1.ctrl = pool.ctrl.set i slot_empty
        ∧ pool1.ctrl[i]? = some slot_empty)
    ∧ (∀ (mem : Nat) (e : Exn) (pool1 : Pool V),
      deallocate env pool mem = .throw e pool1 → pool1.ctrl = pool.ctrl)
    ∧ (∀ (args : Option V) (pool1 : Pool V),
      ((∃ ptr, allocate env os pool args = some (.ret ptr pool1))
        ∨ (∃ e, allocate env os pool args = some (.throw e pool1))) →
      ∀ (i : Nat), pool1.ctrl[i]? = some slot_empty → pool.ctrl[i]? = some slot_empty) := by
  refine ⟨?_, ?_, ?_, ?_, ?_, ?_,
    fun args pool1 h => allocate_keeps_busy env os pool pool1 args h⟩
  · intro args ptr pool1 h
    unfold allocate at h
    cases hl : allocate_loop env os args (pool.ctrl.length + 1) pool with
    | none => rw [hl] at h; cases h
    | some o =>
      rw [hl] at h
      cases o with
      | ret a pool2 =>
        obtain ⟨ptr2, k⟩ := a
        simp only at h
        cases hn : notify_unused env os k 0 pool2.puddles with
        | ret u ps =>
          rw [hn] at h
          simp only [Option.some.injEq, PoolOutcome.ret.injEq] at h
          obtain ⟨rfl, rfl⟩ := h
          obtain ⟨⟨g1, g2, g3, g4, g5⟩, p, q, hp, ht, hq, _⟩ :=
            (allocate_loop_selects env os args _ pool pool2).1 ptr2 k hl
          have hk2 : k < pool2.puddles.length := by
            rcases Nat.lt_or_ge k pool2.puddles.length with hl2 | hl2
            · exact hl2
            · rw [List.getElem?_eq_none hl2] at hq; cases hq
          obtain ⟨_, hall⟩ := notify_unused_returned env os k pool2.puddles 0 ps hn
          have hsame := (hall k hk2).1 (by omega)
          exact ⟨k, p, q, g1, hp, ht, by simp only; rw [hsame]; exact hq, g2, g3, g4, g5⟩
        | throw x ps => rw [hn] at h; cases h
        | abort site => rw [hn] at h; cases h
        | out_of_bounds => rw [hn] at h; cases h
        | null_dereference => rw [hn] at h; cases h
      | throw e pool2 => cases h
      | abort site => cases h
      | out_of_bounds => cases h
      | null_dereference => cases h
  · intro args e pool1 h
    unfold allocate at h
    cases hl : allocate_loop env os args (pool.ctrl.length + 1) pool with
    | none => rw [hl] at h; cases h
    | some o =>
      rw [hl] at h
      cases o with
      | ret a pool2 =>
        obtain ⟨ptr2, k⟩ := a
        simp only at h
        cases hn : notify_unused env os k 0 pool2.puddles with
        | ret u ps => rw [hn] at h; cases h
        | throw x ps =>
          rw [hn] at h
          simp only [Option.some.injEq, PoolOutcome.throw.injEq] at h
          obtain ⟨_, rfl⟩ := h
          obtain ⟨⟨g1, g2, g3, g4, g5⟩, _⟩ :=
            (allocate_loop_selects env os args _ pool pool2).1 ptr2 k hl
          exact ⟨k, g1, g2, g3, g4, g5⟩
        | abort site => rw [hn] at h; cases h
        | out_of_bounds => rw [hn] at h; cases h
        | null_dereference => rw [hn] at h; cases h
      | throw e2 pool2 =>
        simp only [Option.some.injEq, PoolOutcome.throw.injEq] at h
        obtain ⟨rfl, rfl⟩ := h
        exact (allocate_loop_selects env os args _ pool pool2).2 e2 hl
      | abort site => cases h
      | out_of_bounds => cases h
      | null_dereference => cases h
  · intro hm
    refine ⟨by rw [select_no_free pool hm], by rw [select_no_free pool hm],
      by rw [select_no_free pool hm]; simp, ?_⟩
    intro args
    unfold allocate
    rw [allocate_loop_no_free env os args _ pool hm]
  · intro mem i p q hi hp hd hbefore
    obtain ⟨ps1, h1, h2⟩ := probe_first env mem pool.puddles i p q hp hd hbefore
    refine ⟨⟨pool.ctrl.set i slot_empty, ps1⟩, ?_, rfl, ?_, h2⟩
    · unfold deallocate
      rw [h1]
      simp [hi]
    · simp [List.getElem?_set, hi]
  · intro mem pool1 h
    unfold deallocate at h
    cases hp : probe env mem pool.puddles with
    | ret o ps =>
      rw [hp] at h
      cases o with
      | none =>
        simp only [PoolOutcome.ret.injEq, true_and] at h
        subst h
        left; rfl
      | some i =>
        simp only at h
        split at h
        · rename_i hi
          simp only [PoolOutcome.ret.injEq, true_and] at h
          subst h
          obtain ⟨p, q, h1, h2, h3⟩ := probe_found env mem pool.puddles ps i hp
          right
          refine ⟨i, p, q, h1, h2, h3, rfl, ?_⟩
          simp [List.getElem?_set, hi]
        · cases h
    | throw x ps => rw [hp] at h; cases h
    | abort site => rw [hp] at h; cases h
    | out_of_bounds => rw [hp] at h; cases h
    | null_dereference => rw [hp] at h; cases h
  · intro mem e pool1 h
    unfold deallocate at h
    cases hp : probe env mem pool.puddles with
    | ret o ps =>
      rw [hp] at h
      cases o with
      | none => cases h
      | some i =>
        simp only at h
        split at h <;> cases h
    | throw x ps =>
      rw [hp] at h
      simp only [PoolOutcome.throw.injEq] at h
      obtain ⟨_, rfl⟩ := h
      rfl
    | abort site => rw [hp] at h; cases h
    | out_of_bounds => rw [hp] at h; cases h
    | null_dereference => rw [hp] at h; cases h

set_option maxRecDepth 100000 in
/-- The status bytes at work: the first `allocate` on a new pool is served by puddle 0,
whose status byte was free and is busy afterwards. After an `allocate`, a
`deallocate(nullptr)` and a second `allocate` the puddle holds two objects, and the
`deallocate` of the first sets its status byte free while slot 1 is still Used. -/
theorem pool_status_bytes_witness :
    (∃ (k : Nat) (p q : Puddle Nat),
      pool_sixteen.ctrl[k]? = some slot_empty
      ∧ pool_sixteen.puddles[k]? = some (some p)
      ∧ puddle.try_allocate puddle.env_sixteen puddle.os_grants p (some 7) = .ret 65536 q
      ∧ pool_sixteen_one.puddles[k]? = some (some q)
      ∧ pool_sixteen_one.ctrl[k]? = some slot_used
      ∧ (∀ (j : Nat), j < k → pool_sixteen_one.ctrl[j]? ≠ some slot_empty)
      ∧ (∀ (j : Nat), k < j → pool_sixteen_one.ctrl[j]? = pool_sixteen.ctrl[j]?)
      ∧ pool_sixteen_one.ctrl.length = pool_sixteen.ctrl.length)
    ∧ run_calls puddle.env_sixteen pool_sixteen [] false
        [.allocate (fun _ => puddle.os_grants) (some 7), .deallocate 0,
          .allocate (fun _ => puddle.os_grants) (some 8)]
      = some (pool_sixteen_two, [(65792, 8), (65536, 7)], false)
    ∧ ∃ (pool1 : Pool Nat) (q : Puddle Nat),
      deallocate puddle.env_sixteen pool_sixteen_two 65536 = .ret () pool1
      ∧ pool1.ctrl = pool_sixteen_two.ctrl.set 0 slot_empty
      ∧ pool1.ctrl[0]? = some slot_empty
      ∧ pool1.puddles[0]? = some (some q)
      ∧ q.ctrl = slot_empty :: slot_used :: List.replicate 14 slot_empty := by
  refine ⟨(pool_status_bytes puddle.env_sixteen (fun _ => puddle.os_grants) pool_sixteen).1
    (some 7) 65536 pool_sixteen_one rfl, rfl, ?_⟩
  obtain ⟨pool1, h1, h2, h3, h4⟩ :=
    (pool_status_bytes puddle.env_sixteen (fun _ => puddle.os_grants)
      pool_sixteen_two).2.2.2.1 65536 0
      ⟨2, 0 :: 0 :: List.replicate 14 0xFF, .committed ⟨65536, 4096⟩,
        fun a => if a = 65792 then some 8 else if a = 65536 then some 7 else none⟩
      ⟨2, 0xFF :: 0 :: List.replicate 14 0xFF, .committed ⟨65536, 4096⟩,
        fun a => if a = 65536 then none
          else if a = 65792 then some 8 else if a = 65536 then some 7 else none⟩
      (by decide) rfl rfl (fun j hj => absurd hj (Nat.not_lt_zero j))
  exact ⟨pool1, _, h1, h2, h3, h4, rfl⟩

end pool

/-! ## The puddles an allocation does not try -/

namespace pool

variable {V : Type}

/-- The block of `allocate` that chooses a puddle does not choose a puddle whose status
byte is busy, and leaves that puddle and its status byte as they were. -/
theorem select_skips_busy (pool : Pool V) (i : Nat) (hi : i < pool.puddles.length)
    (hbusy : pool.ctrl[i]? ≠ some slot_empty) :
    (select pool).1 ≠ i
    ∧ (select pool).2.puddles[i]? = pool.puddles[i]?
    ∧ (select pool).2.ctrl[i]? ≠ some slot_empty
    ∧ i < (select pool).2.puddles.length := by
  by_cases hm : slot_empty ∈ pool.ctrl
  · obtain ⟨hmem, _, _⟩ := indexOf_spec slot_empty pool.ctrl
    have hne : pool.ctrl.indexOf slot_empty ≠ i := by
      intro h
      rw [← h] at hbusy
      exact hbusy (hmem hm).2
    rw [select_free pool hm]
    refine ⟨hne, rfl, ?_, hi⟩
    simp only
    rw [List.getElem?_set_ne hne]
    exact hbusy
  · rw [select_no_free pool hm]
    refine ⟨by simp only; omega, ?_, ?_, by simp; omega⟩
    · simp only
      rw [List.getElem?_append_left hi]
    · simp only
      have hne : slot_used ≠ slot_empty := by decide
      rcases Nat.lt_trichotomy i pool.ctrl.length with hlt | heq | hgt
      · rw [List.getElem?_append_left hlt]
        exact hbusy
      · subst heq
        simp
        exact hne
      · rw [List.getElem?_eq_none (by simp; omega)]
        simp

/-- The loop of `allocate` that ends with a pointer has not tried a puddle whose status
byte was busy when the call began: another puddle has served, and the puddle is as it
was. -/
theorem allocate_loop_untried (env : Env) (os : Nat → OsReply) (args : Option V) :
    ∀ (fuel : Nat) (pool pool2 : Pool V) (ptr k : Nat),
      allocate_loop env os args fuel pool = some (.ret (ptr, k) pool2) →
      ∀ (i : Nat), i < pool.puddles.length → pool.ctrl[i]? ≠ some slot_empty →
        k ≠ i ∧ pool2.puddles[i]? = pool.puddles[i]? := by
  intro fuel
  induction fuel with
  | zero => intro pool pool2 ptr k h; simp [allocate_loop] at h
  | succ fuel ih =>
    intro pool pool2 ptr k h i hi hbusy
    obtain ⟨s1, s2, s3, s4⟩ := select_skips_busy pool i hi hbusy
    simp only [allocate_loop] at h
    split at h
    · cases h
    · cases h
    · split at h
      · split at h
        · have hrec := ih _ pool2 ptr k h i (by simpa using s4) s3
          refine ⟨hrec.1, ?_⟩
          rw [hrec.2]
          simp only
          rw [List.getElem?_set_ne s1]
          exact s2
        · simp only [Option.some.injEq, PoolOutcome.ret.injEq, Prod.mk.injEq] at h
          obtain ⟨⟨_, rfl⟩, rfl⟩ := h
          refine ⟨s1, ?_⟩
          simp only
          rw [List.getElem?_set_ne s1]
          exact s2
      · cases h
      · cases h
      · cases h

/-- C36, the code at a failing input: on a new pool with puddles of capacity 16 the
first `allocate` returns a pointer and leaves the only status byte busy; the second
appends an entry to both lists and chooses it, the entry of the puddle list is empty, and
the call of `try_allocate` through it dereferences a null pointer. -/
theorem pool_null_entry :
    ctor puddle.env_sixteen puddle.os_grants = .ok pool_sixteen
    ∧ allocate puddle.env_sixteen (fun _ => puddle.os_grants) pool_sixteen (some 7)
        = some (.ret 65536 pool_sixteen_one)
    ∧ select pool_sixteen_one
        = (1, ⟨[slot_used, slot_used], [some puddle.puddle_sixteen_one, none]⟩)
    ∧ (select pool_sixteen_one).2.puddles[(select pool_sixteen_one).1]? = some none
    ∧ allocate puddle.env_sixteen (fun _ => puddle.os_grants) pool_sixteen_one (some 8)
        = some .null_dereference :=
  ⟨rfl, rfl, rfl, rfl, rfl⟩

/-- In a pool of whatever shape, a call of `allocate` that returns has not tried a puddle
whose status byte was busy when the call began, and has called `unused_in_allocation`
once on it at its end: the puddle ends the call with its counter one lower, or at 0
when it was 0, and with the slots and the objects it had. -/
theorem allocate_ages_untried (env : Env) (os : Nat → OsReply) (pool pool1 : Pool V)
    (args : Option V) (ptr : Nat)
    (hret : allocate env os pool args = some (.ret ptr pool1)) :
    ∀ (i : Nat) (p : Puddle V), pool.puddles[i]? = some (some p) →
      pool.ctrl[i]? ≠ some slot_empty → p.use ≤ 7 →
      ∃ (k : Nat) (pool2 : Pool V),
        allocate_loop env os args (pool.ctrl.length + 1) pool = some (.ret (ptr, k) pool2)
        ∧ k ≠ i ∧ pool2.puddles[i]? = some (some p)
        ∧ ∃ q : Puddle V, puddle.unused_in_allocation env (os i) p = .ret () q
          ∧ pool1.puddles[i]? = some (some q)
          ∧ q.use = p.use - 1 ∧ q.ctrl = p.ctrl ∧ q.objs = p.objs := by
  intro i p hp hbusy hle
  have hi : i < pool.puddles.length := by
    rcases Nat.lt_or_ge i pool.puddles.length with h | h
    · exact h
    · rw [List.getElem?_eq_none h] at hp; cases hp
  unfold allocate at hret
  cases hl : allocate_loop env os args (pool.ctrl.length + 1) pool with
  | none => rw [hl] at hret; cases hret
  | some o =>
    rw [hl] at hret
    cases o with
    | ret a pool2 =>
      obtain ⟨ptr2, k⟩ := a
      simp only at hret
      cases hn : notify_unused env os k 0 pool2.puddles with
      | ret u ps =>
        rw [hn] at hret
        simp only [Option.some.injEq, PoolOutcome.ret.injEq] at hret
        obtain ⟨rfl, rfl⟩ := hret
        obtain ⟨hk, hsame⟩ := allocate_loop_untried env os args _ pool pool2 ptr2 k hl i hi hbusy
        have hp2 : pool2.puddles[i]? = some (some p) := by rw [hsame]; exact hp
        have hi2 : i < pool2.puddles.length := by
          rcases Nat.lt_or_ge i pool2.puddles.length with h | h
          · exact h
          · rw [List.getElem?_eq_none h] at hp2; cases hp2
        obtain ⟨_, hall⟩ := notify_unused_returned env os k pool2.puddles 0 ps hn
        obtain ⟨p3, q, h1, h2, h3⟩ := (hall i hi2).2 (by omega)
        rw [hp2] at h1
        simp only [Option.some.injEq] at h1
        subst h1
        rw [Nat.zero_add] at h2
        refine ⟨k, pool2, rfl, hk, hp2, q, h2, h3, ?_⟩
        rcases puddle.unused_in_allocation_cases env (os i) p hle with hc | hc | hc
        · rw [hc.1] at h2
          simp only [Outcome.ret.injEq, true_and] at h2
          subst h2
          exact ⟨rfl, rfl, rfl⟩
        · rw [hc.2.2] at h2; cases h2
        · rw [hc.2.2] at h2; cases h2
      | throw x ps => rw [hn] at hret; cases hret
      | abort site => rw [hn] at hret; cases hret
      | out_of_bounds => rw [hn] at hret; cases hret
      | null_dereference => rw [hn] at hret; cases hret
    | throw e pool2 => cases hret
    | abort site => cases hret
    | out_of_bounds => cases hret
    | null_dereference => cases hret

end pool

end hvn

/-! # bit::ffs -/

namespace bit

theorem scan_forward_spec : ∀ (fuel x : Nat), 0 < x → x < 2 ^ fuel →
    scan_forward fuel x < fuel ∧ x.testBit (scan_forward fuel x) = true
      ∧ ∀ j, j < scan_forward fuel x → x.testBit j = false := by
  intro fuel
  induction fuel with
  | zero => intro x h0 h1; simp at h1; omega
  | succ fuel ih =>
    intro x h0 h1
    by_cases hx : x % 2 = 1
    · simp only [scan_forward, hx, if_true]
      refine ⟨by omega, ?_, fun j hj => (by omega)⟩
      rw [Nat.testBit_zero]; simp [hx]
    · have h2 : 0 < x / 2 := by omega
      have h3 : x / 2 < 2 ^ fuel := by
        rw [Nat.pow_succ] at h1; omega
      obtain ⟨ha, hb, hc⟩ := ih (x / 2) h2 h3
      simp only [scan_forward, hx, if_false]
      refine ⟨by omega, ?_, ?_⟩
      · rw [Nat.testBit_succ]; exact hb
      · intro j hj
        cases j with
        | zero => rw [Nat.testBit_zero]; simp; omega
        | succ j => rw [Nat.testBit_succ]; exact hc j (by omega)

theorem ffs_of_pos (c : Compiler) (x : Nat) (h0 : 0 < x) :
    ffs c x = scan_forward 64 x % 2 ^ 64 := by
  have hx : x ≠ 0 := by omega
  cases c with
  | gnu =>
    simp only [ffs, builtin_ffsll, hx, if_false]
    omega
  | msvc u =>
    simp only [ffs, BitScanForward64, hx, if_false]
    simp

theorem ffs_zero (c : Compiler) : ffs c 0 = 2 ^ 64 - 1 := by
  cases c with
  | gnu => rfl
  | msvc u => simp [ffs, BitScanForward64]

end bit
namespace bit

/-- C27: `bit::ffs(0)` is the all-ones value `std::size_t(-1)`. For every non-zero
64-bit `x`, `bit::ffs(x)` is below 64, bit `ffs(x)` of `x` is set and every lower bit is
clear; so `ffs(1 << k)` is `k` for every `k` from 0 to 63, and `ffs` of the all-ones
word is 0. The MSVC version returns what the GNU version returns, for every argument
and whatever `_BitScanForward64` leaves in `Index` when the mask is zero. -/
theorem ffs_least_set_bit (c : Compiler) :
    ffs c 0 = 2 ^ 64 - 1
    ∧ (∀ x, 0 < x → x < 2 ^ 64 →
      ffs c x < 64 ∧ x.testBit (ffs c x) = true ∧ ∀ j, j < ffs c x → x.testBit j = false)
    ∧ (∀ k, k < 64 → ffs c (1 <<< k) = k)
    ∧ ffs c 0xFFFFFFFFFFFFFFFF = 0
    ∧ (∀ u x, ffs (.msvc u) x = ffs .gnu x) := by
  have hspec : ∀ x, 0 < x → x < 2 ^ 64 →
      ffs c x < 64 ∧ x.testBit (ffs c x) = true
        ∧ ∀ j, j < ffs c x → x.testBit j = false := by
    intro x h0 h1
    obtain ⟨ha, hb, hc⟩ := scan_forward_spec 64 x h0 h1
    have he : ffs c x = scan_forward 64 x := by
      rw [ffs_of_pos c x h0]
      exact Nat.mod_eq_of_lt (by omega)
    rw [he]
    exact ⟨ha, hb, hc⟩
  refine ⟨ffs_zero c, hspec, ?_, ?_, ?_⟩
  · intro k hk
    have hpow : (1 <<< k : Nat) = 2 ^ k := by simp [Nat.shiftLeft_eq]
    have hlt : 2 ^ k < 2 ^ 64 := Nat.pow_lt_pow_right (by decide) hk
    obtain ⟨_, hb, _⟩ := hspec (2 ^ k) (Nat.pos_pow_of_pos k (by decide)) hlt
    rw [hpow]
    rw [Nat.testBit_two_pow] at hb
    have hk2 : k = ffs c (2 ^ k) := by simpa using hb
    exact hk2.symm
  · obtain ⟨_, _, hc⟩ := hspec 0xFFFFFFFFFFFFFFFF (by decide) (by decide)
    rcases Nat.eq_zero_or_pos (ffs c 0xFFFFFFFFFFFFFFFF) with h | h
    · exact h
    · have := hc 0 h
      simp [Nat.testBit_zero] at this
  · intro u x
    rcases Nat.eq_zero_or_pos x with h | h
    · subst h; rw [ffs_zero, ffs_zero]
    · rw [ffs_of_pos _ x h, ffs_of_pos _ x h]

theorem ffs_eq_size_max_iff (c : Compiler) (x : Nat) (hx : x < 2 ^ 64) :
    ffs c x = 2 ^ 64 - 1 ↔ x = 0 := by
  constructor
  · intro h
    rcases Nat.eq_zero_or_pos x with h0 | h0
    · exact h0
    · obtain ⟨ha, _, _⟩ := scan_forward_spec 64 x h0 hx
      rw [ffs_of_pos c x h0, Nat.mod_eq_of_lt (by omega)] at h
      omega
  · intro h
    subst h; exact ffs_zero c

theorem popcount_loop_eq_zero : ∀ (fuel x : Nat), x < 2 ^ fuel →
    (popcount_loop fuel x = 0 ↔ x = 0) := by
  intro fuel
  induction fuel with
  | zero => intro x h; simp at h; simp [popcount_loop, h]
  | succ fuel ih =>
    intro x h
    have h3 : x / 2 < 2 ^ fuel := by
      rw [Nat.pow_succ] at h; omega
    simp only [popcount_loop, Nat.add_eq_zero_iff, ih (x / 2) h3]
    omega

theorem popcount_eq_zero_iff (x : Nat) (hx : x < 2 ^ 64) : popcount x = 0 ↔ x = 0 :=
  popcount_loop_eq_zero 64 x hx

end bit

/-! # ffs_buffer -/

namespace ffs_buffer

variable {V : Type}

/-- The loop of `alloc_next_free_slot` runs to its end exactly when every control word it
visits is zero. -/
theorem alloc_next_free_slot_loop_none (c : Compiler) :
    ∀ (ctrl : List Nat) (i : Nat), (∀ x ∈ ctrl, x < 2 ^ 64) →
      (alloc_next_free_slot_loop c i ctrl = none ↔ ∀ x ∈ ctrl, x = 0) := by
  intro ctrl
  induction ctrl with
  | nil => intro i _; simp [alloc_next_free_slot_loop]
  | cons val rest ih =>
    intro i h
    have hv : val < 2 ^ 64 := h val (List.mem_cons_self _ _)
    have hrest : ∀ x ∈ rest, x < 2 ^ 64 := fun x hx => h x (List.mem_cons_of_mem _ hx)
    have hiff := bit.ffs_eq_size_max_iff c val hv
    by_cases h0 : val = 0
    · have hf : (bit.ffs c val == size_max) = true := by
        simpa [size_max] using hiff.2 h0
      simp only [alloc_next_free_slot_loop, hf, if_true]
      cases hl : alloc_next_free_slot_loop c (i + 1) rest with
      | none =>
        have := (ih (i + 1) hrest).1 hl
        simp only [true_iff]
        intro x hx
        rcases List.mem_cons.1 hx with rfl | hx
        · exact h0
        · exact this x hx
      | some r =>
        have hne : ¬ ∀ x ∈ rest, x = 0 := by
          intro hall
          have := (ih (i + 1) hrest).2 hall
          rw [hl] at this; cases this
        constructor
        · intro hc; cases hc
        · intro hall
          exact absurd (fun x hx => hall x (List.mem_cons_of_mem _ hx)) hne
    · have hf : (bit.ffs c val == size_max) = false := by
        have : ¬ bit.ffs c val = 2 ^ 64 - 1 := fun h => h0 (hiff.1 h)
        simpa [size_max] using this
      simp only [alloc_next_free_slot_loop, hf]
      simp only [Bool.false_eq_true, if_false]
      constructor
      · intro hc; cases hc
      · intro hall
        exact absurd (hall val (List.mem_cons_self _ _)) h0

/-- The index that the loop of `alloc_next_free_slot` returns is below `64 * size()`. -/
theorem alloc_next_free_slot_loop_lt (c : Compiler) :
    ∀ (ctrl : List Nat) (i r : Nat) (ctrl1 : List Nat), (∀ x ∈ ctrl, x < 2 ^ 64) →
      alloc_next_free_slot_loop c i ctrl = some (r, ctrl1) → r < (i + ctrl.length) * 64 := by
  intro ctrl
  induction ctrl with
  | nil => intro i r ctrl1 _ h; simp [alloc_next_free_slot_loop] at h
  | cons val rest ih =>
    intro i r ctrl1 h hl
    have hv : val < 2 ^ 64 := h val (List.mem_cons_self _ _)
    have hrest : ∀ x ∈ rest, x < 2 ^ 64 := fun x hx => h x (List.mem_cons_of_mem _ hx)
    simp only [alloc_next_free_slot_loop] at hl
    split at hl
    · cases hr : alloc_next_free_slot_loop c (i + 1) rest with
      | none => rw [hr] at hl; cases hl
      | some a =>
        obtain ⟨r2, rest1⟩ := a
        rw [hr] at hl
        simp only [Option.some.injEq, Prod.mk.injEq] at hl
        obtain ⟨rfl, _⟩ := hl
        have := ih (i + 1) r2 rest1 hrest hr
        simp only [List.length_cons]
        omega
    · rename_i hf
      simp only [Option.some.injEq, Prod.mk.injEq] at hl
      obtain ⟨rfl, _⟩ := hl
      have h0 : 0 < val := by
        rcases Nat.eq_zero_or_pos val with hz | hz
        · exfalso; apply hf
          simpa [size_max] using (bit.ffs_eq_size_max_iff c val hv).2 hz
        · exact hz
      obtain ⟨hlt, _, _⟩ := (bit.ffs_least_set_bit c).2.1 val h0 hv
      simp only [List.length_cons]
      have := Nat.mod_le (i * 8 * 8 + bit.ffs c val) (2 ^ 64)
      omega

/-- In every state `was_full` is `true` exactly when the next `insert` returns the null
reference; the buffer is then left as it is. -/
theorem was_full_iff_insert_null (t : Params) (b : FfsBuffer V) (val : Option V)
    (hw : ∀ x ∈ b.ctrl, x < 2 ^ 64) (hl : b.ctrl.length * 64 < 2 ^ 64) :
    (was_full b = true ↔ ∃ b1, insert t b val = .ret none b1)
    ∧ (was_full b = true → insert t b val = .ret none b) := by
  have hfull : was_full b = true ↔ ∀ x ∈ b.ctrl, x = 0 := by
    unfold was_full
    rw [List.all_eq_true]
    constructor
    · intro h x hx
      have := h x hx
      exact (bit.popcount_eq_zero_iff x (hw x hx)).1 (by simpa using this)
    · intro h x hx
      have := (bit.popcount_eq_zero_iff x (hw x hx)).2 (h x hx)
      simpa using this
  have hnone := alloc_next_free_slot_loop_none t.compiler b.ctrl 0 hw
  have hins : was_full b = true → insert t b val = .ret none b := by
    intro h
    have hloop := hnone.2 (hfull.1 h)
    simp [insert, alloc_next_free_slot, hloop]
  refine ⟨⟨fun h => ⟨b, hins h⟩, ?_⟩, hins⟩
  rintro ⟨b1, hb1⟩
  rw [hfull, ← hnone]
  cases hloop : alloc_next_free_slot_loop t.compiler 0 b.ctrl with
  | none => rfl
  | some a =>
    exfalso
    obtain ⟨r, ctrl1⟩ := a
    have hlt := alloc_next_free_slot_loop_lt t.compiler b.ctrl 0 r ctrl1 hw hloop
    have hne : (r == size_max) = false := by
      have : r ≠ 2 ^ 64 - 1 := by omega
      simpa [size_max] using this
    simp only [insert, alloc_next_free_slot, hloop, hne] at hb1
    simp only [Bool.false_eq_true, if_false] at hb1
    by_cases hin : typed_idx2buffer_idx t r + t.elem_size ≤ t.page_size
    · simp only [hin, if_true] at hb1
      cases val with
      | some v => simp at hb1
      | none =>
        simp only at hb1
        split at hb1 <;> cases hb1
    · simp only [hin, if_false] at hb1
      cases hb1

set_option maxRecDepth 100000 in
/-- C28, the code at a failing input: a new buffer for a type of 128 bytes has capacity
32; after 32 insertions, each of which returns a reference, `was_full` is `false`, and
the next `insert` constructs its object at `_data[4096]`, behind the end of `_data`. -/
theorem insert_past_capacity :
    capacity params_32 = 32
    ∧ (insert_each params_32 (ctor params_32) (List.range 32)).map
        (fun r => (r.1, r.2.ctrl, was_full r.2))
      = some ((List.range 32).map some, [0xFFFFFFFF00000000], false)
    ∧ (insert_each params_32 (ctor params_32) (List.range 32)).map
        (fun r => (alloc_next_free_slot params_32 r.2).1) = some 32
    ∧ typed_idx2buffer_idx params_32 32 = 4096
    ∧ (insert_each params_32 (ctor params_32) (List.range 32)).bind
        (fun r => some (insert params_32 r.2 (some 32))) = some .out_of_bounds :=
  ⟨rfl, rfl, rfl, rfl, rfl⟩

end ffs_buffer

/-! ## The number of insertions and the release of a slot -/

namespace ffs_buffer

set_option maxRecDepth 1000000 in
/-- C38, the code at failing inputs: a new buffer for a type of 8 bytes has capacity 512
and 8 control words, of which the constructor leaves all but the first zero; 64
insertions return the indices 0 to 63, after which `was_full` is `true` and the 65th
`insert` returns the null reference. A new buffer for a type of 128 bytes has capacity
32, and its 33rd `insert` is given the index 32 and does not return the null
reference. -/
theorem insert_count_not_capacity :
    capacity params_512 = 512
    ∧ ctrl_size params_512 = 8
    ∧ (ctor params_512 : FfsBuffer Nat).ctrl = 0xFFFFFFFFFFFFFFFF :: List.replicate 7 0
    ∧ (insert_each params_512 (ctor params_512) (List.range 65)).map
        (fun r => (r.1, r.2.ctrl, was_full r.2))
      = some ((List.range 64).map some ++ [none], List.replicate 8 0, true)
    ∧ capacity params_32 = 32
    ∧ (insert_each params_32 (ctor params_32) (List.range 32)).map
        (fun r => ((alloc_next_free_slot params_32 r.2).1, was_full r.2)) = some (32, false)
    ∧ (insert_each params_32 (ctor params_32) (List.range 33)).map (fun r => r.1) = none :=
  ⟨rfl, rfl, rfl, rfl, rfl, rfl, rfl⟩

set_option maxRecDepth 1000000 in
/-- C39, the code at failing inputs: in a new buffer for a type of 8 bytes the ninth
`insert` returns the index 8 and clears bit 8 of the first control word; `remove` of
that index, and `checked_remove` as well, with or without `NDEBUG`, sets bit 0 of the
second control word and leaves bit 8 of the first cleared. In a new buffer for a type of
128 bytes, which has one control word, `remove` of the index 1 that the second `insert`
returned accesses `_ctrl[1]`. -/
theorem remove_sets_another_bit :
    destructure_idx params_512 8 = (1, 0)
    ∧ (insert_each params_512 (ctor params_512) (List.range 8)).map
        (fun r => (r.1, r.2.ctrl))
      = some ((List.range 8).map some, 0xFFFFFFFFFFFFFF00 :: List.replicate 7 0)
    ∧ (insert_each params_512 (ctor params_512) (List.range 9)).map
        (fun r => (r.1, r.2.ctrl))
      = some ((List.range 9).map some, 0xFFFFFFFFFFFFFE00 :: List.replicate 7 0)
    ∧ (insert_each params_512 (ctor params_512) (List.range 9)).bind
        (fun r => returned_ctrl (remove params_512 r.2 8))
      = some (0xFFFFFFFFFFFFFE00 :: 1 :: List.replicate 6 0)
    ∧ (insert_each params_512 (ctor params_512) (List.range 9)).bind
        (fun r => returned_ctrl (checked_remove params_512 r.2 8))
      = some (0xFFFFFFFFFFFFFE00 :: 1 :: List.replicate 6 0)
    ∧ (insert_each params_512_debug (ctor params_512_debug) (List.range 9)).bind
        (fun r => returned_ctrl (checked_remove params_512_debug r.2 8))
      = some (0xFFFFFFFFFFFFFE00 :: 1 :: List.replicate 6 0)
    ∧ destructure_idx params_32 1 = (1, 0)
    ∧ (insert_each params_32 (ctor params_32) (List.range 2)).map
        (fun r => (r.1, r.2.ctrl)) = some ([some 0, some 1], [0xFFFFFFFFFFFFFFFC])
    ∧ (insert_each params_32 (ctor params_32) (List.range 2)).bind
        (fun r => some (remove params_32 r.2 1)) = some .out_of_bounds
    ∧ (insert_each params_32 (ctor params_32) (List.range 2)).bind
        (fun r => some (checked_remove params_32 r.2 1)) = some .out_of_bounds :=
  ⟨rfl, rfl, rfl, rfl, rfl, rfl, rfl, rfl, rfl, rfl⟩

end ffs_buffer
